import Mathlib

/-!
Verification of the PRTG API client (`app/prtg/client.py`) against its
natural-language specification.

The development shallowly embeds the Python client: entity attribute state
becomes an insertion-ordered association list (`Attrs`, mirroring Python
`setattr` on instance attributes), HTTP responses become explicit `HResp`
values supplied to each operation, fallible Python code (exceptions) becomes
`Except Err`, and BeautifulSoup documents become the `XNode` tree type.
Object identity (Python `is`, relevant to reconciliation claims) is modelled
by an allocation token threaded through all constructors.
-/

set_option autoImplicit false

namespace Prtg

/-- Entity attribute state: an insertion-ordered association list, mirroring a
Python instance's attribute dictionary. -/
abbrev Attrs := List (String × String)

/-- Python attribute lookup (`getattr`); `none` models an unset attribute /
`None`-initialised field. -/
def lookupA (k : String) : Attrs → Option String
  | [] => none
  | (k', v) :: t => if k' = k then some v else lookupA k t

/-- Python `setattr`: replace the value in place when the key exists
(preserving its slot), otherwise append the new binding. -/
def setA (k v : String) : Attrs → Attrs
  | [] => [(k, v)]
  | (k', v') :: t => if k' = k then (k, v) :: t else (k', v') :: setA k v t

/-- Python `str(x)` applied to a possibly-`None` attribute, as used when
formatting ids into URLs. -/
def pyStr : Option String → String
  | none => "None"
  | some s => s

@[simp] theorem lookupA_nil (k : String) : lookupA k [] = none := rfl

theorem lookupA_setA_self (k v : String) (a : Attrs) :
    lookupA k (setA k v a) = some v := by
  induction a with
  | nil => simp [setA, lookupA]
  | cons h t ih =>
    obtain ⟨k', v'⟩ := h
    by_cases hk : k' = k
    · simp [setA, hk, lookupA]
    · simp [setA, hk, lookupA, ih]

theorem lookupA_setA_other (k k' v : String) (a : Attrs) (h : k' ≠ k) :
    lookupA k' (setA k v a) = lookupA k' a := by
  induction a with
  | nil => simp [setA, lookupA, Ne.symm h]
  | cons hd t ih =>
    obtain ⟨k₀, v₀⟩ := hd
    by_cases hk : k₀ = k
    · subst hk
      simp [setA, lookupA, Ne.symm h]
    · simp [setA, hk, lookupA, ih]

/-- Upserting the value already present leaves the attribute list unchanged. -/
theorem setA_id_of_lookupA (k v : String) (a : Attrs)
    (h : lookupA k a = some v) : setA k v a = a := by
  induction a with
  | nil => simp [lookupA] at h
  | cons hd t ih =>
    obtain ⟨k₀, v₀⟩ := hd
    by_cases hk : k₀ = k
    · subst hk
      simp only [lookupA, if_pos rfl] at h
      injection h with h
      subst h
      simp [setA]
    · simp only [lookupA, if_neg hk] at h
      simp [setA, hk, ih h]

/-! ## Connection layer (`ConnectionMethods`) -/

/-- An HTTP response as seen by the client: status code and body text.
The transport itself (`requests.get`) is an external collaborator; each
modelled operation receives the response the server would have produced. -/
structure HResp where
  status : Nat
  body : String
deriving DecidableEq, Repr

/-- Connection configuration, as unpacked by `ConnectionMethods.unpack_config`
from the `confdata` tuple. TLS verification is transport-level and carries no
logic here. -/
structure Conf where
  host : String
  port : String
  user : String
  passhash : String
  protocol : String
deriving DecidableEq, Repr

/-- `self.base_url` as computed by `unpack_config`. -/
def baseUrl (c : Conf) : String :=
  c.protocol ++ "://" ++ c.host ++ ":" ++ c.port ++ "/api/"

/-- `self.base_url_no_api` as computed by `unpack_config`. -/
def baseUrlNoApi (c : Conf) : String :=
  c.protocol ++ "://" ++ c.host ++ ":" ++ c.port ++ "/"

/-- `self.url_auth` as computed by `unpack_config`. -/
def urlAuth (c : Conf) : String :=
  "username=" ++ c.user ++ "&passhash=" ++ c.passhash

/-- The absolute URL `get_request` issues for a given relative `url_string`. -/
def requestUrl (c : Conf) (url_string : String) (api : Bool) : String :=
  if api then baseUrl c ++ url_string ++ "&" ++ urlAuth c
  else baseUrlNoApi c ++ url_string ++ "&" ++ urlAuth c

/-- Python exceptions raised (directly or indirectly) by the client. -/
inductive Err where
  | authentication (msg : String)
  | resourceNotFound (msg : String)
  | valueError
  | attributeError
  | nameError
  | indexError
  | keyError
  | eofError
deriving DecidableEq, Repr

/-- Message of the `AuthenticationError` raised by `get_request` on 401. -/
def authFailMsg : String :=
  "PRTG authentication failed. Check credentials in config file"

/-- Message of the `ResourceNotFound` raised by `get_request` on 404. -/
def notFoundMsg (url : String) : String :=
  "No resource at URL used: " ++ url

/-- `ConnectionMethods.get_request`: classifies the HTTP response.
Returns the response on 200, raises on 401/404, and — exactly as the Python
function body — falls off the end returning `None` (`Except.ok none`) for any
other status code. -/
def get_request (c : Conf) (url_string : String) (api : Bool) (resp : HResp) :
    Except Err (Option HResp) :=
  let url := requestUrl c url_string api
  if resp.status = 200 then .ok (some resp)
  else if resp.status = 401 then .error (.authentication authFailMsg)
  else if resp.status = 404 then .error (.resourceNotFound (notFoundMsg url))
  else .ok none

/-! ## Shared node behaviour (`BaseConfig`) -/

/-- `BaseConfig.pause`: builds the pause URL (timed vs indefinite, optional
message), issues the request via `get_request`, and — only if that did not
raise — marks the node paused locally. The request's return value is
discarded (`_ =` in the source). -/
def pause (c : Conf) (a : Attrs) (duration : Int) (message : String)
    (resp : HResp) : Except Err Attrs :=
  let pause_url :=
    if duration > 0 then
      "pauseobjectfor.htm?id=" ++ pyStr (lookupA "id" a) ++ "&duration=" ++
        toString duration
    else
      "pause.htm?id=" ++ pyStr (lookupA "id" a) ++ "&action=0"
  let pause_url :=
    if message ≠ "" then pause_url ++ "&pausemsg=" ++ message else pause_url
  match get_request c pause_url true resp with
  | .error e => .error e
  | .ok _ =>
      .ok (setA "status_raw" "7" (setA "active" "false" (setA "status" "Paused" a)))

/-- `BaseConfig.set_property`: issues `setobjectproperty.htm` (with the
channel dual addressing when `self.type == "Channel"`), discards the
response, then executes `self.name = value` — it always overwrites the local
`name` attribute with the value, whatever property was set. -/
def set_property (c : Conf) (a : Attrs) (name value : String) (resp : HResp) :
    Except Err Attrs :=
  let setprop_url :=
    if lookupA "type" a ≠ some "Channel" then
      "setobjectproperty.htm?id=" ++ pyStr (lookupA "id" a) ++ "&name=" ++
        name ++ "&value=" ++ value
    else
      "setobjectproperty.htm?id=" ++ pyStr (lookupA "sensorid" a) ++
        "&subid=" ++ pyStr (lookupA "objid" a) ++ "&name=" ++ name ++
        "&value=" ++ value
  match get_request c setprop_url true resp with
  | .error e => .error e
  | .ok _ => .ok (setA "name" value a)

/-- `BaseConfig.set_interval`: delegates to `set_property` with the
property name `"interval"`. -/
def set_interval (c : Conf) (a : Attrs) (interval : String) (resp : HResp) :
    Except Err Attrs :=
  set_property c a "interval" interval resp

/-- `BaseConfig.get_property`: issues `getobjectproperty.htm`, parses the
response body (the XML envelope extraction `soup.result.text` is an external
collaborator per spec §1, so the body stands for the extracted result text),
stores the text under the requested attribute name unless the server reports
`"(Property not found)"`, in which case it raises `ResourceNotFound`.
Accessing `req.text` on the `None` returned for unclassified statuses is an
`AttributeError`. -/
def get_property (c : Conf) (a : Attrs) (name : String) (resp : HResp) :
    Except Err (Attrs × String) :=
  let getprop_url :=
    if lookupA "type" a ≠ some "Channel" then
      "getobjectproperty.htm?id=" ++ pyStr (lookupA "id" a) ++ "&name=" ++
        name ++ "&show=text"
    else
      "getobjectproperty.htm?id=" ++ pyStr (lookupA "sensorid" a) ++
        "&subid=" ++ pyStr (lookupA "objid" a) ++ "&name=" ++ name
  match get_request c getprop_url true resp with
  | .error e => .error e
  | .ok none => .error .attributeError
  | .ok (some r) =>
      if r.body ≠ "(Property not found)" then
        .ok (setA name r.body a, r.body)
      else
        .error (.resourceNotFound ("No object property of name: " ++ name))

/-! ## Historic data (`PRTGHistoricData`) -/

/-- Helper for `pySplit`: split on the (single-character) separator,
accumulating the current field in reverse. -/
def pySplitAux (sep : Char) : List Char → List Char → List String
  | [], cur => [String.mk cur.reverse]
  | c :: t, cur =>
      if c = sep then String.mk cur.reverse :: pySplitAux sep t []
      else pySplitAux sep t (c :: cur)

/-- Python `str.split(sep)` for a one-character separator: splits at every
occurrence, keeping empty fields (so a trailing separator yields a trailing
empty string). -/
def pySplit (sep : Char) (s : String) : List String :=
  pySplitAux sep s.toList []

/-- Python `int(s)` restricted to unsigned digit strings (what a `strptime`
numeric field accepts): all digits, nonempty. -/
def pyToNat (s : String) : Option Nat :=
  if s.toList ≠ [] ∧ s.toList.all Char.isDigit then
    some (s.toList.foldl (fun n c => n * 10 + (c.toNat - 48)) 0)
  else none

/-- A parsed `datetime.datetime` value (date and time of day). -/
structure PyDateTime where
  year : Nat
  month : Nat
  day : Nat
  hour : Nat
  minute : Nat
  second : Nat
deriving DecidableEq, Repr

/-- Gregorian leap-year rule, as validated by `datetime`. -/
def leapYear (y : Nat) : Bool :=
  (y % 4 == 0 && y % 100 != 0) || y % 400 == 0

/-- Days in a month, as validated by `datetime`. -/
def daysInMonth (y m : Nat) : Nat :=
  if m = 2 then (if leapYear y then 29 else 28)
  else if m = 4 ∨ m = 6 ∨ m = 9 ∨ m = 11 then 30
  else 31

/-- A numeric `strptime` field: all digits, nonempty, at most `maxLen`
digits. -/
def parseNumField (maxLen : Nat) (s : String) : Option Nat :=
  if s.toList.length ≤ maxLen then pyToNat s else none

/-- `datetime.strptime(cell, "%m/%d/%Y %I:%M:%S %p")`: twelve-hour clock
with AM/PM marker, with the range validation `strptime` performs. -/
def strptime_mdy (s : String) : Option PyDateTime :=
  match pySplit ' ' s with
  | [datePart, timePart, ampm] =>
    match pySplit '/' datePart, pySplit ':' timePart with
    | [ms, ds, ys], [hs, mins, ss] => do
      let m ← parseNumField 2 ms
      let d ← parseNumField 2 ds
      let y ← parseNumField 4 ys
      let h12 ← parseNumField 2 hs
      let mi ← parseNumField 2 mins
      let se ← parseNumField 2 ss
      if 1 ≤ m ∧ m ≤ 12 ∧ 1 ≤ d ∧ d ≤ daysInMonth y m ∧ 1 ≤ h12 ∧
          h12 ≤ 12 ∧ mi ≤ 59 ∧ se ≤ 59 ∧ (ampm = "AM" ∨ ampm = "PM") then
        some ⟨y, m, d, (if ampm = "PM" then h12 % 12 + 12 else h12 % 12),
          mi, se⟩
      else none
    | _, _ => none
  | _ => none

/-- Zero-padded two-digit field of `strftime`. -/
def pad2 (n : Nat) : String :=
  if n < 10 then "0" ++ toString n else toString n

/-- Zero-padded four-digit year field of `strftime`. -/
def pad4 (n : Nat) : String :=
  if n < 10 then "000" ++ toString n
  else if n < 100 then "00" ++ toString n
  else if n < 1000 then "0" ++ toString n
  else toString n

/-- `PRTGHistoricData.format_date`: `strftime("%Y-%m-%d-%H-%M-%S")`. -/
def format_date (d : PyDateTime) : String :=
  pad4 d.year ++ "-" ++ pad2 d.month ++ "-" ++ pad2 d.day ++ "-" ++
    pad2 d.hour ++ "-" ++ pad2 d.minute ++ "-" ++ pad2 d.second

/-- The `isinstance(-, datetime)` dispatch at the top of
`get_historic_data`: a structured date is formatted, a string is passed on
unchanged. -/
def toDateParam : Sum PyDateTime String → String
  | .inl d => format_date d
  | .inr s => s

/-- One line split into CSV fields (`csv.reader`, default dialect): fields
separated by commas, a double quote at field start opens a quoted section in
which `""` is an escaped quote. CSV decoding is an external collaborator
(spec §1); this is its standard behaviour on one record. -/
def csvFieldsAux : List Char → Bool → List Char → List String
  | [], _, cur => [String.mk cur.reverse]
  | '"' :: '"' :: t2, true, cur => csvFieldsAux t2 true ('"' :: cur)
  | '"' :: t, true, cur => csvFieldsAux t false cur
  | c :: t, true, cur => csvFieldsAux t true (c :: cur)
  | ',' :: t, false, cur => String.mk cur.reverse :: csvFieldsAux t false []
  | '"' :: t, false, cur =>
      if cur.isEmpty then csvFieldsAux t true cur
      else csvFieldsAux t false ('"' :: cur)
  | c :: t, false, cur => csvFieldsAux t false (c :: cur)

/-- Split one CSV line into its fields. -/
def csvSplitLine (s : String) : List String :=
  csvFieldsAux s.toList false []

/-- First index of the pattern `pat` as a sublist (Python `str.index`),
`none` when absent (Python raises `ValueError`). -/
def subIdxAux (pat : List Char) : List Char → Nat → Option Nat
  | [], i => if pat = [] then some i else none
  | c :: t, i =>
      if pat.isPrefixOf (c :: t) then some i else subIdxAux pat t (i + 1)

/-- The daylight-saving strip in `get_historic_data`:
`if "-" in cell: cell = cell[: cell.index(" -")]`. Note the guard tests for
a bare `"-"` while the strip point is the first `" -"`; a cell containing a
dash but no `" -"` raises `ValueError`. -/
def stripDst (cell : String) : Except Err String :=
  if cell.toList.contains '-' then
    match subIdxAux (" -".toList) cell.toList 0 with
    | some i => .ok (String.mk (cell.toList.take i))
    | none => .error .valueError
  else .ok cell

/-- Strip the DST suffix then `strptime` the cell; an unparsable cell is a
`ValueError`, as in `datetime.strptime`. -/
def dateTimeCell (cell : String) : Except Err PyDateTime :=
  match stripDst cell with
  | .error e => .error e
  | .ok c' =>
    match strptime_mdy c' with
    | some dt => .ok dt
    | none => .error .valueError

/-- A cell of the column-oriented result: raw string, or parsed timestamp
for the `"Date Time"` column. -/
inductive Cell where
  | str (s : String)
  | time (t : PyDateTime)
deriving DecidableEq, Repr

/-- The column-oriented result `data`: a Python dict from header name to the
column's cells, modelled as an insertion-ordered association list. -/
abbrev Table := List (String × List Cell)

/-- `data[header] = []`: (re)bind the key to an empty list, keeping its slot
when it already exists. -/
def dictReset (k : String) : Table → Table
  | [] => [(k, [])]
  | (k', cs) :: t =>
      if k' = k then (k', []) :: t else (k', cs) :: dictReset k t

/-- `data[h].append(c)`: append to the value of the first binding of `h`;
`none` when the key is absent (Python `KeyError`). -/
def dictAppend (k : String) (c : Cell) : Table → Option Table
  | [] => none
  | (k', cs) :: t =>
      if k' = k then some ((k', cs ++ [c]) :: t)
      else (dictAppend k c t).map (fun t' => (k', cs) :: t')

/-- `for header in headers: data[header] = []`. -/
def initHeaders : List String → Table → Table
  | [], t => t
  | h :: rest, t => initHeaders rest (dictReset h t)

/-- The body of the per-cell loop `for inde, cell in enumerate(row)`:
look up `headers[inde]` (IndexError when the row is longer than the
header row), parse `"Date Time"` cells, append to the column. -/
def processCells (headers : List String) :
    List String → Nat → Table → Except Err Table
  | [], _, t => .ok t
  | cell :: rest, inde, t =>
    match headers[inde]? with
    | none => .error .indexError
    | some h =>
      if h = "Date Time" then
        match dateTimeCell cell with
        | .error e => .error e
        | .ok dt =>
          match dictAppend h (.time dt) t with
          | none => .error .keyError
          | some t' => processCells headers rest (inde + 1) t'
      else
        match dictAppend h (.str cell) t with
        | none => .error .keyError
        | some t' => processCells headers rest (inde + 1) t'

/-- The data rows of the `for ind, row in enumerate(csv_reader)` loop
(`ind > 0`). -/
def processRows (headers : List String) :
    List (List String) → Table → Except Err Table
  | [], t => .ok t
  | row :: rest, t =>
    match processCells headers row 0 t with
    | .error e => .error e
    | .ok t' => processRows headers rest t'

/-- The whole row loop: the first row is the header (initialising the dict),
every later row is appended column-wise. An empty input leaves `data`
empty. -/
def buildTable : List (List String) → Except Err Table
  | [] => .ok []
  | headers :: rest => processRows headers rest (initHeaders headers [])

/-- `PRTGHistoricData.get_historic_data`: formats the dates, issues the
request, drops the last two lines of the CSV body (`[:-2]` after splitting
on newlines), and builds the column-oriented table. -/
def get_historic_data (c : Conf) (objid avg : String)
    (startdate enddate : Sum PyDateTime String) (resp : HResp) :
    Except Err Table :=
  let sdate := toDateParam startdate
  let edate := toDateParam enddate
  let historic_url := "historicdata.csv?id=" ++ objid ++ "&avg=" ++ avg ++
    "&sdate=" ++ sdate ++ "&edate=" ++ edate
  match get_request c historic_url true resp with
  | .error e => .error e
  | .ok none => .error .attributeError
  | .ok (some r) =>
    let csv_lines := ((pySplit '\n' r.body).dropLast).dropLast
    buildTable (csv_lines.map csvSplitLine)

/-- How one cell is converted, per its column header: `"Date Time"` cells
are stripped and parsed, every other cell is kept raw. Used to state the
specification of `buildTable`. -/
def cellFor (h : String) (cell : String) : Except Err Cell :=
  if h = "Date Time" then (dateTimeCell cell).map .time
  else .ok (.str cell)

/-- The expected column for header `h` at position `i`: the `i`-th cell of
every data row in row order, converted by `cellFor`. Used to state the
specification of `get_historic_data`. -/
def colOf (h : String) (i : Nat) : List (List String) → Except Err (List Cell)
  | [] => .ok []
  | row :: rest =>
    match row[i]? with
    | none => .error .indexError
    | some cell =>
      match cellFor h cell, colOf h i rest with
      | .ok c, .ok cs => .ok (c :: cs)
      | .error e, _ => .error e
      | .ok _, .error e => .error e

/-- All cells of one row converted against the header row, position by
position. -/
def rowCells : List String → List String → Except Err (List Cell)
  | [], [] => .ok []
  | h :: hs, cell :: row =>
    match cellFor h cell, rowCells hs row with
    | .ok c, .ok cs => .ok (c :: cs)
    | .error e, _ => .error e
    | .ok _, .error e => .error e
  | _, _ => .error .indexError

/-- Whether an `Except` computation succeeded. -/
def exOk {ε α : Type} : Except ε α → Bool
  | .ok _ => true
  | .error _ => false

theorem exOk_iff {ε α : Type} (x : Except ε α) :
    exOk x = true ↔ ∃ a, x = .ok a := by
  cases x <;> simp [exOk]

/-! ### List helpers for the table correspondence -/

/-- The table state holding, for each header in order, that header's column
so far (`List.zipWith` pairing). The row loop maintains exactly this shape. -/
def tblOf (hs : List String) (cols : List (List Cell)) : Table :=
  List.zipWith (fun h c => (h, c)) hs cols

@[simp] theorem tblOf_nil (cols : List (List Cell)) : tblOf [] cols = [] :=
  rfl

@[simp] theorem tblOf_cons_nil (h : String) (hs : List String) :
    tblOf (h :: hs) [] = [] := rfl

@[simp] theorem tblOf_cons_cons (h : String) (hs : List String)
    (c : List Cell) (cols : List (List Cell)) :
    tblOf (h :: hs) (c :: cols) = (h, c) :: tblOf hs cols := rfl

theorem tblOf_get2 (hs : List String) (cols : List (List Cell)) (i : Nat)
    (h : String) (col : List Cell) (h₁ : hs[i]? = some h)
    (h₂ : cols[i]? = some col) : (tblOf hs cols)[i]? = some (h, col) := by
  rw [tblOf, List.getElem?_zipWith', h₁, h₂]
  rfl

theorem tblOf_map_fst : ∀ (hs : List String) (cols : List (List Cell)),
    cols.length = hs.length → (tblOf hs cols).map Prod.fst = hs
  | [], _, _ => rfl
  | h :: hs, [], hl => by simp at hl
  | h :: hs, c :: cols, hl => by
      simpa using tblOf_map_fst hs cols (by simpa using hl)

theorem take_succ_set {α : Type} :
    ∀ (l : List α) (n : Nat) (a : α), n < l.length →
      (l.set n a).take (n + 1) = l.take n ++ [a]
  | _ :: _, 0, a, _ => rfl
  | b :: t, n + 1, a, h => by
      simpa using take_succ_set t n a (by simpa using h)

theorem drop_succ_set {α : Type} :
    ∀ (l : List α) (n : Nat) (a : α),
      (l.set n a).drop (n + 1) = l.drop (n + 1)
  | [], _, _ => rfl
  | _ :: _, 0, _ => rfl
  | b :: t, n + 1, a => by
      simpa using drop_succ_set t n a

theorem drop_eq_cons_of_getElem2 {α : Type} :
    ∀ (l : List α) (n : Nat) (a : α), l[n]? = some a →
      l.drop n = a :: l.drop (n + 1)
  | [], n, a, h => by simp at h
  | b :: t, 0, a, h => by
      rw [List.getElem?_cons_zero] at h
      injection h with h
      subst h
      rfl
  | b :: t, n + 1, a, h => by
      rw [List.getElem?_cons_succ] at h
      simpa using drop_eq_cons_of_getElem2 t n a h

theorem map_pair_eq_tblOf_replicate :
    ∀ (l : List String),
      l.map (fun x => (x, ([] : List Cell))) =
        tblOf l (List.replicate l.length [])
  | [] => rfl
  | x :: t => by
      simpa [List.replicate] using map_pair_eq_tblOf_replicate t

/-! ### Correctness of the table construction -/

theorem dictReset_absent (k : String) :
    ∀ (t : Table), k ∉ t.map Prod.fst → dictReset k t = t ++ [(k, [])]
  | [], _ => rfl
  | (k', cs) :: t, h => by
      simp only [List.map, List.mem_cons, not_or] at h
      simp [dictReset, Ne.symm h.1, dictReset_absent k t h.2]

theorem initHeaders_spec :
    ∀ (hs : List String) (t : Table), hs.Nodup →
      (∀ h ∈ hs, h ∉ t.map Prod.fst) →
      initHeaders hs t = t ++ hs.map (fun h => (h, []))
  | [], t, _, _ => by simp [initHeaders]
  | h :: hs, t, hnd, habs => by
      have hd := dictReset_absent h t (habs h (by simp))
      have hnd' := (List.nodup_cons.mp hnd).2
      have habs' : ∀ h' ∈ hs, h' ∉ (t ++ [(h, [])]).map Prod.fst := by
        intro h' hh'
        simp only [List.map_append, List.mem_append, List.map, not_or]
        refine ⟨habs h' (by simp [hh']), ?_⟩
        have : h ∉ hs := (List.nodup_cons.mp hnd).1
        simp only [List.mem_singleton]
        exact fun hc => this (hc ▸ hh')
      rw [initHeaders, hd, initHeaders_spec hs (t ++ [(h, [])]) hnd' habs']
      simp

theorem dictAppend_tblOf (cc : Cell) :
    ∀ (hs : List String) (cols : List (List Cell)) (inde : Nat)
      (h : String) (col : List Cell),
      hs.Nodup → hs[inde]? = some h → cols[inde]? = some col →
      dictAppend h cc (tblOf hs cols) =
        some (tblOf hs (cols.set inde (col ++ [cc])))
  | [], _, inde, _, _, _, hg, _ => by simp at hg
  | _ :: _, [], inde, _, _, _, _, hg => by cases inde <;> simp at hg
  | h₀ :: hs, c₀ :: cols, 0, h, col, _, hg, hc => by
      rw [List.getElem?_cons_zero] at hg hc
      injection hg with hg
      injection hc with hc
      subst hg; subst hc
      rw [tblOf_cons_cons, List.set_cons_zero, tblOf_cons_cons]
      simp [dictAppend]
  | h₀ :: hs, c₀ :: cols, inde + 1, h, col, hnd, hg, hc => by
      rw [List.getElem?_cons_succ] at hg hc
      have hmem : h ∈ hs := List.getElem?_mem hg
      have hne : h₀ ≠ h := fun hcontra =>
        (List.nodup_cons.mp hnd).1 (hcontra ▸ hmem)
      have ih := dictAppend_tblOf cc hs cols inde h col
        (List.nodup_cons.mp hnd).2 hg hc
      rw [tblOf_cons_cons, List.set_cons_succ, tblOf_cons_cons]
      simp [dictAppend, hne, ih]

theorem rowCells_length :
    ∀ (hs row : List String) (nc : List Cell),
      rowCells hs row = .ok nc → nc.length = hs.length
  | [], [], nc, h => by
      simp only [rowCells] at h
      injection h with h
      subst h; rfl
  | [], _ :: _, nc, h => by simp [rowCells] at h
  | _ :: _, [], nc, h => by simp [rowCells] at h
  | h₀ :: hs, cell :: row, nc, h => by
      simp only [rowCells] at h
      cases hcf : cellFor h₀ cell with
      | error e => rw [hcf] at h; simp at h
      | ok c =>
        rw [hcf] at h
        cases hrc : rowCells hs row with
        | error e => rw [hrc] at h; simp at h
        | ok cs =>
          rw [hrc] at h
          injection h with h
          subst h
          simpa using rowCells_length hs row cs hrc

theorem rowCells_of_pointwise :
    ∀ (hs row : List String), row.length = hs.length →
      (∀ (i : Nat) (h cell : String), hs[i]? = some h →
        row[i]? = some cell → exOk (cellFor h cell) = true) →
      ∃ nc, rowCells hs row = .ok nc
  | [], [], _, _ => ⟨[], rfl⟩
  | [], _ :: _, hl, _ => by simp at hl
  | _ :: _, [], hl, _ => by simp at hl
  | h₀ :: hs, cell :: row, hl, hpt => by
      have h0 : (h₀ :: hs)[0]? = some h₀ := List.getElem?_cons_zero
      have r0 : (cell :: row)[0]? = some cell := List.getElem?_cons_zero
      obtain ⟨c, hc⟩ := (exOk_iff _).mp (hpt 0 h₀ cell h0 r0)
      obtain ⟨cs, hcs⟩ := rowCells_of_pointwise hs row (by simpa using hl)
        (fun i h cl hg hr =>
          hpt (i + 1) h cl
            (by rw [List.getElem?_cons_succ]; exact hg)
            (by rw [List.getElem?_cons_succ]; exact hr))
      exact ⟨c :: cs, by simp [rowCells, hc, hcs]⟩

theorem rowCells_get :
    ∀ (hs row : List String) (nc : List Cell) (i : Nat) (h cell : String),
      rowCells hs row = .ok nc → hs[i]? = some h →
      row[i]? = some cell →
      ∃ cc, cellFor h cell = .ok cc ∧ nc[i]? = some cc
  | [], _, _, i, _, _, _, hg, _ => by simp at hg
  | _ :: _, [], _, i, _, _, hrc, _, _ => by simp [rowCells] at hrc
  | h₀ :: hs, cell₀ :: row, nc, i, h, cell, hrc, hg, hr => by
      simp only [rowCells] at hrc
      cases hcf : cellFor h₀ cell₀ with
      | error e => rw [hcf] at hrc; simp at hrc
      | ok c =>
        rw [hcf] at hrc
        cases hrc' : rowCells hs row with
        | error e => rw [hrc'] at hrc; simp at hrc
        | ok cs =>
          rw [hrc'] at hrc
          injection hrc with hrc
          subst hrc
          match i, hg, hr with
          | 0, hg, hr =>
            rw [List.getElem?_cons_zero] at hg hr
            injection hg with hg
            injection hr with hr
            subst hg; subst hr
            exact ⟨c, hcf, by simp⟩
          | i + 1, hg, hr =>
            rw [List.getElem?_cons_succ] at hg hr
            obtain ⟨cc, hcc, hnc⟩ := rowCells_get hs row cs i h cell hrc'
              hg hr
            exact ⟨cc, hcc, by simpa using hnc⟩

theorem colOf_cons_ok (h : String) (i : Nat) (row : List String)
    (rest : List (List String)) (vals : List Cell) :
    colOf h i (row :: rest) = .ok vals →
    ∃ cell cc cs, row[i]? = some cell ∧ cellFor h cell = .ok cc ∧
      colOf h i rest = .ok cs ∧ vals = cc :: cs := by
  intro hco
  simp only [colOf] at hco
  cases hrg : row[i]? with
  | none => simp [hrg] at hco
  | some cell =>
    simp only [hrg] at hco
    cases hcf : cellFor h cell with
    | error e => simp [hcf] at hco
    | ok cc =>
      simp only [hcf] at hco
      cases hcr : colOf h i rest with
      | error e => simp [hcr] at hco
      | ok cs =>
        simp only [hcr] at hco
        injection hco with hco
        refine ⟨cell, cc, cs, ?_, ?_, ?_, hco.symm⟩ <;> simp [hrg, hcf, hcr]

theorem colOf_cons_isOk (h : String) (i : Nat) (row : List String)
    (rest : List (List String)) :
    exOk (colOf h i (row :: rest)) = true →
    ∃ cell, row[i]? = some cell ∧ exOk (cellFor h cell) = true ∧
      exOk (colOf h i rest) = true := by
  intro hco
  obtain ⟨vals, hvals⟩ := (exOk_iff _).mp hco
  obtain ⟨cell, cc, cs, h1, h2, h3, _⟩ := colOf_cons_ok h i row rest vals hvals
  exact ⟨cell, h1, (exOk_iff _).mpr ⟨cc, h2⟩, (exOk_iff _).mpr ⟨cs, h3⟩⟩

/-- Processing one row's cells from position `inde` onwards appends the
converted cells, column by column, to the table: columns before `inde` are
untouched, every later column gains one cell. -/
theorem processCells_spec (hs : List String) :
    ∀ (cells : List String) (inde : Nat) (cols : List (List Cell))
      (nc : List Cell),
      hs.Nodup → cols.length = hs.length →
      inde + cells.length = hs.length →
      rowCells (hs.drop inde) cells = .ok nc →
      processCells hs cells inde (tblOf hs cols) =
        .ok (tblOf hs (cols.take inde ++
          (cols.drop inde).zipWith (fun c x => c ++ [x]) nc))
  | [], inde, cols, nc, _, hcl, hlen, hrc => by
      simp only [List.length_nil] at hlen
      have hdrop : hs.drop inde = [] := List.drop_eq_nil_of_le (by omega)
      rw [hdrop] at hrc
      simp only [rowCells] at hrc
      injection hrc with hrc
      subst hrc
      have htake : cols.take inde = cols := List.take_of_length_le (by omega)
      simp [processCells, htake]
  | cell :: rest, inde, cols, nc, hnd, hcl, hlen, hrc => by
      have hlt : inde < hs.length := by
        simp only [List.length_cons] at hlen
        omega
      have hclt : inde < cols.length := by omega
      obtain ⟨h, hh⟩ : ∃ h, hs[inde]? = some h := by
        refine ⟨hs.get ⟨inde, hlt⟩, ?_⟩
        exact List.getElem?_eq_some.mpr ⟨hlt, rfl⟩
      obtain ⟨col, hcol⟩ : ∃ col, cols[inde]? = some col := by
        refine ⟨cols.get ⟨inde, hclt⟩, ?_⟩
        exact List.getElem?_eq_some.mpr ⟨hclt, rfl⟩
      have hdrop : hs.drop inde = h :: hs.drop (inde + 1) :=
        drop_eq_cons_of_getElem2 hs inde h hh
      rw [hdrop] at hrc
      simp only [rowCells] at hrc
      cases hcf : cellFor h cell with
      | error e => rw [hcf] at hrc; simp at hrc
      | ok c =>
        rw [hcf] at hrc
        cases hrc' : rowCells (hs.drop (inde + 1)) rest with
        | error e => rw [hrc'] at hrc; simp at hrc
        | ok cs =>
          rw [hrc'] at hrc
          injection hrc with hrc
          subst hrc
          have hda := dictAppend_tblOf c hs cols inde h col hnd hh hcol
          have hrec := processCells_spec hs rest (inde + 1)
            (cols.set inde (col ++ [c])) cs hnd (by simpa using hcl)
            (by simp only [List.length_cons] at hlen; omega) hrc'
          have e1 : (cols.set inde (col ++ [c])).take (inde + 1) =
              cols.take inde ++ [col ++ [c]] :=
            take_succ_set cols inde _ hclt
          have e2 : (cols.set inde (col ++ [c])).drop (inde + 1) =
              cols.drop (inde + 1) := drop_succ_set cols inde _
          have e3 : cols.drop inde = col :: cols.drop (inde + 1) :=
            drop_eq_cons_of_getElem2 cols inde col hcol
          have hstep : processCells hs (cell :: rest) inde (tblOf hs cols) =
              processCells hs rest (inde + 1)
                (tblOf hs (cols.set inde (col ++ [c]))) := by
            by_cases hDT : h = "Date Time"
            · rw [cellFor, if_pos hDT] at hcf
              cases hdt : dateTimeCell cell with
              | error e => rw [hdt] at hcf; simp [Except.map] at hcf
              | ok dt =>
                rw [hdt] at hcf
                simp only [Except.map] at hcf
                injection hcf with hcf
                subst hcf
                simp only [processCells, hh]
                rw [if_pos hDT]
                simp only [hdt, hda]
            · rw [cellFor, if_neg hDT] at hcf
              injection hcf with hcf
              subst hcf
              simp only [processCells, hh]
              rw [if_neg hDT]
              simp only [hda]
          rw [hstep, hrec, e1, e2, e3, List.zipWith_cons_cons]
          simp [List.append_assoc]

/-- The full row loop starting from a table aligned with the headers: each
surviving column equals its prior contents followed by the column extracted
from the data rows in order (`colOf`). -/
theorem processRows_spec (hs : List String) :
    ∀ (rows : List (List String)) (cols : List (List Cell)),
      hs.Nodup → cols.length = hs.length →
      (∀ row ∈ rows, row.length = hs.length) →
      (∀ (i : Nat) (h : String), hs[i]? = some h →
        exOk (colOf h i rows) = true) →
      ∃ cols', processRows hs rows (tblOf hs cols) = .ok (tblOf hs cols') ∧
        cols'.length = hs.length ∧
        ∀ (i : Nat) (h : String) (col0 vals : List Cell),
          hs[i]? = some h → cols[i]? = some col0 →
          colOf h i rows = .ok vals → cols'[i]? = some (col0 ++ vals)
  | [], cols, _, hcl, _, _ => by
      refine ⟨cols, by simp [processRows], hcl, ?_⟩
      intro i h col0 vals _ hc hco
      simp only [colOf] at hco
      injection hco with hco
      subst hco
      simpa using hc
  | row :: rest, cols, hnd, hcl, hrowlen, hok => by
      have hrl : row.length = hs.length := hrowlen row (by simp)
      have hpt : ∀ (i : Nat) (h cell : String), hs[i]? = some h →
          row[i]? = some cell → exOk (cellFor h cell) = true := by
        intro i h cell hh hcell
        obtain ⟨cell', hc', hcf', _⟩ :=
          colOf_cons_isOk h i row rest (hok i h hh)
        rw [hcell] at hc'
        injection hc' with hc'
        subst hc'
        exact hcf'
      obtain ⟨nc, hnc⟩ := rowCells_of_pointwise hs row hrl hpt
      have hnclen := rowCells_length hs row nc hnc
      have hpc := processCells_spec hs row 0 cols nc hnd hcl
        (by omega) (by simpa using hnc)
      simp only [List.take_zero, List.drop_zero, List.nil_append] at hpc
      have hcols₁len :
          (List.zipWith (fun c x => c ++ [x]) cols nc).length = hs.length := by
        rw [List.length_zipWith]
        omega
      have hok' : ∀ (i : Nat) (h : String), hs[i]? = some h →
          exOk (colOf h i rest) = true := by
        intro i h hh
        obtain ⟨_, _, _, h3⟩ := colOf_cons_isOk h i row rest (hok i h hh)
        exact h3
      obtain ⟨cols', hpr, hlen', hfinal⟩ := processRows_spec hs rest
        (List.zipWith (fun c x => c ++ [x]) cols nc) hnd hcols₁len
        (fun r hr => hrowlen r (by simp [hr])) hok'
      refine ⟨cols', ?_, hlen', ?_⟩
      · simp only [processRows, hpc]
        exact hpr
      · intro i h col0 vals hh hc hco
        obtain ⟨cell, cc, cs, hcell, hcf, hcr, hveq⟩ :=
          colOf_cons_ok h i row rest vals hco
        subst hveq
        obtain ⟨cc', hcc', hncget⟩ :=
          rowCells_get hs row nc i h cell hnc hh hcell
        rw [hcf] at hcc'
        injection hcc' with hcc'
        subst hcc'
        have hc₁ : (List.zipWith (fun c x => c ++ [x]) cols nc)[i]? =
            some (col0 ++ [cc]) := by
          rw [List.getElem?_zipWith', hc, hncget]
          rfl
        have hres := hfinal i h (col0 ++ [cc]) cs hh hc₁ hcr
        simpa [List.append_assoc] using hres

/-! ## The parsed tree document (BeautifulSoup, an external collaborator)

The markup parser is excluded from the core per spec §1; `XNode` is its
result: a tree of named tags with attribute dictionaries and text nodes.
The navigation operations below (`.name`, `.string`, `.find`, `.find_all`,
`.children`, `.attrs`) are the only BeautifulSoup features the client
uses. -/

/-- A node of a parsed document: a text node (`NavigableString`, whose
`.name` is `None`) or a tag with a name, an attribute dictionary and
children. -/
inductive XNode where
  | text (s : String)
  | elem (tag : String) (xattrs : List (String × String)) (children : List XNode)

/-- `.name`: `None` for text nodes. -/
def xname : XNode → Option String
  | .text _ => none
  | .elem t _ _ => some t

/-- `.children` of a tag (a text node has none — accessing them is the
caller's error, handled where it occurs). -/
def xchildren : XNode → List XNode
  | .text _ => []
  | .elem _ _ cs => cs

/-- `.attrs` of a tag. -/
def xattrsOf : XNode → List (String × String)
  | .text _ => []
  | .elem _ a _ => a

/-- `.string`: the single string below a tag — a text node's own text, a
tag's only child's `.string`, and `None` for zero or several children. -/
def xstring : XNode → Option String
  | .text s => some s
  | .elem _ _ [c] => xstring c
  | .elem _ _ _ => none

mutual

/-- `.find(tag)` applied to a node itself: the node when its name matches,
else the first match among its descendants in document order. -/
def xfindSelf (tag : String) : XNode → Option XNode
  | .text _ => none
  | .elem t a ch =>
      if t = tag then some (.elem t a ch) else xfindList tag ch

/-- First match of `tag` in a forest, in document order. -/
def xfindList (tag : String) : List XNode → Option XNode
  | [] => none
  | c :: cs =>
    match xfindSelf tag c with
    | some r => some r
    | none => xfindList tag cs

end

/-- `node.find(tag)`: first matching descendant (the node itself is not a
candidate). -/
def xfind (tag : String) : XNode → Option XNode
  | .text _ => none
  | .elem _ _ ch => xfindList tag ch

mutual

/-- `.find_all(tag)` contribution of one node: itself when it matches,
followed by all matching descendants, in document order. -/
def xallSelf (tag : String) : XNode → List XNode
  | .text _ => []
  | .elem t a ch =>
      (if t = tag then [XNode.elem t a ch] else []) ++ xallList tag ch

/-- All matches of `tag` in a forest, in document order. -/
def xallList (tag : String) : List XNode → List XNode
  | [] => []
  | c :: cs => xallSelf tag c ++ xallList tag cs

end

/-- `node.find_all(tag)`: all matching descendants in document order. -/
def xfindAll (tag : String) : XNode → List XNode
  | .text _ => []
  | .elem _ _ ch => xallList tag ch

/-- `node.find(tag).string`: the id-extraction idiom of the reconciler.
When `find` returns `None`, taking `.string` raises `AttributeError`. -/
def findTagString (tag : String) (x : XNode) : Except Err (Option String) :=
  match xfind tag x with
  | none => .error .attributeError
  | some n => .ok (xstring n)

/-! ## Entity state -/

/-- Python `del`-free attribute removal: drops the binding of `k`. Used to
model assigning `None` to an attribute (an attribute holding `None` and an
absent attribute are collapsed, which is observationally equivalent for
every access the client performs). -/
def removeA (k : String) : Attrs → Attrs
  | [] => []
  | (k', v) :: t => if k' = k then t else (k', v) :: removeA k t

/-- `setattr` with a possibly-`None` value (`self.id = self.objid`). -/
def setOptA (k : String) (v : Option String) (a : Attrs) : Attrs :=
  match v with
  | some s => setA k s a
  | none => removeA k a

/-- The scalar-update loop shared by every `initialize`/`refresh`:
`for child in soup.children: if child.string is None: child.string = "";
if child.name is not None: setattr(self, child.name, child.string)`. -/
def applyScalars : List XNode → Attrs → Attrs
  | [], a => a
  | x :: xs, a =>
    match xname x with
    | none => applyScalars xs a
    | some n => applyScalars xs (setA n ((xstring x).getD "") a)

/-! ## Typed entities

Object identity (Python `is`) is modelled by the allocation token `tok`:
every constructor call draws a fresh token from a counter threaded through
all building functions. The per-instance registries `allprobes`/`allgroups`/
`alldevices`/`allsensors` hold references, modelled as token lists. -/

/-- A `Channel`: scalar state only (set by `Channel.initialize` /
`Channel.refresh` from a channel-table item). -/
structure Channel where
  tok : Nat
  attrs : Attrs
deriving DecidableEq, Repr

/-- A `Sensor`: scalar state, the fragment's XML attribute dict
(`self.attributes`), and the lazily fetched channels. -/
structure Sensor where
  tok : Nat
  attrs : Attrs
  battrs : List (String × String)
  channels : List Channel
deriving DecidableEq, Repr

/-- A `Device`: scalar state, XML attribute dict, the typed `sensors`
collection, the instance registry `allsensors` (token references), and the
status index `sensors_by_status` (status value → tokens of the sensors
bucketed there). -/
structure Device where
  tok : Nat
  attrs : Attrs
  battrs : List (String × String)
  sensors : List Sensor
  allsensors : List Nat
  sbys : List (Option String × List Nat)
deriving DecidableEq, Repr

/-- A `Group` (and `Probe`, which is behaviourally identical): nested
subgroups and devices plus the instance registries. -/
inductive Group where
  | mk (tok : Nat) (attrs : Attrs) (battrs : List (String × String))
      (groups : List Group) (devices : List Device)
      (allgroups alldevices : List Nat)

def Group.tok : Group → Nat
  | .mk t _ _ _ _ _ _ => t

def Group.attrs : Group → Attrs
  | .mk _ a _ _ _ _ _ => a

def Group.battrs : Group → List (String × String)
  | .mk _ _ b _ _ _ _ => b

def Group.groups : Group → List Group
  | .mk _ _ _ gs _ _ _ => gs

def Group.devices : Group → List Device
  | .mk _ _ _ _ ds _ _ => ds

def Group.allgroups : Group → List Nat
  | .mk _ _ _ _ _ ag _ => ag

def Group.alldevices : Group → List Nat
  | .mk _ _ _ _ _ _ ad => ad

mutual

/-- Structural equality of groups (used to model `list.remove`; live objects
are value-distinct in reachable states, where this coincides with Python's
identity-based `==`). -/
def groupBEq : Group → Group → Bool
  | .mk t a b gs ds ag ad, .mk t' a' b' gs' ds' ag' ad' =>
      t == t' && a == a' && b == b' && groupListBEq gs gs' && ds == ds' &&
        ag == ag' && ad == ad'

/-- Pointwise `groupBEq` on lists. -/
def groupListBEq : List Group → List Group → Bool
  | [], [] => true
  | g :: gs, g' :: gs' => groupBEq g g' && groupListBEq gs gs'
  | _, _ => false

end

/-- `self.objid` of a channel. -/
def Channel.objidv (ch : Channel) : Option String := lookupA "objid" ch.attrs

/-- `self.id` of a sensor. -/
def Sensor.idv (s : Sensor) : Option String := lookupA "id" s.attrs

/-- `self.status` of a sensor. -/
def Sensor.statusv (s : Sensor) : Option String := lookupA "status" s.attrs

/-- `self.id` of a device. -/
def Device.idv (d : Device) : Option String := lookupA "id" d.attrs

/-- `self.id` of a group. -/
def Group.idv (g : Group) : Option String := lookupA "id" g.attrs

/-- Python `list.remove(x)` as a pure operation: drop the first element
satisfying `p`; `none` models the `ValueError` when nothing matches. -/
def removeFirst {α : Type} (p : α → Bool) : List α → Option (List α)
  | [] => none
  | x :: xs =>
      if p x then some xs else (removeFirst p xs).map (fun r => x :: r)

/-- The value a variable holds after `for x in l: if p x: var = x` — the
last match, `none` when the loop never assigned. -/
def lastMatch {α : Type} (p : α → Bool) (l : List α) : Option α :=
  l.foldl (fun acc x => if p x then some x else acc) none

/-- The initial `sensors_by_status` dictionary. -/
def sbysInit : List (Option String × List Nat) :=
  [(some "Up", []), (some "Down", []), (some "Warning", []),
    (some "Paused", [])]

/-- One step of the status bucketing: append to an existing bucket, or
create a new singleton bucket for an unseen status value. -/
def sbysAppend (k : Option String) (t : Nat) :
    List (Option String × List Nat) → List (Option String × List Nat)
  | [] => [(k, [t])]
  | (k', ts) :: rest =>
      if k' = k then (k', ts ++ [t]) :: rest
      else (k', ts) :: sbysAppend k t rest

/-- `for asensor in self.sensors:` status bucketing loop of
`Device.initialize`. -/
def bucketize : List Sensor → List (Option String × List Nat) →
    List (Option String × List Nat)
  | [], m => m
  | s :: ss, m => bucketize ss (sbysAppend s.statusv s.tok m)

/-! ## Channel construction and refresh -/

/-- Python `str.isdigit()` on a character list. -/
def pyIsDigit (l : List Char) : Bool := !l.isEmpty && l.all Char.isDigit

/-- The numeric `lastvalue` branch of `Channel.initialize`. Whenever the
guard `self.lastvalue.replace(".", "").isdigit()` holds, `lastvalue`
contains no space, so the final `self.unit = self.lastvalue.split(" ")[1]`
always raises `IndexError`; and when `lastvalue` carries two or more dots,
the `float` retry inside the `except ValueError` handler itself raises
`ValueError`. Returns the exception the branch raises, `none` when the
branch is skipped. -/
def lastvalueCrash (lv : String) : Option Err :=
  if pyIsDigit (lv.toList.filter (fun c => c ≠ '.')) then
    if lv.toList.count '.' ≤ 1 then some .indexError else some .valueError
  else none

/-- `Channel.__init__` + `Channel.initialize`: store `sensorid`, apply the
scalar children, set `self.id = self.objid`, run the numeric `lastvalue`
branch (which raises whenever entered), finally tag the type. A fresh
allocation token models the new object. -/
def buildChannel (channelsoup : XNode) (sensorid : Option String) (c : Nat) :
    Except Err (Channel × Nat) :=
  let a0 := setOptA "sensorid" sensorid []
  let a1 := applyScalars (xchildren channelsoup) a0
  let a2 := setOptA "id" (lookupA "objid" a1) a1
  match lookupA "lastvalue" a1 with
  | some lv =>
    match lastvalueCrash lv with
    | some e => .error e
    | none => .ok (⟨c, setA "type" "Channel" a2⟩, c + 1)
  | none => .ok (⟨c, setA "type" "Channel" a2⟩, c + 1)

/-- `Channel.refresh`: re-apply the scalar children of the supplied item and
re-derive `self.id` from `self.objid`. -/
def refreshChannel (ch : Channel) (refreshsoup : XNode) : Channel :=
  let a1 := applyScalars (xchildren refreshsoup) ch.attrs
  ⟨ch.tok, setOptA "id" (lookupA "objid" a1) a1⟩

/-! ## Sensor construction, channels, refresh -/

/-- `Sensor.__init__` + `Sensor.initialize`: the `self.type = "Sensor"`
assignment in `__init__` is immediately nulled again by
`BaseConfig.__init__` in the `super()` chain (which resets `type` to
`None`), then `initialize` applies the scalar children and stores the
fragment's XML attribute dict. `channels` starts empty — channels are
fetched only on demand. (The nested `PRTGApi.__init__` also sets
`self.id` to the integer default `rootid = 0`; an integer id is
unrepresentable in the string model and is always overwritten by the
fragment's `<id>` scalar for well-formed fragments.) -/
def buildSensor (sensorsoup : XNode) (deviceid : Option String) (c : Nat) :
    Sensor × Nat :=
  let a0 := removeA "type" (setA "type" "Sensor" (setOptA "deviceid" deviceid []))
  let a1 := applyScalars (xchildren sensorsoup) a0
  (⟨c, a1, xattrsOf sensorsoup, []⟩, c + 1)

/-- The construction half of `Sensor.get_channels` (`if not self.channels`):
build a `Channel` for every `<item>` of the channel table. -/
def buildChannelsLoop (sensorid : Option String) :
    List XNode → List Channel → Nat → Except Err (List Channel × Nat)
  | [], chs, c => .ok (chs, c)
  | item :: rest, chs, c =>
    match buildChannel item sensorid c with
    | .error e => .error e
    | .ok (ch, c') => buildChannelsLoop sensorid rest (chs ++ [ch]) c'

/-- The reconciliation half of `Sensor.get_channels` (`else` branch): for
every `<item>`, refresh in place each cached channel whose `objid` matches
the item's `objid`; nothing is ever added or removed here. -/
def refreshChannelsLoop : List XNode → List Channel → Except Err (List Channel)
  | [], chs => .ok chs
  | item :: rest, chs =>
    match findTagString "objid" item with
    | .error e => .error e
    | .ok idstr =>
        refreshChannelsLoop rest
          (chs.map (fun ch =>
            if ch.objidv = idstr then refreshChannel ch item else ch))

/-- `Sensor.get_channels` against the channel document the server would
return for this sensor (the HTTP fetch and XML parse are external
collaborators, so the parsed document is supplied directly). -/
def get_channels (s : Sensor) (channelsoup : XNode) (c : Nat) :
    Except Err (Sensor × Nat) :=
  if s.channels.isEmpty then
    match buildChannelsLoop s.idv (xfindAll "item" channelsoup) [] c with
    | .error e => .error e
    | .ok (chs, c') => .ok (⟨s.tok, s.attrs, s.battrs, chs⟩, c')
  else
    match refreshChannelsLoop (xfindAll "item" channelsoup) s.channels with
    | .error e => .error e
    | .ok chs => .ok (⟨s.tok, s.attrs, s.battrs, chs⟩, c)

/-- `Sensor.refresh` with a supplied fragment: re-apply the scalar children
and the XML attribute dict, then — only when a channel list is already
cached — re-run `get_channels`. `chenv` maps a sensor id to the channel
document the server returns for it. -/
def refreshSensor (chenv : Option String → XNode) (s : Sensor)
    (soup : XNode) (c : Nat) : Except Err (Sensor × Nat) :=
  let a1 := applyScalars (xchildren soup) s.attrs
  let s1 : Sensor := ⟨s.tok, a1, xattrsOf soup, s.channels⟩
  if s1.channels.isEmpty then .ok (s1, c)
  else get_channels s1 (chenv s1.idv) c

/-! ## Device construction and refresh -/

/-- The child loop of `Device.initialize`: construct a `Sensor` for each
`<sensor>` child (passing the device's current `id`), register it in
`sensors` and `allsensors`, and treat every other named child as a scalar
attribute. -/
def buildDeviceLoop : List XNode → Attrs → List Sensor → List Nat → Nat →
    Attrs × List Sensor × List Nat × Nat
  | [], a, ss, reg, c => (a, ss, reg, c)
  | x :: rest, a, ss, reg, c =>
    match xname x with
    | some "sensor" =>
        let (s, c') := buildSensor x (lookupA "id" a) c
        buildDeviceLoop rest a (ss ++ [s]) (reg ++ [s.tok]) c'
    | some n => buildDeviceLoop rest (setA n ((xstring x).getD "") a) ss reg c
    | none => buildDeviceLoop rest a ss reg c

/-- `Device.__init__` + `Device.initialize`: child loop, then the full
status bucketing into `sensors_by_status`, then the XML attribute dict and
the type tag. -/
def buildDevice (devicesoup : XNode) (c : Nat) : Device × Nat :=
  let (a, ss, reg, c') := buildDeviceLoop (xchildren devicesoup) [] [] [] (c + 1)
  (⟨c, setA "type" "Device" a, xattrsOf devicesoup, ss, reg,
    bucketize ss sbysInit⟩, c')

/-- `for asensor in self.sensors: if asensor.id == X: asensor.refresh(⋯)`:
refresh in place every sensor whose id matches, threading the allocation
counter. -/
def refreshMatchingSensors (chenv : Option String → XNode)
    (idstr : Option String) (x : XNode) :
    List Sensor → Nat → Except Err (List Sensor × Nat)
  | [], c => .ok ([], c)
  | s :: ss, c =>
    if s.idv = idstr then
      match refreshSensor chenv s x c with
      | .error e => .error e
      | .ok (s', c') =>
        match refreshMatchingSensors chenv idstr x ss c' with
        | .error e => .error e
        | .ok (ss', c'') => .ok (s' :: ss', c'')
    else
      match refreshMatchingSensors chenv idstr x ss c with
      | .error e => .error e
      | .ok (ss', c'') => .ok (s :: ss', c'')

/-- The child loop of `Device.refresh`: reconcile each `<sensor>` child by
id (refresh in place when known, construct and register when new), record
the id in `newsensorids`, and apply scalar children to the device. -/
def refreshDeviceLoop (chenv : Option String → XNode) :
    List XNode → List (Option String) → Attrs → List Sensor → List Nat →
      List (Option String) → Nat →
      Except Err (Attrs × List Sensor × List Nat × List (Option String) × Nat)
  | [], _, a, ss, reg, newids, c => .ok (a, ss, reg, newids, c)
  | x :: rest, sensorids, a, ss, reg, newids, c =>
    match xname x with
    | some "sensor" =>
      match findTagString "id" x with
      | .error e => .error e
      | .ok idstr =>
        if idstr ∈ sensorids then
          match refreshMatchingSensors chenv idstr x ss c with
          | .error e => .error e
          | .ok (ss', c') =>
              refreshDeviceLoop chenv rest sensorids a ss' reg
                (newids ++ [idstr]) c'
        else
          let (s, c') := buildSensor x (lookupA "id" a) c
          refreshDeviceLoop chenv rest sensorids a (ss ++ [s])
            (reg ++ [s.tok]) (newids ++ [idstr]) c'
    | some n =>
        refreshDeviceLoop chenv rest sensorids
          (setA n ((xstring x).getD "") a) ss reg newids c
    | none => refreshDeviceLoop chenv rest sensorids a ss reg newids c

/-- The stale-removal loop shared by `Device.refresh` and `Group.refresh`:
for every previously tracked id not seen in the fragment, scan for the last
matching object (`⋯toremove = a⋯`), then remove it from the local
collection and the registry. A missing match leaves the loop variable
stale/unbound (`NameError`/`ValueError` in Python — unreachable when the
ids were collected from the collection itself); a failed `remove` is a
`ValueError`. -/
def removeStaleSensors :
    List (Option String) → List (Option String) → List Sensor → List Nat →
      Except Err (List Sensor × List Nat)
  | [], _, ss, reg => .ok (ss, reg)
  | idval :: rest, newids, ss, reg =>
    if idval ∈ newids then removeStaleSensors rest newids ss reg
    else
      match lastMatch (fun s => s.idv == idval) ss with
      | none => .error .nameError
      | some s =>
        match removeFirst (fun s' => s' == s) ss with
        | none => .error .valueError
        | some ss' =>
          match removeFirst (fun t => t == s.tok) reg with
          | none => .error .valueError
          | some reg' => removeStaleSensors rest newids ss' reg'

/-- `Device.refresh` with a supplied fragment: collect the tracked sensor
ids, run the child loop, remove stale sensors from both `sensors` and
`allsensors`, and store the fragment's XML attribute dict.
`sensors_by_status` is not touched. -/
def refreshDevice (chenv : Option String → XNode) (d : Device)
    (soup : XNode) (c : Nat) : Except Err (Device × Nat) :=
  match soup with
  | .text _ => .error .attributeError
  | .elem _ xa cs =>
    let sensorids := d.sensors.map Sensor.idv
    match refreshDeviceLoop chenv cs sensorids d.attrs d.sensors
        d.allsensors [] c with
    | .error e => .error e
    | .ok (a, ss, reg, newids, c') =>
      match removeStaleSensors sensorids newids ss reg with
      | .error e => .error e
      | .ok (ss', reg') => .ok (⟨d.tok, a, xa, ss', reg', d.sbys⟩, c')

/-! ## Group construction and refresh -/

/-- Loop state of `Group.initialize`. -/
structure GBuildSt where
  attrs : Attrs
  groups : List Group
  devices : List Device
  allgroups : List Nat
  alldevices : List Nat
  c : Nat

mutual

/-- `Group.__init__` + `Group.initialize` (also `Probe`: its class-level
type tag is shadowed and `Group.initialize` runs for it unchanged): child
loop, then the XML attribute dict and the `"Group"` type tag. -/
def buildGroup : XNode → Nat → Group × Nat
  | .text _, c =>
      -- a text fragment has no `.children`; unreachable from the
      -- reconciler, which only constructs groups for named element children
      (.mk c (setA "type" "Group" []) [] [] [] [] [], c + 1)
  | .elem _ xa cs, c =>
    let st := buildGroupLoop cs ⟨[], [], [], [], [], c + 1⟩
    (.mk c (setA "type" "Group" st.attrs) xa st.groups st.devices
      st.allgroups st.alldevices, st.c)

/-- The child loop of `Group.initialize`: construct devices and subgroups,
register them, and apply scalar children. -/
def buildGroupLoop : List XNode → GBuildSt → GBuildSt
  | [], st => st
  | x :: rest, st =>
    match xname x with
    | some "device" =>
        let (d, c') := buildDevice x st.c
        buildGroupLoop rest ⟨st.attrs, st.groups, st.devices ++ [d],
          st.allgroups, st.alldevices ++ [d.tok], c'⟩
    | some "group" =>
        let (g, c') := buildGroup x st.c
        buildGroupLoop rest ⟨st.attrs, st.groups ++ [g], st.devices,
          st.allgroups ++ [g.tok], st.alldevices, c'⟩
    | some n =>
        buildGroupLoop rest ⟨setA n ((xstring x).getD "") st.attrs,
          st.groups, st.devices, st.allgroups, st.alldevices, st.c⟩
    | none => buildGroupLoop rest st

end

/-- `for a⋯ in self.⋯s: if a⋯.id == X: a⋯.refresh(child)` as a reusable
combinator: refresh in place every element satisfying `p`, threading the
allocation counter. -/
def exceptMapCount {α : Type} (p : α → Bool)
    (f : α → Nat → Except Err (α × Nat)) :
    List α → Nat → Except Err (List α × Nat)
  | [], c => .ok ([], c)
  | g :: gs, c =>
    if p g then
      match f g c with
      | .error e => .error e
      | .ok (g', c') =>
        match exceptMapCount p f gs c' with
        | .error e => .error e
        | .ok (gs', c'') => .ok (g' :: gs', c'')
    else
      match exceptMapCount p f gs c with
      | .error e => .error e
      | .ok (gs', c'') => .ok (g :: gs', c'')

/-- Stale-device removal of `Group.refresh` (`devicetoremove` pattern). -/
def removeStaleDevices :
    List (Option String) → List (Option String) → List Device → List Nat →
      Except Err (List Device × List Nat)
  | [], _, ds, reg => .ok (ds, reg)
  | idval :: rest, newids, ds, reg =>
    if idval ∈ newids then removeStaleDevices rest newids ds reg
    else
      match lastMatch (fun d => d.idv == idval) ds with
      | none => .error .nameError
      | some d =>
        match removeFirst (fun d' => d' == d) ds with
        | none => .error .valueError
        | some ds' =>
          match removeFirst (fun t => t == d.tok) reg with
          | none => .error .valueError
          | some reg' => removeStaleDevices rest newids ds' reg'

/-- Stale-group removal of `Group.refresh` (`grouptoremove` pattern). -/
def removeStaleGroups :
    List (Option String) → List (Option String) → List Group → List Nat →
      Except Err (List Group × List Nat)
  | [], _, gs, reg => .ok (gs, reg)
  | idval :: rest, newids, gs, reg =>
    if idval ∈ newids then removeStaleGroups rest newids gs reg
    else
      match lastMatch (fun g => g.idv == idval) gs with
      | none => .error .nameError
      | some g =>
        match removeFirst (fun g' => groupBEq g' g) gs with
        | none => .error .valueError
        | some gs' =>
          match removeFirst (fun t => t == g.tok) reg with
          | none => .error .valueError
          | some reg' => removeStaleGroups rest newids gs' reg'

/-- Loop state of `Group.refresh`. -/
structure GRefSt where
  attrs : Attrs
  groups : List Group
  devices : List Device
  allgroups : List Nat
  alldevices : List Nat
  newgids : List (Option String)
  newdids : List (Option String)
  c : Nat

mutual

/-- `Group.refresh` with a supplied fragment: collect tracked device and
group ids, reconcile the fragment's children, then remove stale devices and
stale groups from collection and registry, and store the XML attribute
dict. -/
def refreshGroup (chenv : Option String → XNode) :
    Group → XNode → Nat → Except Err (Group × Nat)
  | _, .text _, _ => .error .attributeError
  | g, .elem _ xa cs, c =>
    let deviceids := g.devices.map Device.idv
    let groupids := g.groups.map Group.idv
    match refreshGroupLoop chenv cs groupids deviceids
        ⟨g.attrs, g.groups, g.devices, g.allgroups, g.alldevices,
          [], [], c⟩ with
    | .error e => .error e
    | .ok st =>
      match removeStaleDevices deviceids st.newdids st.devices
          st.alldevices with
      | .error e => .error e
      | .ok (ds', ads') =>
        match removeStaleGroups groupids st.newgids st.groups
            st.allgroups with
        | .error e => .error e
        | .ok (gs', ags') =>
            .ok (.mk g.tok st.attrs xa gs' ds' ags' ads', st.c)

/-- The child loop of `Group.refresh`: reconcile `<device>` and `<group>`
children by id, record seen ids, apply scalar children. -/
def refreshGroupLoop (chenv : Option String → XNode) :
    List XNode → List (Option String) → List (Option String) → GRefSt →
      Except Err GRefSt
  | [], _, _, st => .ok st
  | x :: rest, groupids, deviceids, st =>
    match xname x with
    | some "device" =>
      match findTagString "id" x with
      | .error e => .error e
      | .ok idstr =>
        if idstr ∈ deviceids then
          match exceptMapCount (fun d => d.idv == idstr)
              (fun d c => refreshDevice chenv d x c) st.devices st.c with
          | .error e => .error e
          | .ok (ds', c') =>
              refreshGroupLoop chenv rest groupids deviceids
                ⟨st.attrs, st.groups, ds', st.allgroups, st.alldevices,
                  st.newgids, st.newdids ++ [idstr], c'⟩
        else
          let (d, c') := buildDevice x st.c
          refreshGroupLoop chenv rest groupids deviceids
            ⟨st.attrs, st.groups, st.devices ++ [d], st.allgroups,
              st.alldevices ++ [d.tok], st.newgids,
              st.newdids ++ [idstr], c'⟩
    | some "group" =>
      match findTagString "id" x with
      | .error e => .error e
      | .ok idstr =>
        if idstr ∈ groupids then
          match exceptMapCount (fun g => g.idv == idstr)
              (fun g c => refreshGroup chenv g x c) st.groups st.c with
          | .error e => .error e
          | .ok (gs', c') =>
              refreshGroupLoop chenv rest groupids deviceids
                ⟨st.attrs, gs', st.devices, st.allgroups, st.alldevices,
                  st.newgids ++ [idstr], st.newdids, c'⟩
        else
          let (g, c') := buildGroup x st.c
          refreshGroupLoop chenv rest groupids deviceids
            ⟨st.attrs, st.groups ++ [g], st.devices,
              st.allgroups ++ [g.tok], st.alldevices,
              st.newgids ++ [idstr], st.newdids, c'⟩
    | some n =>
        refreshGroupLoop chenv rest groupids deviceids
          ⟨setA n ((xstring x).getD "") st.attrs, st.groups, st.devices,
            st.allgroups, st.alldevices, st.newgids, st.newdids, st.c⟩
    | none => refreshGroupLoop chenv rest groupids deviceids st

end

/-! ## The root client (`PRTGApi`) -/

/-- The root client's mutable state: scalar attributes, the three direct
child collections, and the instance registries. -/
structure Api where
  attrs : Attrs
  probes : List Group
  groups : List Group
  devices : List Device
  allprobes : List Nat
  allgroups : List Nat
  alldevices : List Nat
  allsensors : List Nat

/-- `treesoup.sensortree.nodes.children`: navigate to the `<nodes>` tag of
the document (attribute access on a soup is `find`); a missing tag makes
the chained attribute access raise `AttributeError`. -/
def docNodesChildren (doc : XNode) : Except Err (List XNode) :=
  match xfind "sensortree" doc with
  | none => .error .attributeError
  | some st =>
    match xfind "nodes" st with
    | none => .error .attributeError
    | some nd => .ok (xchildren nd)

/-- Loop state of `PRTGApi.initialize`. -/
structure ApiBuildSt where
  attrs : Attrs
  probes : List Group
  groups : List Group
  devices : List Device
  allprobes : List Nat
  allgroups : List Nat
  alldevices : List Nat
  c : Nat

/-- The grandchild loop of `PRTGApi.initialize`: construct probes, devices
and groups, register them, apply scalar children. -/
def apiInitInner : List XNode → ApiBuildSt → ApiBuildSt
  | [], st => st
  | x :: rest, st =>
    match xname x with
    | some "probenode" =>
        let (p, c') := buildGroup x st.c
        apiInitInner rest ⟨st.attrs, st.probes ++ [p], st.groups,
          st.devices, st.allprobes ++ [p.tok], st.allgroups,
          st.alldevices, c'⟩
    | some "device" =>
        let (d, c') := buildDevice x st.c
        apiInitInner rest ⟨st.attrs, st.probes, st.groups,
          st.devices ++ [d], st.allprobes, st.allgroups,
          st.alldevices ++ [d.tok], c'⟩
    | some "group" =>
        let (g, c') := buildGroup x st.c
        apiInitInner rest ⟨st.attrs, st.probes, st.groups ++ [g],
          st.devices, st.allprobes, st.allgroups ++ [g.tok],
          st.alldevices, c'⟩
    | some n =>
        apiInitInner rest ⟨setA n ((xstring x).getD "") st.attrs,
          st.probes, st.groups, st.devices, st.allprobes, st.allgroups,
          st.alldevices, st.c⟩
    | none => apiInitInner rest st

/-- The child loop of `PRTGApi.initialize`: the body runs for every named
child, iterating its children. -/
def apiInitOuter : List XNode → ApiBuildSt → ApiBuildSt
  | [], st => st
  | x :: rest, st =>
    match xname x with
    | none => apiInitOuter rest st
    | some _ => apiInitOuter rest (apiInitInner (xchildren x) st)

/-- `PRTGApi.initialize` on an already-fetched tree document. (The
constructor's `self.id = rootid` integer default is unrepresented — ids in
the model are document strings; the `rootid` only selects what the server
returns.) -/
def apiInitialize (doc : XNode) (c : Nat) : Except Err (Api × Nat) :=
  match docNodesChildren doc with
  | .error e => .error e
  | .ok children =>
    let st := apiInitOuter children ⟨[], [], [], [], [], [], [], c⟩
    .ok (⟨st.attrs, st.probes, st.groups, st.devices, st.allprobes,
      st.allgroups, st.alldevices, []⟩, st.c)

/-- Loop state of `PRTGApi.refresh`. -/
structure ApiRefSt where
  attrs : Attrs
  probes : List Group
  groups : List Group
  devices : List Device
  allprobes : List Nat
  allgroups : List Nat
  alldevices : List Nat
  newpids : List (Option String)
  newgids : List (Option String)
  newdids : List (Option String)
  c : Nat

/-- The grandchild loop of `PRTGApi.refresh`: reconcile probes, groups and
devices by id, record seen ids, apply scalar children. -/
def apiRefreshInner (chenv : Option String → XNode) :
    List XNode → List (Option String) → List (Option String) →
      List (Option String) → ApiRefSt → Except Err ApiRefSt
  | [], _, _, _, st => .ok st
  | x :: rest, probeids, groupids, deviceids, st =>
    match xname x with
    | some "probenode" =>
      match findTagString "id" x with
      | .error e => .error e
      | .ok idstr =>
        if idstr ∈ probeids then
          match exceptMapCount (fun p => p.idv == idstr)
              (fun p c => refreshGroup chenv p x c) st.probes st.c with
          | .error e => .error e
          | .ok (ps', c') =>
              apiRefreshInner chenv rest probeids groupids deviceids
                { st with
                  probes := ps'
                  newpids := st.newpids ++ [idstr]
                  c := c' }
        else
          let (p, c') := buildGroup x st.c
          apiRefreshInner chenv rest probeids groupids deviceids
            { st with
              probes := st.probes ++ [p]
              allprobes := st.allprobes ++ [p.tok]
              newpids := st.newpids ++ [idstr]
              c := c' }
    | some "group" =>
      match findTagString "id" x with
      | .error e => .error e
      | .ok idstr =>
        if idstr ∈ groupids then
          match exceptMapCount (fun g => g.idv == idstr)
              (fun g c => refreshGroup chenv g x c) st.groups st.c with
          | .error e => .error e
          | .ok (gs', c') =>
              apiRefreshInner chenv rest probeids groupids deviceids
                { st with
                  groups := gs'
                  newgids := st.newgids ++ [idstr]
                  c := c' }
        else
          let (g, c') := buildGroup x st.c
          apiRefreshInner chenv rest probeids groupids deviceids
            { st with
              groups := st.groups ++ [g]
              allgroups := st.allgroups ++ [g.tok]
              newgids := st.newgids ++ [idstr]
              c := c' }
    | some "device" =>
      match findTagString "id" x with
      | .error e => .error e
      | .ok idstr =>
        if idstr ∈ deviceids then
          match exceptMapCount (fun d => d.idv == idstr)
              (fun d c => refreshDevice chenv d x c) st.devices st.c with
          | .error e => .error e
          | .ok (ds', c') =>
              apiRefreshInner chenv rest probeids groupids deviceids
                { st with
                  devices := ds'
                  newdids := st.newdids ++ [idstr]
                  c := c' }
        else
          let (d, c') := buildDevice x st.c
          apiRefreshInner chenv rest probeids groupids deviceids
            { st with
              devices := st.devices ++ [d]
              alldevices := st.alldevices ++ [d.tok]
              newdids := st.newdids ++ [idstr]
              c := c' }
    | some n =>
        apiRefreshInner chenv rest probeids groupids deviceids
          { st with attrs := setA n ((xstring x).getD "") st.attrs }
    | none => apiRefreshInner chenv rest probeids groupids deviceids st

/-- The child loop of `PRTGApi.refresh`. -/
def apiRefreshOuter (chenv : Option String → XNode) :
    List XNode → List (Option String) → List (Option String) →
      List (Option String) → ApiRefSt → Except Err ApiRefSt
  | [], _, _, _, st => .ok st
  | x :: rest, pids, gids, dids, st =>
    match xname x with
    | none => apiRefreshOuter chenv rest pids gids dids st
    | some _ =>
      match apiRefreshInner chenv (xchildren x) pids gids dids st with
      | .error e => .error e
      | .ok st' => apiRefreshOuter chenv rest pids gids dids st'

/-- Inner scan of the probe/group stale-removal loops of `PRTGApi.refresh`:
`for a in self.list: if a.id == idval: self.registry.remove(a);
self.list.remove(a)`. Removing the current element during iteration makes
the loop skip the element that slides into its slot. -/
def apiRemoveScan (idval : Option String) :
    List Group → List Nat → Except Err (List Group × List Nat)
  | [], reg => .ok ([], reg)
  | p :: ps, reg =>
    if p.idv == idval then
      match removeFirst (fun t => t == p.tok) reg with
      | none => .error .valueError
      | some reg' =>
        match ps with
        | [] => .ok ([], reg')
        | q :: ps' =>
          match apiRemoveScan idval ps' reg' with
          | .error e => .error e
          | .ok (r, reg'') => .ok (q :: r, reg'')
    else
      match apiRemoveScan idval ps reg with
      | .error e => .error e
      | .ok (r, reg'') => .ok (p :: r, reg'')

/-- The probe/group stale-removal loops of `PRTGApi.refresh`. -/
def apiRemoveStale :
    List (Option String) → List (Option String) → List Group → List Nat →
      Except Err (List Group × List Nat)
  | [], _, ps, reg => .ok (ps, reg)
  | idval :: rest, newids, ps, reg =>
    if idval ∈ newids then apiRemoveStale rest newids ps reg
    else
      match apiRemoveScan idval ps reg with
      | .error e => .error e
      | .ok (ps', reg') => apiRemoveStale rest newids ps' reg'

/-- Inner scan of the device stale-removal loop of `PRTGApi.refresh`. The
source removes from `self.devices` twice (`self.devices.remove(adevice)`
on two consecutive lines) instead of pruning `self.alldevices`: the second
`remove` of the just-removed object raises `ValueError`. -/
def apiDeviceScan (idval : Option String) :
    List Device → Except Err (List Device)
  | [] => .ok []
  | d :: ds =>
    if d.idv == idval then .error .valueError
    else
      match apiDeviceScan idval ds with
      | .error e => .error e
      | .ok r => .ok (d :: r)

/-- The device stale-removal loop of `PRTGApi.refresh` (the buggy one). -/
def apiRemoveStaleDevices :
    List (Option String) → List (Option String) → List Device →
      Except Err (List Device)
  | [], _, ds => .ok ds
  | idval :: rest, newids, ds =>
    if idval ∈ newids then apiRemoveStaleDevices rest newids ds
    else
      match apiDeviceScan idval ds with
      | .error e => .error e
      | .ok ds' => apiRemoveStaleDevices rest newids ds'

/-- `PRTGApi.refresh` with a supplied tree document: collect tracked ids,
reconcile all grandchildren, then run the three stale-removal loops
(probes, groups, then the buggy device loop, which never prunes
`alldevices`). -/
def apiRefresh (chenv : Option String → XNode) (api : Api) (doc : XNode)
    (c : Nat) : Except Err (Api × Nat) :=
  match docNodesChildren doc with
  | .error e => .error e
  | .ok children =>
    let probeids := api.probes.map Group.idv
    let groupids := api.groups.map Group.idv
    let deviceids := api.devices.map Device.idv
    match apiRefreshOuter chenv children probeids groupids deviceids
        ⟨api.attrs, api.probes, api.groups, api.devices, api.allprobes,
          api.allgroups, api.alldevices, [], [], [], c⟩ with
    | .error e => .error e
    | .ok st =>
      match apiRemoveStale probeids st.newpids st.probes st.allprobes with
      | .error e => .error e
      | .ok (ps', aps') =>
        match apiRemoveStale groupids st.newgids st.groups st.allgroups with
        | .error e => .error e
        | .ok (gs', ags') =>
          match apiRemoveStaleDevices deviceids st.newdids st.devices with
          | .error e => .error e
          | .ok ds' =>
              .ok (⟨st.attrs, ps', gs', ds', aps', ags', st.alldevices,
                api.allsensors⟩, st.c)

/-! ## delete -/

/-- Python `str.upper()` (ASCII). -/
def pyUpper (s : String) : String := String.mk (s.toList.map Char.toUpper)

/-- The interactive confirmation loop of `BaseConfig.delete`: consume
responses until one uppercases to `Y` or `N` (an empty answer defaults to
`N`); on `Y` the delete request is issued. Returns the function's result
value together with the list of URLs passed to `get_request`; running out
of input is `EOFError`. -/
def deleteLoop (delete_url : String) :
    List String → Except Err (Option String × List String)
  | [] => .error .eofError
  | inp :: rest =>
      let response := if inp = "" then "N" else inp
      if pyUpper response = "Y" then .ok (none, [delete_url])
      else if pyUpper response = "N" then .ok (none, [])
      else deleteLoop delete_url rest

/-- `BaseConfig.delete`: an entity whose `type` attribute equals `"Root"`
is rejected with an explanatory string and no request; otherwise the delete
URL is issued (after interactive confirmation when `confirm` is true).
The outcome is the returned value paired with the issued request URLs. -/
def delete (a : Attrs) (confirm : Bool) (inputs : List String) :
    Except Err (Option String × List String) :=
  if lookupA "type" a = some "Root" then
    .ok (some "You cannot delete the root object.", [])
  else
    let delete_url :=
      "deleteobject.htm?id=" ++ pyStr (lookupA "id" a) ++ "&approve=1"
    if confirm then deleteLoop delete_url inputs
    else .ok (none, [delete_url])

/-! ## Concrete data shared by witnesses -/

/-- A concrete connection configuration used by witness theorems. -/
def cW : Conf := ⟨"prtg.example", "443", "admin", "hash0", "https"⟩

/-- A concrete historic-data CSV body: header, two data rows (the second
with a daylight-saving annotation), and the two trailing lines the server
appends. -/
def histBody : String :=
  "Date Time,Value\n01/31/2020 01:02:03 PM,17\n" ++
    "02/01/2020 11:59:59 PM - CEST,18\nfooter\n"

/-- C9: on a successful request, `get_historic_data` drops the last two
lines of the CSV response, treats the first remaining row as the header, and
returns a table keyed by the headers in order, where the column for header
`h` at position `i` is exactly `colOf h i` of the data rows: the `i`-th cell
of every data row in original row order, parsed as a timestamp (after
stripping the `" -"`-prefixed trailing suffix) when `h = "Date Time"` and
kept as its raw string otherwise (`cellFor`). Hypotheses: the response body
splits into a header line, data lines, and exactly two trailing junk lines;
the rows are rectangular; the headers are distinct; and every column
extraction succeeds (in particular every Date Time cell parses). -/
theorem get_historic_data_spec (c : Conf) (objid avg : String)
    (sd ed : Sum PyDateTime String) (r : HResp)
    (headerLine j1 j2 : String) (dataLines : List String)
    (h200 : r.status = 200)
    (hsplit : pySplit '\n' r.body = headerLine :: (dataLines ++ [j1, j2]))
    (hlen : ∀ line ∈ dataLines,
      (csvSplitLine line).length = (csvSplitLine headerLine).length)
    (hnodup : (csvSplitLine headerLine).Nodup)
    (hok : ∀ p ∈ (csvSplitLine headerLine).enum,
      exOk (colOf p.2 p.1 (dataLines.map csvSplitLine)) = true) :
    ∃ tbl, get_historic_data c objid avg sd ed r = .ok tbl ∧
      tbl.map Prod.fst = csvSplitLine headerLine ∧
      ∀ (i : Nat) (h : String), (csvSplitLine headerLine)[i]? = some h →
        ∃ col, colOf h i (dataLines.map csvSplitLine) = .ok col ∧
          tbl[i]? = some (h, col) := by
  have hdrop : ((pySplit '\n' r.body).dropLast).dropLast =
      headerLine :: dataLines := by
    rw [hsplit]
    have hsh : headerLine :: (dataLines ++ [j1, j2]) =
        ((headerLine :: dataLines) ++ [j1]) ++ [j2] := by simp
    rw [hsh, List.dropLast_concat, List.dropLast_concat]
  have hok' : ∀ (i : Nat) (h : String),
      (csvSplitLine headerLine)[i]? = some h →
      exOk (colOf h i (dataLines.map csvSplitLine)) = true := by
    intro i h hh
    exact hok (i, h) (List.mem_enum_iff_getElem?.mpr hh)
  obtain ⟨cols', hpr, hlen', hfinal⟩ := processRows_spec
    (csvSplitLine headerLine) (dataLines.map csvSplitLine)
    (List.replicate (csvSplitLine headerLine).length []) hnodup (by simp)
    (fun row hr => by
      obtain ⟨line, hline, hmap⟩ := List.mem_map.mp hr
      rw [← hmap]
      exact hlen line hline) hok'
  have hinit : initHeaders (csvSplitLine headerLine) [] =
      tblOf (csvSplitLine headerLine)
        (List.replicate (csvSplitLine headerLine).length []) := by
    rw [initHeaders_spec (csvSplitLine headerLine) [] hnodup (by simp),
      List.nil_append, map_pair_eq_tblOf_replicate]
  have hgr : ∀ u : String, get_request c u true r = .ok (some r) := by
    intro u
    simp [get_request, h200]
  have heval : get_historic_data c objid avg sd ed r =
      .ok (tblOf (csvSplitLine headerLine) cols') := by
    simp only [get_historic_data]
    rw [hgr]
    simp only [hdrop, List.map_cons, buildTable, hinit]
    exact hpr
  refine ⟨tblOf (csvSplitLine headerLine) cols', heval,
    tblOf_map_fst _ cols' hlen', ?_⟩
  intro i h hh
  have hi : i < (csvSplitLine headerLine).length :=
    (List.getElem?_eq_some.mp hh).1
  obtain ⟨vals, hvals⟩ := (exOk_iff _).mp (hok' i h hh)
  refine ⟨vals, hvals, ?_⟩
  have hrep :
      (List.replicate (csvSplitLine headerLine).length
        ([] : List Cell))[i]? = some [] := by
    rw [List.getElem?_replicate, if_pos hi]
  have hcol := hfinal i h [] vals hh hrep hvals
  rw [List.nil_append] at hcol
  exact tblOf_get2 _ cols' i h vals hh hcol

/-- C9 witness: the spec example — header `"Date Time,Value"` and two data
rows — yields a table whose `"Date Time"` column holds two parsed
timestamps and whose `"Value"` column holds the two raw strings, in row
order. -/
theorem get_historic_data_spec_witness :
    ∃ tbl, get_historic_data cW "2001" "0"
        (Sum.inr "2020-01-01-00-00-00") (Sum.inr "2020-02-02-00-00-00")
        ⟨200, histBody⟩ = .ok tbl ∧
      tbl.map Prod.fst = csvSplitLine "Date Time,Value" ∧
      ∀ (i : Nat) (h : String),
        (csvSplitLine "Date Time,Value")[i]? = some h →
        ∃ col, colOf h i
            (["01/31/2020 01:02:03 PM,17",
              "02/01/2020 11:59:59 PM - CEST,18"].map csvSplitLine) =
            .ok col ∧
          tbl[i]? = some (h, col) :=
  get_historic_data_spec cW "2001" "0"
    (Sum.inr "2020-01-01-00-00-00") (Sum.inr "2020-02-02-00-00-00")
    ⟨200, histBody⟩ "Date Time,Value" "footer" ""
    ["01/31/2020 01:02:03 PM,17", "02/01/2020 11:59:59 PM - CEST,18"]
    rfl (by decide) (by decide) (by decide) (by decide)

/-- A concrete entity attribute state used by witness theorems. -/
def aW : Attrs := [("id", "5"), ("name", "node0"), ("status", "Up")]

/-- A scalar leaf element of a tree fragment. -/
def xleaf (tag v : String) : XNode := .elem tag [] [.text v]

/-- A channel environment answering every sensor id with an empty channel
table. -/
def envW : Option String → XNode := fun _ => .elem "channels" [] []

/-- A device fragment with id 20. -/
def devW20 : XNode := .elem "device" [] [xleaf "id" "20", xleaf "name" "A"]

/-- A tree document whose root group (id 0) contains one device (id 20). -/
def docW1 : XNode :=
  .elem "prtg" [] [.elem "sensortree" [] [.elem "nodes" []
    [.elem "group" [] [xleaf "id" "0", xleaf "name" "Root0", devW20]]]]

/-- The same tree document after device 20 disappeared. -/
def docW2 : XNode :=
  .elem "prtg" [] [.elem "sensortree" [] [.elem "nodes" []
    [.elem "group" [] [xleaf "id" "0", xleaf "name" "Root0"]]]]

/-- A device fragment whose single sensor is Up. -/
def devS1 : XNode := .elem "device" []
  [xleaf "id" "40", xleaf "name" "D",
    .elem "sensor" [] [xleaf "id" "41", xleaf "name" "S",
      xleaf "status" "Up"]]

/-- The same device after its sensor went Down. -/
def devS2 : XNode := .elem "device" []
  [xleaf "id" "40", xleaf "name" "D",
    .elem "sensor" [] [xleaf "id" "41", xleaf "name" "S",
      xleaf "status" "Down"]]

/-- C1: the stale-device branch of `PRTGApi.refresh` is broken. At the
concrete failing input — a root client tracking one device (id 20),
refreshed against a document in which the device is gone — the removal loop
executes `self.devices.remove(adevice)` twice instead of pruning
`self.alldevices`: the second `remove` of the just-removed object raises
`ValueError`, so the refresh neither completes nor ever removes the device
token from the `alldevices` registry, contradicting the claim that a
vanished child is removed from both the local collection and the global
registry. (The probe and group branches do prune both lists; the device
branch is the slip.) -/
theorem api_refresh_stale_device_raises :
    (apiInitialize docW1 0).map
        (fun p => apiRefresh envW p.1 docW2 p.2) =
      .ok (.error .valueError) := rfl

/-- C6: nothing in the code ever assigns `type = "Root"`, so the root-guard
of `delete` is dead for the root client: a `PRTGApi` built from a concrete
sensor tree (whose fragment carries no `<type>` element, as real tree
documents do not) takes the non-Root branch of `delete(confirm=False)` and
issues the `deleteobject.htm` request, returning `None` — while an entity
whose `type` attribute did equal `"Root"` would be rejected with the
explanatory string and no request, which is what the claim (and the spec)
say always happens for the root. -/
theorem delete_on_root_client_issues_request :
    (apiInitialize docW1 0).map (fun p => delete p.1.attrs false []) =
        .ok (.ok (none, ["deleteobject.htm?id=0&approve=1"])) ∧
      delete [("type", "Root"), ("id", "0")] false [] =
        .ok (some "You cannot delete the root object.", []) ∧
      delete [("type", "Root"), ("id", "0")] true ["Y"] =
        .ok (some "You cannot delete the root object.", []) :=
  ⟨rfl, rfl, rfl⟩

/-- Lookup of a status bucket (first binding, as in a Python dict). -/
def sbysLookup (st : Option String) :
    List (Option String × List Nat) → Option (List Nat)
  | [] => none
  | (k, ts) :: m => if k = st then some ts else sbysLookup st m

theorem sbysLookup_append_self (st : Option String) (t : Nat) :
    ∀ m, sbysLookup st (sbysAppend st t m) =
      some ((sbysLookup st m).getD [] ++ [t])
  | [] => by simp [sbysAppend, sbysLookup]
  | (k, ts) :: m => by
      by_cases hk : k = st
      · subst hk
        simp [sbysAppend, sbysLookup]
      · simp [sbysAppend, sbysLookup, hk, sbysLookup_append_self st t m]

theorem sbysLookup_append_other (st st' : Option String) (t : Nat)
    (hne : st' ≠ st) :
    ∀ m, sbysLookup st' (sbysAppend st t m) = sbysLookup st' m
  | [] => by simp [sbysAppend, sbysLookup, Ne.symm hne]
  | (k, ts) :: m => by
      by_cases hk : k = st
      · subst hk
        simp [sbysAppend, sbysLookup, Ne.symm hne]
      · simp [sbysAppend, sbysLookup, hk,
          sbysLookup_append_other st st' t hne m]

/-- What a bucket holds after the bucketing loop: its prior contents
followed by the tokens of exactly the processed sensors having that status,
in order; a status never seen and not pre-seeded has no bucket. -/
theorem bucketize_lookup :
    ∀ (ss : List Sensor) (m : List (Option String × List Nat))
      (st : Option String),
      sbysLookup st (bucketize ss m) =
        match sbysLookup st m with
        | some ts =>
            some (ts ++ (ss.filter (fun s => s.statusv == st)).map Sensor.tok)
        | none =>
            match (ss.filter (fun s => s.statusv == st)).map Sensor.tok with
            | [] => none
            | ts => some ts
  | [], m, st => by
      cases h : sbysLookup st m <;> simp [bucketize, h]
  | s :: ss, m, st => by
      by_cases hst : s.statusv = st
      · subst hst
        rw [bucketize, bucketize_lookup ss (sbysAppend s.statusv s.tok m)
          s.statusv, sbysLookup_append_self]
        cases h : sbysLookup s.statusv m <;>
          simp [h, List.filter_cons, List.append_assoc]
      · rw [bucketize, bucketize_lookup ss (sbysAppend s.statusv s.tok m) st,
          sbysLookup_append_other s.statusv st s.tok (Ne.symm hst)]
        have hbeq : (s.statusv == st) = false := by
          simp [hst]
        cases h : sbysLookup st m <;> simp [h, List.filter_cons, hbeq]

/-- C7 (amended): `Device.initialize` computes the status index in full —
after construction every bucket holds exactly the tokens of the device's
sensors having that status (in order), the four fixed buckets Up, Down,
Warning and Paused always exist, and every sensor's status has a bucket —
but `Device.refresh` never recomputes `sensors_by_status`: the index is
carried over unchanged, so after a refresh that changes a sensor's status
the index is stale (the claim's "recomputed in full on every refresh" is
refuted by `device_status_index_stale_after_refresh`). -/
theorem device_status_index_spec :
    (∀ (soup : XNode) (c : Nat) (d : Device) (c' : Nat),
      buildDevice soup c = (d, c') →
      (∀ st ts, sbysLookup st d.sbys = some ts →
        ts = (d.sensors.filter (fun s => s.statusv == st)).map Sensor.tok) ∧
      (∀ s ∈ d.sensors, sbysLookup s.statusv d.sbys ≠ none) ∧
      (sbysLookup (some "Up") d.sbys).isSome = true ∧
      (sbysLookup (some "Down") d.sbys).isSome = true ∧
      (sbysLookup (some "Warning") d.sbys).isSome = true ∧
      (sbysLookup (some "Paused") d.sbys).isSome = true) ∧
    (∀ (chenv : Option String → XNode) (d : Device) (soup : XNode)
      (c : Nat) (d' : Device) (c' : Nat),
      refreshDevice chenv d soup c = .ok (d', c') → d'.sbys = d.sbys) := by
  constructor
  · intro soup c d c' hb
    have hd : d = (buildDevice soup c).1 := by rw [hb]
    have hsb : d.sbys = bucketize d.sensors sbysInit := by
      rw [hd]
      simp only [buildDevice]
    refine ⟨?_, ?_, ?_, ?_, ?_, ?_⟩
    · intro st ts hts
      rw [hsb, bucketize_lookup] at hts
      revert hts
      cases h : sbysLookup st sbysInit with
      | some ts0 =>
        have h0 : ts0 = [] := by
          have h' := h
          simp only [sbysInit, sbysLookup] at h'
          split_ifs at h' <;> injection h' with h' <;> exact h'.symm
        intro hts
        injection hts with hts
        rw [← hts, h0, List.nil_append]
      | none =>
        cases hf : (d.sensors.filter (fun s => s.statusv == st)).map
            Sensor.tok with
        | nil => intro hts; cases hts
        | cons a l =>
          intro hts
          injection hts with hts
          rw [← hts]
    · intro s hs
      rw [hsb, bucketize_lookup]
      have hmem : s ∈ d.sensors.filter (fun s' => s'.statusv == s.statusv) :=
        List.mem_filter.mpr ⟨hs, by simp⟩
      have hne : (d.sensors.filter
          (fun s' => s'.statusv == s.statusv)).map Sensor.tok ≠ [] := by
        intro hcon
        rw [List.map_eq_nil_iff] at hcon
        rw [hcon] at hmem
        cases hmem
      cases h : sbysLookup s.statusv sbysInit with
      | some ts0 => simp
      | none =>
        cases hf : (d.sensors.filter
            (fun s' => s'.statusv == s.statusv)).map Sensor.tok with
        | nil => exact absurd hf hne
        | cons a l => simp
    all_goals
      rw [hsb, bucketize_lookup]
      simp [sbysInit, sbysLookup]
  · intro chenv d soup c d' c' h
    cases soup with
    | text s => simp [refreshDevice] at h
    | elem t xa cs =>
      simp only [refreshDevice] at h
      split at h
      · cases h
      · split at h
        · cases h
        · simp only [Except.ok.injEq, Prod.mk.injEq] at h
          rw [← h.1]

/-- C7 witness: both halves of `device_status_index_spec` at a concrete
device (one sensor with status Up). -/
theorem device_status_index_spec_witness :
    ([1] = (((buildDevice devS1 0).1).sensors.filter
        (fun s => s.statusv == some "Up")).map Sensor.tok) ∧
    (∃ d' c', refreshDevice envW (buildDevice devS1 0).1 devS2
        (buildDevice devS1 0).2 = .ok (d', c') ∧
      d'.sbys = ((buildDevice devS1 0).1).sbys) :=
  ⟨(device_status_index_spec.1 devS1 0 (buildDevice devS1 0).1
      (buildDevice devS1 0).2 rfl).1 (some "Up") [1] rfl,
   ⟨_, _, rfl, device_status_index_spec.2 envW (buildDevice devS1 0).1
      devS2 (buildDevice devS1 0).2 _ _ rfl⟩⟩

/-- C7 (counterexample): after refreshing a device whose only sensor went
from Up to Down, the sensor's status is Down but the status index still
holds its token in the Up bucket and the Down bucket is empty — the index
was not recomputed on refresh. -/
theorem device_status_index_stale_after_refresh :
    (refreshDevice envW (buildDevice devS1 0).1 devS2
        (buildDevice devS1 0).2).map
      (fun p => (p.1.sensors.map Sensor.statusv,
        sbysLookup (some "Up") p.1.sbys,
        sbysLookup (some "Down") p.1.sbys)) =
      .ok ([some "Down"], some [1], some []) := rfl

/-- C5 (amended): `get_request` classifies responses as: status 200 returns
the response, 401 raises `AuthenticationError`, 404 raises `ResourceNotFound`
with the requested URL in the message, and every other status falls through
the if/elif chain producing `None` — no exception and no result (the claim's
assertion that other statuses surface a generic transport error is refuted by
`get_request_status500_counterexample`). -/
theorem get_request_classification (c : Conf) (u : String) (api : Bool)
    (r : HResp) :
    (get_request c u api r = .ok (some r) ↔ r.status = 200) ∧
    (get_request c u api r = .error (.authentication authFailMsg) ↔
      r.status = 401) ∧
    (get_request c u api r =
        .error (.resourceNotFound (notFoundMsg (requestUrl c u api))) ↔
      r.status = 404) ∧
    (get_request c u api r = .ok none ↔
      (r.status ≠ 200 ∧ r.status ≠ 401 ∧ r.status ≠ 404)) := by
  simp only [get_request]
  split_ifs with h1 h2 h3 <;> simp_all

/-- C5 (counterexample): on an HTTP 500 response `get_request` neither raises
nor returns a response — it silently produces `None`, contradicting the
claim that any other status surfaces a generic transport error. -/
theorem get_request_status500_counterexample :
    get_request cW "table.xml?content=sensortree&output=xml&id=0" true
      ⟨500, "server error"⟩ = Except.ok none := rfl

/-- C4: `pause(duration=0)` issues the indefinite-pause request; after a
successful (HTTP 200) answer it sets the local status to `"Paused"`, active
to the string `"false"`, and the raw status to the paused sentinel `"7"`;
on HTTP 401 the underlying `get_request` raises `AuthenticationError` before
any local field is touched (the functional model returns no updated state on
error, so the caller's attributes are unchanged). -/
theorem pause_zero_spec (c : Conf) (a : Attrs) (m : String) (r : HResp) :
    (r.status = 200 →
      ∃ a', pause c a 0 m r = .ok a' ∧
        lookupA "status" a' = some "Paused" ∧
        lookupA "active" a' = some "false" ∧
        lookupA "status_raw" a' = some "7") ∧
    (r.status = 401 →
      pause c a 0 m r = .error (.authentication authFailMsg)) := by
  constructor
  · intro h200
    refine ⟨setA "status_raw" "7" (setA "active" "false"
      (setA "status" "Paused" a)), ?_, ?_, ?_, ?_⟩
    · simp [pause, get_request, h200]
    · rw [lookupA_setA_other _ _ _ _ (by decide),
        lookupA_setA_other _ _ _ _ (by decide), lookupA_setA_self]
    · rw [lookupA_setA_other _ _ _ _ (by decide), lookupA_setA_self]
    · rw [lookupA_setA_self]
  · intro h401
    simp [pause, get_request, h401]

/-- C4 witness: both branches of `pause_zero_spec` at concrete inputs. -/
theorem pause_zero_spec_witness :
    (∃ a', pause cW aW 0 "" ⟨200, "ok"⟩ = .ok a' ∧
      lookupA "status" a' = some "Paused" ∧
      lookupA "active" a' = some "false" ∧
      lookupA "status_raw" a' = some "7") ∧
    pause cW aW 0 "" ⟨401, "denied"⟩ = .error (.authentication authFailMsg) :=
  ⟨(pause_zero_spec cW aW "" ⟨200, "ok"⟩).1 rfl,
   (pause_zero_spec cW aW "" ⟨401, "denied"⟩).2 rfl⟩

/-- C8: on a successful request, `get_property(name)` raises
`ResourceNotFound` exactly when the extracted result text is
`"(Property not found)"` — returning no updated state, so no field of the
entity is mutated — and otherwise stores the result text on the entity under
the attribute `name` and returns that text. -/
theorem get_property_spec (c : Conf) (a : Attrs) (n : String) (r : HResp)
    (h200 : r.status = 200) :
    (r.body = "(Property not found)" →
      get_property c a n r =
        .error (.resourceNotFound ("No object property of name: " ++ n))) ∧
    (r.body ≠ "(Property not found)" →
      get_property c a n r = .ok (setA n r.body a, r.body) ∧
      lookupA n (setA n r.body a) = some r.body) := by
  constructor
  · intro hb
    simp [get_property, get_request, h200, hb]
  · intro hb
    refine ⟨?_, lookupA_setA_self _ _ _⟩
    simp [get_property, get_request, h200, hb]

/-- C8 witness: both branches of `get_property_spec` at concrete inputs. -/
theorem get_property_spec_witness :
    (get_property cW aW "location" ⟨200, "(Property not found)"⟩ =
      .error (.resourceNotFound
        ("No object property of name: " ++ "location"))) ∧
    (get_property cW aW "location" ⟨200, "Berlin"⟩ =
      .ok (setA "location" "Berlin" aW, "Berlin") ∧
      lookupA "location" (setA "location" "Berlin" aW) = some "Berlin") :=
  ⟨(get_property_spec cW aW "location" ⟨200, "(Property not found)"⟩ rfl).1
      rfl,
   (get_property_spec cW aW "location" ⟨200, "Berlin"⟩ rfl).2 (by decide)⟩

/-- C10: a successful `set_property(name, value)` always ends with
`self.name = value`, overwriting the entity's local display name with the
value regardless of which property was set; consequently
`set_interval(seconds)` overwrites the cached display name with the interval
value. -/
theorem set_property_overwrites_name (c : Conf) (a : Attrs)
    (n v iv : String) (r : HResp) (h200 : r.status = 200) :
    (set_property c a n v r = .ok (setA "name" v a) ∧
      lookupA "name" (setA "name" v a) = some v) ∧
    (set_interval c a iv r = .ok (setA "name" iv a) ∧
      lookupA "name" (setA "name" iv a) = some iv) := by
  refine ⟨⟨?_, lookupA_setA_self _ _ _⟩, ⟨?_, lookupA_setA_self _ _ _⟩⟩ <;>
    simp [set_property, set_interval, get_request, h200]

/-- C10 witness: `set_property` on the property `"host"` and `set_interval`
with value `"3600"` both clobber the cached name at a concrete input. -/
theorem set_property_overwrites_name_witness :
    (set_property cW aW "host" "10.0.0.9" ⟨200, "ok"⟩ =
      .ok (setA "name" "10.0.0.9" aW) ∧
      lookupA "name" (setA "name" "10.0.0.9" aW) = some "10.0.0.9") ∧
    (set_interval cW aW "3600" ⟨200, "ok"⟩ = .ok (setA "name" "3600" aW) ∧
      lookupA "name" (setA "name" "3600" aW) = some "3600") :=
  set_property_overwrites_name cW aW "host" "10.0.0.9" "3600" ⟨200, "ok"⟩ rfl

/-! ## C3: channels are never pruned -/

/-- The reconciliation loop of `get_channels` never removes a channel: the
result keeps the list's length, and a cached channel whose `objid` matches
no `<item>` of the fetch is returned unchanged at its position. -/
theorem refreshChannelsLoop_keeps :
    ∀ (items : List XNode) (chs chs' : List Channel),
      refreshChannelsLoop items chs = .ok chs' →
      chs'.length = chs.length ∧
      ∀ (i : Nat) (ch : Channel), chs[i]? = some ch →
        (∀ item ∈ items, ∀ r, findTagString "objid" item = .ok r →
          ch.objidv ≠ r) →
        chs'[i]? = some ch := by
  intro items
  induction items with
  | nil =>
    intro chs chs' h
    rw [refreshChannelsLoop] at h
    injection h with h
    subst h
    exact ⟨rfl, fun i ch hi _ => hi⟩
  | cons item rest ih =>
    intro chs chs' h
    rw [refreshChannelsLoop] at h
    cases hf : findTagString "objid" item with
    | error e => exact (Except.noConfusion (hf ▸ h))
    | ok idstr =>
      simp only [hf] at h
      obtain ⟨hlen, hpos⟩ := ih _ _ h
      refine ⟨hlen.trans (by simp), ?_⟩
      intro i ch hi hall
      have hne : ch.objidv ≠ idstr := hall item (by simp) idstr hf
      have hmap : (chs.map (fun ch' =>
          if ch'.objidv = idstr then refreshChannel ch' item else ch'))[i]?
          = some ch := by
        rw [List.getElem?_map, hi]
        simp [hne]
      exact hpos i ch hmap (fun it hm r hr => hall it (by simp [hm]) r hr)

/-- C3: a cached channel is never removed by `get_channels` or a
sensor-level refresh. For a sensor with a non-empty channel list,
`get_channels` (reconciliation branch) and `Sensor.refresh` keep the
channel list's length, and every cached channel whose `objid` differs from
the `objid` of every `<item>` of the later channel fetch stays at its
position with all its fields untouched. -/
theorem channels_never_pruned :
    (∀ (s : Sensor) (doc : XNode) (c : Nat) (s' : Sensor) (c' : Nat),
      s.channels ≠ [] → get_channels s doc c = .ok (s', c') →
      s'.channels.length = s.channels.length ∧
      ∀ (i : Nat) (ch : Channel), s.channels[i]? = some ch →
        (∀ item ∈ xfindAll "item" doc, ∀ r,
          findTagString "objid" item = .ok r → ch.objidv ≠ r) →
        s'.channels[i]? = some ch) ∧
    (∀ (chenv : Option String → XNode) (s : Sensor) (soup : XNode)
      (c : Nat) (s' : Sensor) (c' : Nat),
      refreshSensor chenv s soup c = .ok (s', c') →
      s'.channels.length = s.channels.length ∧
      ∀ (i : Nat) (ch : Channel), s.channels[i]? = some ch →
        (∀ item ∈ xfindAll "item"
            (chenv (lookupA "id" (applyScalars (xchildren soup) s.attrs))),
          ∀ r, findTagString "objid" item = .ok r → ch.objidv ≠ r) →
        s'.channels[i]? = some ch) := by
  have P1 : ∀ (s : Sensor) (doc : XNode) (c : Nat) (s' : Sensor) (c' : Nat),
      s.channels ≠ [] → get_channels s doc c = .ok (s', c') →
      s'.channels.length = s.channels.length ∧
      ∀ (i : Nat) (ch : Channel), s.channels[i]? = some ch →
        (∀ item ∈ xfindAll "item" doc, ∀ r,
          findTagString "objid" item = .ok r → ch.objidv ≠ r) →
        s'.channels[i]? = some ch := by
    intro s doc c s' c' hne hg
    have hie : s.channels.isEmpty = false := by
      cases hc : s.channels with
      | nil => exact absurd hc hne
      | cons a l => rfl
    rw [get_channels, hie] at hg
    simp only [Bool.false_eq_true, if_false] at hg
    cases hr : refreshChannelsLoop (xfindAll "item" doc) s.channels with
    | error e => exact (Except.noConfusion (hr ▸ hg))
    | ok chs =>
      simp only [hr] at hg
      injection hg with hg
      injection hg with hgs hgc
      subst hgs
      obtain ⟨hlen, hpos⟩ := refreshChannelsLoop_keeps _ _ _ hr
      exact ⟨hlen, fun i ch hi hall => hpos i ch hi hall⟩
  refine ⟨P1, ?_⟩
  intro chenv s soup c s' c' h
  obtain ⟨st, sa, sb, sch⟩ := s
  rw [refreshSensor] at h
  cases sch with
  | nil =>
    simp only [List.isEmpty_nil, if_true] at h
    injection h with h
    injection h with hgs hgc
    subst hgs
    refine ⟨rfl, ?_⟩
    intro i ch hi
    simp at hi
  | cons a l =>
    simp only [List.isEmpty_cons, Bool.false_eq_true, if_false] at h
    obtain ⟨hlen, hpos⟩ := P1 _ _ _ _ _ (by simp) h
    exact ⟨hlen, fun i ch hi hall => hpos i ch hi hall⟩

/-- A cached channel with objid 1. -/
def chKeep : Channel := ⟨7, [("objid", "1"), ("name", "Downtime")]⟩

/-- A sensor (id 41) caching exactly that channel. -/
def senCh : Sensor := ⟨6, [("id", "41"), ("name", "S")], [], [chKeep]⟩

/-- A later channel fetch whose only item has objid 2 — objid 1 is gone. -/
def chItem2 : XNode :=
  .elem "item" [] [xleaf "objid" "2", xleaf "name" "Traffic"]

/-- The channel table wrapping that item. -/
def chDoc2 : XNode := .elem "channels" [] [chItem2]

/-- The sensor after reconciling against that fetch: channel kept. -/
def senChAfter : Sensor := ⟨6, [("id", "41"), ("name", "S")], [], [chKeep]⟩

/-- C3 witness: reconciling the sensor against a fetch that no longer
lists objid 1 keeps the cached channel unchanged at its position. -/
theorem channels_never_pruned_witness :
    senCh.channels ≠ [] ∧
    get_channels senCh chDoc2 5 = .ok (senChAfter, 5) ∧
    senChAfter.channels.length = senCh.channels.length ∧
    senChAfter.channels[0]? = some chKeep := by
  have hne : senCh.channels ≠ [] := by simp [senCh]
  have hg : get_channels senCh chDoc2 5 = .ok (senChAfter, 5) := rfl
  obtain ⟨hlen, hpos⟩ := channels_never_pruned.1 senCh chDoc2 5 senChAfter 5
    hne hg
  refine ⟨hne, hg, hlen, hpos 0 chKeep rfl ?_⟩
  intro item hm r hr
  rw [show xfindAll "item" chDoc2 = [chItem2] from rfl,
    List.mem_singleton] at hm
  subst hm
  rw [show findTagString "objid" chItem2 = .ok (some "2") from rfl] at hr
  injection hr with hr
  subst hr
  decide

/-! ## C2: the write-sequence algebra

A reconciliation pass applies a sequence of `setattr` writes to entity
state. This section characterises such sequences: `applyW` folds them with
`setA`, `lastVal` is the final value each key receives, and `NK` states
that a state's keys are pairwise distinct (every state reachable from the
constructors is, since `setA` never duplicates a key). -/

/-- The `(name, string)` write sequence a child loop feeds to `setattr`,
skipping children whose names are entity kinds handled structurally. -/
def writesOfX (excl : List String) : List XNode → List (String × String)
  | [] => []
  | x :: xs =>
    match xname x with
    | some n =>
        if excl.contains n then writesOfX excl xs
        else (n, (xstring x).getD "") :: writesOfX excl xs
    | none => writesOfX excl xs

/-- Apply a write sequence with `setA`, first to last. -/
def applyW : List (String × String) → Attrs → Attrs
  | [], a => a
  | (k, v) :: w, a => applyW w (setA k v a)

/-- The value the last write of a key leaves, `none` when never written. -/
def lastVal : List (String × String) → String → Option String
  | [], _ => none
  | (k, v) :: w, k' =>
    match lastVal w k' with
    | some u => some u
    | none => if k' = k then some v else none

/-- All keys of an attribute state are pairwise distinct. -/
def NK (a : Attrs) : Prop := (a.map Prod.fst).Nodup

/-- The state with each key's value replaced by its last written value. -/
def patchVals (w : List (String × String)) (b : Attrs) : Attrs :=
  b.map (fun p => (p.1, (lastVal w p.1).getD p.2))

theorem lookupA_applyW (w : List (String × String)) :
    ∀ (a : Attrs) (k : String),
      lookupA k (applyW w a) =
        match lastVal w k with
        | some u => some u
        | none => lookupA k a := by
  induction w with
  | nil => intro a k; rfl
  | cons p w ih =>
    obtain ⟨k0, v0⟩ := p
    intro a k
    show lookupA k (applyW w (setA k0 v0 a)) = _
    rw [ih]
    by_cases hk : k = k0
    · subst hk
      cases hl : lastVal w k with
      | none => simp [lastVal, hl, lookupA_setA_self]
      | some u => simp [lastVal, hl]
    · cases hl : lastVal w k with
      | none => simp [lastVal, hl, hk, lookupA_setA_other k0 k v0 _ hk]
      | some u => simp [lastVal, hl]

theorem keys_setA (k v : String) : ∀ a : Attrs,
    (setA k v a).map Prod.fst =
      if k ∈ a.map Prod.fst then a.map Prod.fst
      else a.map Prod.fst ++ [k] := by
  intro a
  induction a with
  | nil => simp [setA]
  | cons hd t ih =>
    obtain ⟨k0, v0⟩ := hd
    by_cases hk : k0 = k
    · subst hk
      simp [setA]
    · simp only [setA, if_neg hk, List.map_cons, ih]
      by_cases hm : k ∈ t.map Prod.fst
      · simp [hm, Ne.symm hk]
      · simp [hm, Ne.symm hk, hk]

theorem NK_setA (k v : String) (a : Attrs) (h : NK a) : NK (setA k v a) := by
  unfold NK at h ⊢
  rw [keys_setA]
  by_cases hm : k ∈ a.map Prod.fst
  · simpa [hm] using h
  · simp only [hm, if_false]
    refine List.Nodup.append h (List.nodup_singleton k) ?_
    intro x hx hk'
    rw [List.mem_singleton] at hk'
    subst hk'
    exact hm hx

theorem NK_applyW (w : List (String × String)) :
    ∀ a : Attrs, NK a → NK (applyW w a) := by
  induction w with
  | nil => intro a h; exact h
  | cons p w ih =>
    obtain ⟨k, v⟩ := p
    intro a h
    exact ih _ (NK_setA k v a h)

theorem map_id_of_mem {α : Type} (f : α → α) :
    ∀ l : List α, (∀ p ∈ l, f p = p) → l.map f = l := by
  intro l
  induction l with
  | nil => intro _; rfl
  | cons x xs ih =>
    intro h
    simp only [List.map_cons, h x (by simp), ih (fun p hp => h p (by simp [hp]))]

theorem lookupA_of_mem (k v : String) : ∀ a : Attrs, NK a → (k, v) ∈ a →
    lookupA k a = some v := by
  intro a
  induction a with
  | nil => intro _ h; cases h
  | cons hd t ih =>
    obtain ⟨k0, v0⟩ := hd
    intro hnk hm
    rcases List.mem_cons.mp hm with he | ht
    · injection he with h1 h2
      subst h1; subst h2
      simp [lookupA]
    · have hk : k0 ≠ k := by
        intro he
        subst he
        have : k0 ∈ t.map Prod.fst := by
          exact List.mem_map.mpr ⟨(k0, v), ht, rfl⟩
        unfold NK at hnk
        simp only [List.map_cons, List.nodup_cons] at hnk
        exact hnk.1 this
      have hnt : NK t := by
        unfold NK at hnk ⊢
        simp only [List.map_cons, List.nodup_cons] at hnk
        exact hnk.2
      simp [lookupA, hk, ih hnt ht]

theorem lookupA_some_mem_keys (k : String) : ∀ (a : Attrs) (u : String),
    lookupA k a = some u → k ∈ a.map Prod.fst := by
  intro a
  induction a with
  | nil => intro u h; cases h
  | cons hd t ih =>
    obtain ⟨k0, v0⟩ := hd
    intro u h
    by_cases hk : k0 = k
    · simp [hk]
    · simp only [lookupA, if_neg hk] at h
      simp [ih u h]

theorem lastVal_isSome_of_mem (k v : String) :
    ∀ w : List (String × String), (k, v) ∈ w → (lastVal w k).isSome := by
  intro w
  induction w with
  | nil => intro h; cases h
  | cons p w ih =>
    obtain ⟨k0, v0⟩ := p
    intro hm
    rcases List.mem_cons.mp hm with he | ht
    · injection he with h1 h2
      subst h1
      cases hl : lastVal w k with
      | some u => simp [lastVal, hl]
      | none => simp [lastVal, hl]
    · have := ih ht
      cases hl : lastVal w k with
      | some u => simp [lastVal, hl]
      | none => rw [hl] at this; cases this

theorem setA_eq_map_of_mem (k v : String) : ∀ b : Attrs,
    k ∈ b.map Prod.fst → NK b →
    setA k v b = b.map (fun p => if p.1 = k then (k, v) else p) := by
  intro b
  induction b with
  | nil => intro h; cases h
  | cons hd t ih =>
    obtain ⟨k0, v0⟩ := hd
    intro hm hnk
    have hnt : NK t := by
      unfold NK at hnk ⊢
      simp only [List.map_cons, List.nodup_cons] at hnk
      exact hnk.2
    by_cases hk : k0 = k
    · subst hk
      have hk0 : k0 ∉ t.map Prod.fst := by
        unfold NK at hnk
        simp only [List.map_cons, List.nodup_cons] at hnk
        exact hnk.1
      have ht : t.map (fun p => if p.1 = k0 then (k0, v) else p) = t := by
        refine map_id_of_mem _ t (fun p hp => ?_)
        have : p.1 ≠ k0 := by
          intro he
          exact hk0 (he ▸ List.mem_map.mpr ⟨p, hp, rfl⟩)
        simp [this]
      simp [setA, ht]
    · have hmt : k ∈ t.map Prod.fst := by
        simp only [List.map_cons, List.mem_cons] at hm
        rcases hm with he | ht
        · exact absurd he.symm hk
        · exact ht
      simp [setA, hk, ih hmt hnt, Ne.symm hk]

theorem applyW_eq_patchVals : ∀ (w : List (String × String)) (b : Attrs),
    NK b → (∀ p ∈ w, p.1 ∈ b.map Prod.fst) →
    applyW w b = patchVals w b := by
  intro w
  induction w with
  | nil =>
    intro b _ _
    show b = b.map (fun p => (p.1, p.2))
    exact (map_id_of_mem _ b (fun p _ => rfl)).symm
  | cons q w ih =>
    obtain ⟨k, v⟩ := q
    intro b hnk hkeys
    have hkb : k ∈ b.map Prod.fst := hkeys (k, v) (by simp)
    have hset := setA_eq_map_of_mem k v b hkb hnk
    have hkeyseq : (setA k v b).map Prod.fst = b.map Prod.fst := by
      rw [hset, List.map_map]
      refine List.map_congr_left (fun s _ => ?_)
      by_cases hks : s.1 = k <;> simp [Function.comp, hks]
    have h1 : applyW w (setA k v b) = patchVals w (setA k v b) := by
      refine ih (setA k v b) (NK_setA k v b hnk) (fun p hp => ?_)
      rw [hkeyseq]
      exact hkeys p (by simp [hp])
    show applyW w (setA k v b) = _
    rw [h1, hset]
    unfold patchVals
    rw [List.map_map]
    refine List.map_congr_left (fun p _ => ?_)
    by_cases hpk : p.1 = k
    · cases hl : lastVal w k with
      | some u => simp [Function.comp, hpk, lastVal, hl]
      | none => simp [Function.comp, hpk, lastVal, hl]
    · cases hl : lastVal w p.1 with
      | some u => simp [Function.comp, hpk, lastVal, hl]
      | none => simp [Function.comp, hpk, lastVal, hl]

/-- A second application of the same write sequence is the identity. -/
theorem applyW_idem (w : List (String × String)) (a : Attrs) (h : NK a) :
    applyW w (applyW w a) = applyW w a := by
  have hnk : NK (applyW w a) := NK_applyW w a h
  have hkeys : ∀ p ∈ w, p.1 ∈ (applyW w a).map Prod.fst := by
    intro p hp
    obtain ⟨k, v⟩ := p
    have hs := lastVal_isSome_of_mem k v w hp
    cases hl : lastVal w k with
    | none => rw [hl] at hs; cases hs
    | some u =>
      refine lookupA_some_mem_keys k _ u ?_
      rw [lookupA_applyW, hl]
  rw [applyW_eq_patchVals w (applyW w a) hnk hkeys]
  unfold patchVals
  refine map_id_of_mem _ _ (fun p hp => ?_)
  cases hl : lastVal w p.1 with
  | none => simp
  | some u =>
    have h1 : lookupA p.1 (applyW w a) = some u := by
      rw [lookupA_applyW, hl]
    have h2 : lookupA p.1 (applyW w a) = some p.2 :=
      lookupA_of_mem p.1 p.2 _ hnk (by simpa using hp)
    rw [h1] at h2
    injection h2 with h2
    simp [h2]

/-- A write sequence whose final values the state already holds is the
identity. -/
theorem applyW_stable (w : List (String × String)) (b : Attrs) (hnk : NK b)
    (h : ∀ k u, lastVal w k = some u → lookupA k b = some u) :
    applyW w b = b := by
  have hkeys : ∀ p ∈ w, p.1 ∈ b.map Prod.fst := by
    intro p hp
    obtain ⟨k, v⟩ := p
    have hs := lastVal_isSome_of_mem k v w hp
    cases hl : lastVal w k with
    | none => rw [hl] at hs; cases hs
    | some u => exact lookupA_some_mem_keys k b u (h k u hl)
  rw [applyW_eq_patchVals w b hnk hkeys]
  unfold patchVals
  refine map_id_of_mem _ _ (fun p hp => ?_)
  cases hl : lastVal w p.1 with
  | none => simp
  | some u =>
    have h2 : lookupA p.1 b = some p.2 :=
      lookupA_of_mem p.1 p.2 _ hnk (by simpa using hp)
    rw [h p.1 u hl] at h2
    injection h2 with h2
    simp [h2]

/-- Re-setting a key erases the previous write of the same key. -/
theorem setA_setA (k v v' : String) : ∀ a : Attrs,
    setA k v (setA k v' a) = setA k v a := by
  intro a
  induction a with
  | nil => simp [setA]
  | cons hd t ih =>
    obtain ⟨k0, v0⟩ := hd
    by_cases hk : k0 = k
    · simp [setA, hk]
    · simp [setA, hk, ih]

/-- The scalar loop is the application of its write sequence. -/
theorem applyScalars_eq_applyW : ∀ (cs : List XNode) (a : Attrs),
    applyScalars cs a = applyW (writesOfX [] cs) a := by
  intro cs
  induction cs with
  | nil => intro a; rfl
  | cons x xs ih =>
    intro a
    cases hx : xname x with
    | none => simp [applyScalars, writesOfX, hx, ih]
    | some n => simp [applyScalars, writesOfX, hx, List.contains, ih, applyW]

/-! ## C2: channel-table well-formedness and channel idempotence -/

theorem lastVal_some_mem (k : String) : ∀ (w : List (String × String))
    (u : String), lastVal w k = some u → k ∈ w.map Prod.fst := by
  intro w
  induction w with
  | nil => intro u h; cases h
  | cons p w ih =>
    obtain ⟨k0, v0⟩ := p
    intro u h
    cases hl : lastVal w k with
    | some u' =>
      have hm := ih u' hl
      simp only [List.map_cons]
      exact List.mem_cons_of_mem _ hm
    | none =>
      simp only [lastVal, hl] at h
      by_cases hk : k = k0
      · simp [hk]
      · simp [hk] at h

/-- Pairwise distinctness as an executable predicate. -/
def nodupB {α : Type} [BEq α] : List α → Bool
  | [] => true
  | x :: xs => !(xs.contains x) && nodupB xs

/-- The reconciliation key of a channel-table `<item>`:
`child.find("objid").string`. -/
def chanOid (x : XNode) : Option String :=
  match findTagString "objid" x with
  | .ok o => o
  | .error _ => none

/-- A well-formed channel-table item: its `objid` lookup succeeds, agrees
with the last scalar write of `"objid"`, and the item does not write the
`id` attribute (the loop derives `id` from `objid` itself). -/
def wfChanItem (x : XNode) : Bool :=
  (match findTagString "objid" x, lastVal (writesOfX [] (xchildren x)) "objid" with
   | .ok (some s), some v => s == v
   | _, _ => false) &&
  !((writesOfX [] (xchildren x)).map Prod.fst).contains "id"

/-- A well-formed channel table: all items well formed, object ids
pairwise distinct. -/
def wfChanDoc (doc : XNode) : Bool :=
  (xfindAll "item" doc).all wfChanItem &&
    nodupB ((xfindAll "item" doc).map chanOid)

theorem wfChanItem_spec (x : XNode) (h : wfChanItem x = true) :
    ∃ v, findTagString "objid" x = .ok (some v) ∧
      lastVal (writesOfX [] (xchildren x)) "objid" = some v ∧
      chanOid x = some v ∧
      "id" ∉ (writesOfX [] (xchildren x)).map Prod.fst := by
  unfold wfChanItem at h
  rw [Bool.and_eq_true] at h
  obtain ⟨h1, h2⟩ := h
  have hid : "id" ∉ (writesOfX [] (xchildren x)).map Prod.fst := by
    rw [Bool.not_eq_true'] at h2
    simpa using h2
  cases hf : findTagString "objid" x with
  | error e => rw [hf] at h1; cases h1
  | ok o =>
    cases o with
    | none => rw [hf] at h1; cases h1
    | some s =>
      rw [hf] at h1
      cases hl : lastVal (writesOfX [] (xchildren x)) "objid" with
      | none => rw [hl] at h1; cases h1
      | some v =>
        rw [hl] at h1
        have hsv : s = v := by simpa using h1
        subst hsv
        exact ⟨s, rfl, rfl, by simp [chanOid, hf], hid⟩

theorem refreshChannel_eq (ch : Channel) (item : XNode) :
    refreshChannel ch item =
      ⟨ch.tok, setOptA "id"
        (lookupA "objid" (applyW (writesOfX [] (xchildren item)) ch.attrs))
        (applyW (writesOfX [] (xchildren item)) ch.attrs)⟩ := by
  unfold refreshChannel
  rw [applyScalars_eq_applyW]

/-- After a refresh against a well-formed item, the channel's `objid` is
the item's reconciliation key, its token is unchanged, and its keys stay
distinct. -/
theorem refreshChannel_spec (ch : Channel) (item : XNode)
    (hwf : wfChanItem item = true) (hnk : NK ch.attrs) :
    (refreshChannel ch item).objidv = chanOid item ∧
    (refreshChannel ch item).tok = ch.tok ∧
    NK (refreshChannel ch item).attrs := by
  obtain ⟨v, hf, hl, ho, hid⟩ := wfChanItem_spec item hwf
  have ha : lookupA "objid" (applyW (writesOfX [] (xchildren item)) ch.attrs)
      = some v := by
    rw [lookupA_applyW, hl]
  rw [refreshChannel_eq]
  refine ⟨?_, rfl, ?_⟩
  · show lookupA "objid" (setOptA "id" _ _) = chanOid item
    rw [ha, ho]
    show lookupA "objid" (setA "id" v _) = some v
    rw [lookupA_setA_other "id" "objid" v _ (by decide), ha]
  · show NK (setOptA "id"
        (lookupA "objid" (applyW (writesOfX [] (xchildren item)) ch.attrs))
        (applyW (writesOfX [] (xchildren item)) ch.attrs))
    rw [ha]
    exact NK_setA "id" v _ (NK_applyW _ _ hnk)

/-- Refreshing a channel twice against the same well-formed item is the
identity on the second pass. -/
theorem refreshChannel_idem (ch : Channel) (item : XNode)
    (hwf : wfChanItem item = true) (hnk : NK ch.attrs) :
    refreshChannel (refreshChannel ch item) item = refreshChannel ch item := by
  obtain ⟨v, hf, hl, ho, hid⟩ := wfChanItem_spec item hwf
  set W := writesOfX [] (xchildren item) with hW
  have ha : lookupA "objid" (applyW W ch.attrs) = some v := by
    rw [lookupA_applyW, hl]
  have hr1 : refreshChannel ch item =
      ⟨ch.tok, setA "id" v (applyW W ch.attrs)⟩ := by
    rw [refreshChannel_eq, ← hW, ha]
    rfl
  have hstab : applyW W (setA "id" v (applyW W ch.attrs)) =
      setA "id" v (applyW W ch.attrs) := by
    refine applyW_stable W _ (NK_setA _ _ _ (NK_applyW _ _ hnk)) ?_
    intro k u hlk
    have hkid : k ≠ "id" := by
      intro he
      exact hid (he ▸ lastVal_some_mem k W u hlk)
    rw [lookupA_setA_other "id" k v _ hkid, lookupA_applyW, hlk]
  rw [hr1, refreshChannel_eq, ← hW]
  show (⟨ch.tok, setOptA "id"
      (lookupA "objid" (applyW W (setA "id" v (applyW W ch.attrs))))
      (applyW W (setA "id" v (applyW W ch.attrs)))⟩ : Channel) = _
  rw [hstab, lookupA_setA_other "id" "objid" v _ (by decide), ha]
  show (⟨ch.tok, setA "id" v (setA "id" v (applyW W ch.attrs))⟩ : Channel) = _
  rw [setA_setA]

/-- The per-channel fold equivalent to the reconciliation loop of
`get_channels`. -/
def chFold (items : List XNode) (ch : Channel) : Channel :=
  items.foldl
    (fun ch item =>
      if ch.objidv = chanOid item then refreshChannel ch item else ch) ch

theorem refreshChannelsLoop_eq_map :
    ∀ (items : List XNode) (chs : List Channel),
      (∀ item ∈ items, ∃ o, findTagString "objid" item = .ok o) →
      refreshChannelsLoop items chs = .ok (chs.map (chFold items)) := by
  intro items
  induction items with
  | nil =>
    intro chs _
    exact congrArg Except.ok (map_id_of_mem (chFold []) chs
      (fun p _ => rfl)).symm
  | cons item rest ih =>
    intro chs hok
    obtain ⟨o, ho⟩ := hok item (by simp)
    rw [refreshChannelsLoop, ho]
    show refreshChannelsLoop rest (chs.map (fun ch =>
        if ch.objidv = o then refreshChannel ch item else ch)) = _
    rw [ih _ (fun i hi => hok i (by simp [hi]))]
    rw [List.map_map]
    refine congrArg Except.ok (List.map_congr_left (fun ch _ => ?_))
    show chFold rest (if ch.objidv = o then refreshChannel ch item else ch) =
      chFold (item :: rest) ch
    have : chFold (item :: rest) ch =
        chFold rest (if ch.objidv = chanOid item then refreshChannel ch item
          else ch) := rfl
    rw [this, chanOid, ho]

/-- A channel matching no item is left untouched by the fold. -/
theorem chFold_skip : ∀ (items : List XNode) (ch : Channel),
    (∀ item ∈ items, ch.objidv ≠ chanOid item) → chFold items ch = ch := by
  intro items
  induction items with
  | nil => intro ch _; rfl
  | cons item rest ih =>
    intro ch h
    show chFold rest (if ch.objidv = chanOid item then _ else ch) = ch
    rw [if_neg (h item (by simp))]
    exact ih ch (fun i hi => h i (by simp [hi]))

/-- The fold either keeps a channel's `objid` or sets it to some item's
key. -/
theorem chFold_objidv : ∀ (items : List XNode) (ch : Channel),
    (∀ item ∈ items, wfChanItem item = true) → NK ch.attrs →
    ((chFold items ch).objidv = ch.objidv ∨
      ∃ item ∈ items, (chFold items ch).objidv = chanOid item) ∧
    NK (chFold items ch).attrs := by
  intro items
  induction items with
  | nil => intro ch _ hnk; exact ⟨Or.inl rfl, hnk⟩
  | cons item rest ih =>
    intro ch hwf hnk
    have hstep : chFold (item :: rest) ch =
        chFold rest (if ch.objidv = chanOid item then refreshChannel ch item
          else ch) := rfl
    rw [hstep]
    by_cases hm : ch.objidv = chanOid item
    · rw [if_pos hm]
      obtain ⟨hoid, _, hnk'⟩ :=
        refreshChannel_spec ch item (hwf item (by simp)) hnk
      obtain ⟨hor, hnk''⟩ := ih (refreshChannel ch item)
        (fun i hi => hwf i (by simp [hi])) hnk'
      refine ⟨?_, hnk''⟩
      rcases hor with he | ⟨i, hi, he⟩
      · exact Or.inr ⟨item, by simp, he.trans hoid⟩
      · exact Or.inr ⟨i, by simp [hi], he⟩
    · rw [if_neg hm]
      obtain ⟨hor, hnk''⟩ := ih ch (fun i hi => hwf i (by simp [hi])) hnk
      refine ⟨?_, hnk''⟩
      rcases hor with he | ⟨i, hi, he⟩
      · exact Or.inl he
      · exact Or.inr ⟨i, by simp [hi], he⟩

theorem nodupB_cons {α : Type} [BEq α] [LawfulBEq α] (x : α) (xs : List α)
    (h : nodupB (x :: xs) = true) : x ∉ xs ∧ nodupB xs = true := by
  unfold nodupB at h
  rw [Bool.and_eq_true, Bool.not_eq_true'] at h
  exact ⟨by simpa using h.1, h.2⟩

theorem wfChanDoc_spec (doc : XNode) (h : wfChanDoc doc = true) :
    (∀ item ∈ xfindAll "item" doc, wfChanItem item = true) ∧
    nodupB ((xfindAll "item" doc).map chanOid) = true := by
  unfold wfChanDoc at h
  rw [Bool.and_eq_true] at h
  refine ⟨fun i hi => ?_, h.2⟩
  have h1 := h.1
  rw [List.all_eq_true] at h1
  exact h1 i hi

/-- Folding a channel over the same well-formed item list twice equals
folding once. -/
theorem chFold_idem : ∀ (items : List XNode) (ch : Channel),
    (∀ item ∈ items, wfChanItem item = true) →
    nodupB (items.map chanOid) = true → NK ch.attrs →
    chFold items (chFold items ch) = chFold items ch := by
  intro items
  induction items with
  | nil => intro ch _ _ _; rfl
  | cons item rest ih =>
    intro ch hwf hnd hnk
    obtain ⟨hnotin, hndr⟩ := nodupB_cons (chanOid item) (rest.map chanOid)
      (by simpa using hnd)
    have hstep : ∀ c : Channel, chFold (item :: rest) c =
        chFold rest (if c.objidv = chanOid item then refreshChannel c item
          else c) := fun c => rfl
    by_cases hm : ch.objidv = chanOid item
    · obtain ⟨hoid, _, hnk1⟩ :=
        refreshChannel_spec ch item (hwf item (by simp)) hnk
      have hskip : chFold rest (refreshChannel ch item) =
          refreshChannel ch item := by
        refine chFold_skip rest _ (fun i hi => ?_)
        rw [hoid]
        intro he
        exact hnotin (he ▸ List.mem_map.mpr ⟨i, hi, rfl⟩)
      rw [hstep ch, if_pos hm, hskip, hstep (refreshChannel ch item),
        if_pos (by rw [hoid]),
        refreshChannel_idem ch item (hwf item (by simp)) hnk]
      exact hskip
    · have hch : chFold rest ch = chFold (item :: rest) ch := by
        rw [hstep ch, if_neg hm]
      rw [hstep ch, if_neg hm, hstep (chFold rest ch)]
      have hne : (chFold rest ch).objidv ≠ chanOid item := by
        obtain ⟨hor, _⟩ :=
          chFold_objidv rest ch (fun i hi => hwf i (by simp [hi])) hnk
        rcases hor with he | ⟨i, hi, he⟩
        · rw [he]; exact hm
        · rw [he]
          intro hcontra
          exact hnotin (hcontra ▸ List.mem_map.mpr ⟨i, hi, rfl⟩)
      rw [if_neg hne]
      exact ih ch (fun i hi => hwf i (by simp [hi])) hndr hnk

/-! ## C2: sensor-level stability -/

/-- The reconciliation key of a tree child: `child.find("id").string`. -/
def sidOf (x : XNode) : Option String :=
  match findTagString "id" x with
  | .ok o => o
  | .error _ => none

/-- A well-formed entity child fragment for a given scalar-exclusion list:
its `id` lookup succeeds and agrees with the last scalar write of
`"id"`. -/
def wfChildId (excl : List String) (x : XNode) : Bool :=
  match findTagString "id" x, lastVal (writesOfX excl (xchildren x)) "id" with
  | .ok (some s), some v => s == v
  | _, _ => false

/-- A well-formed `<sensor>` child fragment. -/
def wfSensorChild (x : XNode) : Bool := wfChildId [] x

/-- Well-formed sensor state: keys of the scalar state and of every cached
channel are pairwise distinct. -/
def wfS (s : Sensor) : Prop := NK s.attrs ∧ ∀ ch ∈ s.channels, NK ch.attrs

/-- Every channel table the server can answer is well formed. -/
def wfChanEnv (chenv : Option String → XNode) : Prop :=
  ∀ i, wfChanDoc (chenv i) = true

/-- A sensor on which a further refresh against the same fragment is the
identity (state and allocation counter unchanged). -/
def StableSens (chenv : Option String → XNode) (x : XNode) (s : Sensor) :
    Prop := ∀ c, refreshSensor chenv s x c = .ok (s, c)

theorem wfChildId_spec (excl : List String) (x : XNode)
    (h : wfChildId excl x = true) :
    ∃ v, findTagString "id" x = .ok (some v) ∧
      lastVal (writesOfX excl (xchildren x)) "id" = some v ∧
      sidOf x = some v := by
  unfold wfChildId at h
  cases hf : findTagString "id" x with
  | error e => rw [hf] at h; cases h
  | ok o =>
    cases o with
    | none => rw [hf] at h; cases h
    | some s =>
      rw [hf] at h
      cases hl : lastVal (writesOfX excl (xchildren x)) "id" with
      | none => rw [hl] at h; cases h
      | some v =>
        rw [hl] at h
        have hsv : s = v := by simpa using h
        subst hsv
        exact ⟨s, rfl, rfl, by simp [sidOf, hf]⟩

/-- `Sensor.refresh` in closed form: the scalar writes are applied, the
XML attribute dict is stored, and every cached channel is folded over the
channel table the server answers for the (new) sensor id. -/
theorem refreshSensor_ok (chenv : Option String → XNode)
    (henv : wfChanEnv chenv) (s : Sensor) (x : XNode) (c : Nat) :
    refreshSensor chenv s x c = .ok
      (⟨s.tok, applyW (writesOfX [] (xchildren x)) s.attrs, xattrsOf x,
        s.channels.map (chFold (xfindAll "item" (chenv (lookupA "id"
          (applyW (writesOfX [] (xchildren x)) s.attrs)))))⟩, c) := by
  obtain ⟨tok, sa, sb, sch⟩ := s
  cases sch with
  | nil =>
    show Except.ok
        ((⟨tok, applyScalars (xchildren x) sa, xattrsOf x, []⟩ : Sensor), c) = _
    rw [applyScalars_eq_applyW]
    rfl
  | cons ch0 cht =>
    show (match refreshChannelsLoop
        (xfindAll "item" (chenv (Sensor.idv
          ⟨tok, applyScalars (xchildren x) sa, xattrsOf x, ch0 :: cht⟩)))
        (ch0 :: cht) with
      | Except.error e => Except.error e
      | Except.ok chs => Except.ok
          ((⟨tok, applyScalars (xchildren x) sa, xattrsOf x, chs⟩ : Sensor),
            c)) = _
    rw [applyScalars_eq_applyW]
    have hok : ∀ item ∈ xfindAll "item" (chenv (Sensor.idv
        ⟨tok, applyW (writesOfX [] (xchildren x)) sa, xattrsOf x,
          ch0 :: cht⟩)), ∃ o, findTagString "objid" item = .ok o := by
      intro item hi
      obtain ⟨hall, _⟩ := wfChanDoc_spec _ (henv _)
      obtain ⟨v, hfv, _, _, _⟩ := wfChanItem_spec item (hall item hi)
      exact ⟨some v, hfv⟩
    rw [refreshChannelsLoop_eq_map _ _ hok]
    rfl

/-- `Sensor.refresh` against a well-formed fragment: the counter is
untouched, the token (object identity) is kept, the sensor id becomes the
fragment's id, well-formedness is preserved, and any further refresh
against the same fragment is the identity. -/
theorem refreshSensor_master (chenv : Option String → XNode)
    (henv : wfChanEnv chenv) (s : Sensor) (x : XNode)
    (hwfs : wfS s) (hwfx : wfSensorChild x = true) :
    ∃ s1, (∀ c, refreshSensor chenv s x c = .ok (s1, c)) ∧
      s1.tok = s.tok ∧ s1.idv = sidOf x ∧ wfS s1 ∧ StableSens chenv x s1 := by
  obtain ⟨hnka, hnkc⟩ := hwfs
  obtain ⟨v, hfv, hlv, hsv⟩ := wfChildId_spec [] x hwfx
  set W := writesOfX [] (xchildren x) with hW
  set a1 := applyW W s.attrs with ha1
  set items := xfindAll "item" (chenv (lookupA "id" a1)) with hitems
  refine ⟨⟨s.tok, a1, xattrsOf x, s.channels.map (chFold items)⟩,
    fun c => refreshSensor_ok chenv henv s x c, rfl, ?_, ?_, ?_⟩
  · show lookupA "id" a1 = sidOf x
    rw [ha1, lookupA_applyW, hlv, hsv]
  · constructor
    · show NK a1
      rw [ha1]
      exact NK_applyW W s.attrs hnka
    · intro ch hch
      rw [List.mem_map] at hch
      obtain ⟨ch0, hch0, hche⟩ := hch
      obtain ⟨hall, hnd⟩ := wfChanDoc_spec _ (henv (lookupA "id" a1))
      rw [← hche]
      exact (chFold_objidv items ch0 (fun i hi => hall i hi)
        (hnkc ch0 hch0)).2
  · intro c₂
    rw [refreshSensor_ok chenv henv _ x c₂]
    have hid : applyW W a1 = a1 := by
      rw [ha1]
      exact applyW_idem W s.attrs hnka
    show Except.ok ((⟨s.tok, applyW W a1, xattrsOf x,
        (s.channels.map (chFold items)).map (chFold (xfindAll "item"
          (chenv (lookupA "id" (applyW W a1)))))⟩ : Sensor), c₂) =
      Except.ok ((⟨s.tok, a1, xattrsOf x,
        s.channels.map (chFold items)⟩ : Sensor), c₂)
    rw [hid, ← hitems, List.map_map]
    have hfold : s.channels.map (chFold items ∘ chFold items) =
        s.channels.map (chFold items) := by
      refine List.map_congr_left (fun ch hch => ?_)
      show chFold items (chFold items ch) = chFold items ch
      obtain ⟨hall, hnd⟩ := wfChanDoc_spec _ (henv (lookupA "id" a1))
      exact chFold_idem items ch (fun i hi => hall i hi) hnd (hnkc ch hch)
    rw [hfold]

/-- `Sensor.__init__` from a well-formed fragment: fresh token, the
fragment's id, well-formed state, and a first refresh against the same
fragment is already the identity. -/
theorem buildSensor_master (chenv : Option String → XNode)
    (henv : wfChanEnv chenv) (x : XNode) (did : Option String) (c : Nat)
    (hwfx : wfSensorChild x = true) :
    (buildSensor x did c).2 = c + 1 ∧ (buildSensor x did c).1.tok = c ∧
    (buildSensor x did c).1.idv = sidOf x ∧ wfS (buildSensor x did c).1 ∧
    StableSens chenv x (buildSensor x did c).1 := by
  obtain ⟨v, hfv, hlv, hsv⟩ := wfChildId_spec [] x hwfx
  have hnk0 : NK (removeA "type" (setA "type" "Sensor"
      (setOptA "deviceid" did []))) := by
    cases did with
    | none => simp [setOptA, removeA, setA, NK]
    | some d => simp [setOptA, removeA, setA, NK]
  refine ⟨rfl, rfl, ?_, ⟨?_, ?_⟩, ?_⟩
  · show lookupA "id" (applyScalars (xchildren x) (removeA "type"
      (setA "type" "Sensor" (setOptA "deviceid" did [])))) = sidOf x
    rw [applyScalars_eq_applyW, lookupA_applyW, hlv, hsv]
  · show NK (applyScalars (xchildren x) (removeA "type"
      (setA "type" "Sensor" (setOptA "deviceid" did []))))
    rw [applyScalars_eq_applyW]
    exact NK_applyW _ _ hnk0
  · intro ch hch
    exact absurd hch (List.not_mem_nil ch)
  · intro c₂
    show refreshSensor chenv ⟨c, applyScalars (xchildren x) (removeA "type"
        (setA "type" "Sensor" (setOptA "deviceid" did []))), xattrsOf x,
        []⟩ x c₂ =
      Except.ok ((⟨c, applyScalars (xchildren x) (removeA "type"
        (setA "type" "Sensor" (setOptA "deviceid" did []))), xattrsOf x,
        []⟩ : Sensor), c₂)
    rw [refreshSensor_ok chenv henv _ x c₂]
    rw [applyScalars_eq_applyW, applyW_idem _ _ hnk0]
    rfl

/-- The matching-refresh loop is the identity when every matching sensor
is stable. -/
theorem refreshMatchingSensors_id (chenv : Option String → XNode)
    (i : Option String) (x : XNode) :
    ∀ (ss : List Sensor) (c : Nat),
      (∀ s ∈ ss, s.idv = i → StableSens chenv x s) →
      refreshMatchingSensors chenv i x ss c = .ok (ss, c) := by
  intro ss
  induction ss with
  | nil => intro c _; rfl
  | cons s ss ih =>
    intro c h
    rw [refreshMatchingSensors]
    by_cases hm : s.idv = i
    · rw [if_pos hm]
      simp only [h s (by simp) hm c]
      simp only [ih c (fun t ht hti => h t (by simp [ht]) hti)]
    · rw [if_neg hm]
      simp only [ih c (fun t ht hti => h t (by simp [ht]) hti)]

/-- Pointwise effect of the matching-refresh loop. -/
theorem refreshMatchingSensors_pointwise (chenv : Option String → XNode)
    (i : Option String) (x : XNode) :
    ∀ (ss : List Sensor) (c : Nat) (ss' : List Sensor) (c' : Nat),
      refreshMatchingSensors chenv i x ss c = .ok (ss', c') →
      ss'.length = ss.length ∧
      ∀ (k : Nat) (s : Sensor), ss[k]? = some s →
        ∃ s', ss'[k]? = some s' ∧
          ((s.idv ≠ i ∧ s' = s) ∨
           (s.idv = i ∧ ∃ c₀ c₁, refreshSensor chenv s x c₀ = .ok (s', c₁))) := by
  intro ss
  induction ss with
  | nil =>
    intro c ss' c' h
    rw [refreshMatchingSensors] at h
    injection h with h
    injection h with h1 h2
    subst h1
    exact ⟨rfl, fun k s hk => by simp at hk⟩
  | cons s ss ih =>
    intro c ss' c' h
    rw [refreshMatchingSensors] at h
    by_cases hm : s.idv = i
    · rw [if_pos hm] at h
      cases hr : refreshSensor chenv s x c with
      | error e => exact (Except.noConfusion (hr ▸ h))
      | ok p =>
        obtain ⟨s1, c1⟩ := p
        simp only [hr] at h
        cases hrr : refreshMatchingSensors chenv i x ss c1 with
        | error e => exact (Except.noConfusion (hrr ▸ h))
        | ok q =>
          obtain ⟨ss1, c2⟩ := q
          simp only [hrr] at h
          injection h with h
          injection h with h1 h2
          subst h1
          obtain ⟨hlen, hpt⟩ := ih c1 ss1 c2 hrr
          refine ⟨by simp [hlen], ?_⟩
          intro k t hk
          cases k with
          | zero =>
            simp only [List.getElem?_cons_zero] at hk ⊢
            injection hk with hk
            subst hk
            exact ⟨s1, rfl, Or.inr ⟨hm, c, c1, hr⟩⟩
          | succ k =>
            simp only [List.getElem?_cons_succ] at hk ⊢
            exact hpt k t hk
    · rw [if_neg hm] at h
      cases hrr : refreshMatchingSensors chenv i x ss c with
      | error e => exact (Except.noConfusion (hrr ▸ h))
      | ok q =>
        obtain ⟨ss1, c2⟩ := q
        simp only [hrr] at h
        injection h with h
        injection h with h1 h2
        subst h1
        obtain ⟨hlen, hpt⟩ := ih c ss1 c2 hrr
        refine ⟨by simp [hlen], ?_⟩
        intro k t hk
        cases k with
        | zero =>
          simp only [List.getElem?_cons_zero] at hk ⊢
          injection hk with hk
          subst hk
          exact ⟨s, rfl, Or.inl ⟨hm, rfl⟩⟩
        | succ k =>
          simp only [List.getElem?_cons_succ] at hk ⊢
          exact hpt k t hk

/-! ## C2: device-level reconciliation -/

/-- The `<sensor>` children of a device fragment. -/
def sensorChildren (cs : List XNode) : List XNode :=
  cs.filter (fun x => xname x == some "sensor")

/-- The reconciliation keys of the `<sensor>` children, in order. -/
def sidsOf (cs : List XNode) : List (Option String) :=
  (sensorChildren cs).map sidOf

/-- Well-formed device-fragment children: every sensor child is well
formed, their ids are pairwise distinct, and no scalar child writes
`type`. -/
def wfDevChildren (cs : List XNode) : Bool :=
  (sensorChildren cs).all wfSensorChild && nodupB (sidsOf cs) &&
    !((writesOfX ["sensor"] cs).map Prod.fst).contains "type"

/-- A well-formed `<device>` fragment. -/
def wfDevFrag (x : XNode) : Bool :=
  match x with
  | .text _ => false
  | .elem _ _ cs => wfDevChildren cs && wfChildId ["sensor"] x

/-- Well-formed device state: distinct attribute keys, well-formed
sensors, pairwise distinct sensor ids. -/
def entWFDev (d : Device) : Prop :=
  NK d.attrs ∧ (∀ s ∈ d.sensors, wfS s) ∧ (d.sensors.map Sensor.idv).Nodup

/-- A device on which a further refresh against the same fragment is the
identity. -/
def StableDev (chenv : Option String → XNode) (d : Device) (frag : XNode) :
    Prop := ∀ c, refreshDevice chenv d frag c = .ok (d, c)

theorem sensorChildren_cons_sensor (x : XNode) (cs : List XNode)
    (hx : xname x = some "sensor") :
    sensorChildren (x :: cs) = x :: sensorChildren cs := by
  simp [sensorChildren, List.filter, hx]

theorem sensorChildren_cons_other (x : XNode) (cs : List XNode)
    (hx : xname x ≠ some "sensor") :
    sensorChildren (x :: cs) = sensorChildren cs := by
  have : (xname x == some "sensor") = false := by
    rw [beq_eq_false_iff_ne]
    exact hx
  simp [sensorChildren, List.filter, this]

theorem wfDevChildren_spec (cs : List XNode) (h : wfDevChildren cs = true) :
    (∀ x ∈ sensorChildren cs, wfSensorChild x = true) ∧
    nodupB (sidsOf cs) = true ∧
    "type" ∉ (writesOfX ["sensor"] cs).map Prod.fst := by
  unfold wfDevChildren at h
  rw [Bool.and_eq_true, Bool.and_eq_true, Bool.not_eq_true'] at h
  refine ⟨fun x hx => ?_, h.1.2, by simpa using h.2⟩
  have h1 := h.1.1
  rw [List.all_eq_true] at h1
  exact h1 x hx

/-- The reconciliation loop of `Device.refresh` is the identity on the
sensor collection when every fragment id is already tracked and every
matching sensor is stable; the scalar writes are applied and all fragment
ids are recorded. -/
theorem refreshDeviceLoop_id (chenv : Option String → XNode)
    (ids : List (Option String)) :
    ∀ (cs : List XNode) (a : Attrs) (ss : List Sensor) (reg : List Nat)
      (nacc : List (Option String)) (c : Nat),
      (∀ x ∈ sensorChildren cs, (∃ v, findTagString "id" x = .ok (some v)) ∧
        sidOf x ∈ ids) →
      (∀ x ∈ sensorChildren cs, ∀ s ∈ ss, s.idv = sidOf x →
        StableSens chenv x s) →
      refreshDeviceLoop chenv cs ids a ss reg nacc c =
        .ok (applyW (writesOfX ["sensor"] cs) a, ss, reg,
          nacc ++ sidsOf cs, c) := by
  intro cs
  induction cs with
  | nil =>
    intro a ss reg nacc c _ _
    show Except.ok (a, ss, reg, nacc, c) = _
    simp [writesOfX, applyW, sidsOf, sensorChildren]
  | cons x cs ih =>
    intro a ss reg nacc c hids hstab
    rw [refreshDeviceLoop]
    split
    · -- sensor child
      rename_i heq
      have hmem : x ∈ sensorChildren (x :: cs) := by
        rw [sensorChildren_cons_sensor x cs heq]
        simp
      obtain ⟨⟨v, hfv⟩, hin⟩ := hids x hmem
      have hsid : sidOf x = some v := by simp [sidOf, hfv]
      rw [hfv]
      show (if (some v : Option String) ∈ ids then _ else _) = _
      rw [if_pos (hsid ▸ hin)]
      have hrms : refreshMatchingSensors chenv (some v) x ss c =
          .ok (ss, c) := by
        refine refreshMatchingSensors_id chenv (some v) x ss c
          (fun s hs hsi => ?_)
        exact hstab x hmem s hs (hsid ▸ hsi)
      simp only [hrms]
      have hsub : ∀ y, y ∈ sensorChildren cs → y ∈ sensorChildren (x :: cs) := by
        intro y hy
        rw [sensorChildren_cons_sensor x cs heq]
        exact List.mem_cons_of_mem x hy
      rw [ih a ss reg (nacc ++ [some v]) c
        (fun y hy => hids y (hsub y hy))
        (fun y hy s hs hsi => hstab y (hsub y hy) s hs hsi)]
      have hw : writesOfX ["sensor"] (x :: cs) = writesOfX ["sensor"] cs := by
        simp [writesOfX, heq, List.contains]
      have hsids : sidsOf (x :: cs) = sidOf x :: sidsOf cs := by
        rw [sidsOf, sensorChildren_cons_sensor x cs heq, List.map_cons, sidsOf]
      rw [hw, hsids, hsid]
      simp [List.append_assoc]
    · -- scalar child
      rename_i n hpat heq
      have hne : n ≠ "sensor" := by
        intro hcon
        subst hcon
        exact hpat rfl
      have hxne : xname x ≠ some "sensor" := by
        rw [heq]
        intro hcon
        injection hcon with hcon
        exact hne hcon
      have hsc := sensorChildren_cons_other x cs hxne
      rw [ih (setA n ((xstring x).getD "") a) ss reg nacc c
        (fun y hy => hids y (by rw [hsc]; exact hy))
        (fun y hy s hs hsi => hstab y (by rw [hsc]; exact hy) s hs hsi)]
      have hw : writesOfX ["sensor"] (x :: cs) =
          (n, (xstring x).getD "") :: writesOfX ["sensor"] cs := by
        simp [writesOfX, heq, hne]
      have hsids : sidsOf (x :: cs) = sidsOf cs := by
        rw [sidsOf, hsc, sidsOf]
      rw [hw, hsids]
      rfl
    · -- text child
      rename_i heq
      have hxne : xname x ≠ some "sensor" := by
        rw [heq]
        intro hcon
        cases hcon
      have hsc := sensorChildren_cons_other x cs hxne
      rw [ih a ss reg nacc c
        (fun y hy => hids y (by rw [hsc]; exact hy))
        (fun y hy s hs hsi => hstab y (by rw [hsc]; exact hy) s hs hsi)]
      have hw : writesOfX ["sensor"] (x :: cs) = writesOfX ["sensor"] cs := by
        simp [writesOfX, heq]
      have hsids : sidsOf (x :: cs) = sidsOf cs := by
        rw [sidsOf, hsc, sidsOf]
      rw [hw, hsids]

theorem sidsOf_cons_sensor (x : XNode) (cs : List XNode)
    (hx : xname x = some "sensor") :
    sidsOf (x :: cs) = sidOf x :: sidsOf cs := by
  rw [sidsOf, sensorChildren_cons_sensor x cs hx, List.map_cons, sidsOf]

theorem sidsOf_cons_other (x : XNode) (cs : List XNode)
    (hx : xname x ≠ some "sensor") :
    sidsOf (x :: cs) = sidsOf cs := by
  rw [sidsOf, sensorChildren_cons_other x cs hx, sidsOf]


theorem getElem?_some_of_lt {α : Type} (l : List α) (k : Nat)
    (hk : k < l.length) : ∃ s, l[k]? = some s :=
  ⟨l[k], (List.getElem?_eq_some_iff).mpr ⟨hk, rfl⟩⟩

/-- Forward analysis of the reconciliation loop of `Device.refresh` over
well-formed fragments: the scalar writes are applied, every fragment id is
recorded, tracked sensors keep their position and id (untouched when their
id is absent from the fragment, refreshed to a stable state otherwise),
appended sensors are freshly built stable ones, and every fragment id not
previously tracked gains a sensor. -/
theorem refreshDeviceLoop_pass1 (chenv : Option String → XNode)
    (henv : wfChanEnv chenv) (ids : List (Option String)) :
    ∀ (cs : List XNode) (a : Attrs) (ss : List Sensor) (reg : List Nat)
      (nacc : List (Option String)) (c : Nat)
      (a1 : Attrs) (ss1 : List Sensor) (reg1 : List Nat)
      (n1 : List (Option String)) (c1 : Nat),
      refreshDeviceLoop chenv cs ids a ss reg nacc c =
        .ok (a1, ss1, reg1, n1, c1) →
      (∀ x ∈ sensorChildren cs, wfSensorChild x = true) →
      nodupB (sidsOf cs) = true →
      (∀ s ∈ ss, wfS s) →
      (∀ s ∈ ss, s.idv ∈ ids ∨ s.idv ∉ sidsOf cs) →
      a1 = applyW (writesOfX ["sensor"] cs) a ∧
      n1 = nacc ++ sidsOf cs ∧
      ss.length ≤ ss1.length ∧
      (∀ (k : Nat) (s : Sensor), ss[k]? = some s → ∃ sA, ss1[k]? = some sA ∧
        sA.idv = s.idv ∧ wfS sA ∧
        ((sA = s ∧ s.idv ∉ sidsOf cs) ∨
         (∃ x, x ∈ sensorChildren cs ∧ sA.idv = sidOf x ∧
           StableSens chenv x sA))) ∧
      (∀ (k : Nat) (sA : Sensor), ss.length ≤ k → ss1[k]? = some sA →
        wfS sA ∧ ∃ x, x ∈ sensorChildren cs ∧ sA.idv = sidOf x ∧
          StableSens chenv x sA) ∧
      (∀ x ∈ sensorChildren cs, sidOf x ∉ ids →
        ∃ s' ∈ ss1, s'.idv = sidOf x) := by
  intro cs
  induction cs with
  | nil =>
    intro a ss reg nacc c a1 ss1 reg1 n1 c1 h _ _ hwfss _
    rw [refreshDeviceLoop] at h
    injection h with h
    injection h with h1 h
    injection h with h2 h
    injection h with h3 h
    injection h with h4 h5
    subst h1; subst h2; subst h3; subst h4
    refine ⟨rfl, by simp [sidsOf, sensorChildren], le_refl _, ?_, ?_, ?_⟩
    · intro k s hk
      refine ⟨s, hk, rfl, hwfss s (List.getElem?_mem hk), Or.inl ⟨rfl, ?_⟩⟩
      simp [sidsOf, sensorChildren]
    · intro k sA hge hk
      rw [List.getElem?_eq_none hge] at hk
      cases hk
    · intro x hx
      simp [sensorChildren] at hx
  | cons x cs ih =>
    intro a ss reg nacc c a1 ss1 reg1 n1 c1 h hwfx hnd hwfss hi2
    rw [refreshDeviceLoop] at h
    split at h
    · rename_i heq
      have hmem : x ∈ sensorChildren (x :: cs) := by
        rw [sensorChildren_cons_sensor x cs heq]
        simp
      have hwfhd := hwfx x hmem
      obtain ⟨v, hfv, hlv, hsv⟩ := wfChildId_spec [] x hwfhd
      simp only [hfv] at h
      have hsub : ∀ y, y ∈ sensorChildren cs →
          y ∈ sensorChildren (x :: cs) := by
        intro y hy
        rw [sensorChildren_cons_sensor x cs heq]
        exact List.mem_cons_of_mem x hy
      obtain ⟨hxnotin, hndr⟩ := nodupB_cons (sidOf x) (sidsOf cs)
        (by rw [← sidsOf_cons_sensor x cs heq]; exact hnd)
      have hsids := sidsOf_cons_sensor x cs heq
      have hw : writesOfX ["sensor"] (x :: cs) = writesOfX ["sensor"] cs := by
        simp [writesOfX, heq, List.contains]
      have hi2w : ∀ s ∈ ss, s.idv ∈ ids ∨ s.idv ∉ sidsOf cs := by
        intro s hs
        rcases hi2 s hs with hl | hr
        · exact Or.inl hl
        · refine Or.inr (fun hc => hr ?_)
          rw [hsids]
          exact List.mem_cons_of_mem _ hc
      by_cases hin : (some v : Option String) ∈ ids
      · rw [if_pos hin] at h
        cases hr : refreshMatchingSensors chenv (some v) x ss c with
        | error e => exact (Except.noConfusion (hr ▸ h))
        | ok q =>
          obtain ⟨ss', c'⟩ := q
          simp only [hr] at h
          obtain ⟨hlen', hpt'⟩ :=
            refreshMatchingSensors_pointwise chenv (some v) x ss c ss' c' hr
          have hmaster : ∀ s : Sensor, wfS s →
              ∀ (s' : Sensor) (c₀ c₁ : Nat),
              refreshSensor chenv s x c₀ = .ok (s', c₁) →
              s'.idv = sidOf x ∧ wfS s' ∧ StableSens chenv x s' := by
            intro s hs s' c₀ c₁ href
            obtain ⟨s1, hall, _, hidv, hwf1, hstab1⟩ :=
              refreshSensor_master chenv henv s x hs hwfhd
            have hq := hall c₀
            rw [href] at hq
            injection hq with hq
            injection hq with hq1 hq2
            rw [hq1]
            exact ⟨hidv, hwf1, hstab1⟩
          have hptfact : ∀ (k : Nat) (s : Sensor), ss[k]? = some s →
              ∃ s', ss'[k]? = some s' ∧ s'.idv = s.idv ∧ wfS s' ∧
                ((s' = s ∧ s.idv ≠ some v) ∨
                 (s.idv = some v ∧ StableSens chenv x s')) := by
            intro k s hsk
            obtain ⟨s', hs'k, hdisj⟩ := hpt' k s hsk
            rcases hdisj with ⟨hne, he⟩ | ⟨hie, c₀, c₁, href⟩
            · refine ⟨s', hs'k, by rw [he], ?_, Or.inl ⟨he, hne⟩⟩
              rw [he]
              exact hwfss s (List.getElem?_mem hsk)
            · obtain ⟨hid', hwf', hstab'⟩ := hmaster s
                (hwfss s (List.getElem?_mem hsk)) s' c₀ c₁ href
              refine ⟨s', hs'k, ?_, hwf', Or.inr ⟨hie, hstab'⟩⟩
              rw [hid', hsv, hie]
          have hss'mem : ∀ s' ∈ ss', ∃ (k : Nat) (s : Sensor),
              ss[k]? = some s ∧ ss'[k]? = some s' := by
            intro s' hs'
            obtain ⟨k, hk⟩ := List.mem_iff_getElem?.mp hs'
            have hklt : k < ss'.length := (List.getElem?_eq_some_iff.mp hk).1
            have hklt2 : k < ss.length := by rw [← hlen']; exact hklt
            obtain ⟨s, hs⟩ := getElem?_some_of_lt ss k hklt2
            exact ⟨k, s, hs, hk⟩
          have hwfss' : ∀ s' ∈ ss', wfS s' := by
            intro s' hs'
            obtain ⟨k, s, hs, hk⟩ := hss'mem s' hs'
            obtain ⟨s'', hs'', _, hwf'', _⟩ := hptfact k s hs
            rw [hk] at hs''
            injection hs'' with hs''
            rw [hs'']
            exact hwf''
          have hi2' : ∀ s' ∈ ss', s'.idv ∈ ids ∨ s'.idv ∉ sidsOf cs := by
            intro s' hs'
            obtain ⟨k, s, hs, hk⟩ := hss'mem s' hs'
            obtain ⟨s'', hs'', hid'', _, _⟩ := hptfact k s hs
            rw [hk] at hs''
            injection hs'' with hs''
            rw [hs'', hid'']
            exact hi2w s (List.getElem?_mem hs)
          obtain ⟨ha1, hn1, hlen1, hpt1, hbuilt1, hpres1⟩ :=
            ih a ss' reg (nacc ++ [some v]) c' a1 ss1 reg1 n1 c1 h
              (fun y hy => hwfx y (hsub y hy)) hndr hwfss' hi2'
          refine ⟨by rw [hw]; exact ha1, ?_, ?_, ?_, ?_, ?_⟩
          · rw [hn1, hsids, hsv]
            simp [List.append_assoc]
          · rw [hlen'] at hlen1
            exact hlen1
          · intro k s hsk
            obtain ⟨s', hs'k, hid', hwf', hdisj'⟩ := hptfact k s hsk
            obtain ⟨sA, hsA, hidA, hwfA, hdisjA⟩ := hpt1 k s' hs'k
            refine ⟨sA, hsA, hidA.trans hid', hwfA, ?_⟩
            rcases hdisjA with ⟨hAe, hAn⟩ | ⟨x', hx'm, hidx', hstabx'⟩
            · rcases hdisj' with ⟨he, hne⟩ | ⟨hie, hstab'⟩
              · refine Or.inl ⟨hAe.trans he, ?_⟩
                rw [hsids]
                intro hc
                rcases List.mem_cons.mp hc with hc1 | hc2
                · rw [hsv] at hc1
                  exact hne hc1
                · rw [he] at hAn
                  exact hAn hc2
              · refine Or.inr ⟨x, hmem, ?_, hAe ▸ hstab'⟩
                rw [hAe, hid', hie, hsv]
            · exact Or.inr ⟨x', hsub x' hx'm, hidx', hstabx'⟩
          · intro k sA hge hk
            rw [← hlen'] at hge
            obtain ⟨hwfA, x', hx'm, hidx', hstabx'⟩ := hbuilt1 k sA hge hk
            exact ⟨hwfA, x', hsub x' hx'm, hidx', hstabx'⟩
          · intro y hy hynot
            rw [sensorChildren_cons_sensor x cs heq] at hy
            rcases List.mem_cons.mp hy with hye | hym
            · subst hye
              rw [hsv] at hynot
              exact absurd hin hynot
            · exact hpres1 y hym hynot
      · rw [if_neg hin] at h
        rcases hbb : buildSensor x (lookupA "id" a) c with ⟨bs, bc⟩
        simp only [hbb] at h
        have hmx := buildSensor_master chenv henv x (lookupA "id" a) c hwfhd
        rw [hbb] at hmx
        simp only at hmx
        obtain ⟨hbc, hbtok, hbid, hbwf, hbstab⟩ := hmx
        have hwfE : ∀ s ∈ ss ++ [bs], wfS s := by
          intro s hs
          rcases List.mem_append.mp hs with hl | hrr
          · exact hwfss s hl
          · rw [List.mem_singleton] at hrr
            rw [hrr]
            exact hbwf
        have hi2E : ∀ s ∈ ss ++ [bs], s.idv ∈ ids ∨ s.idv ∉ sidsOf cs := by
          intro s hs
          rcases List.mem_append.mp hs with hl | hrr
          · exact hi2w s hl
          · rw [List.mem_singleton] at hrr
            rw [hrr, hbid]
            exact Or.inr hxnotin
        obtain ⟨ha1, hn1, hlen1, hpt1, hbuilt1, hpres1⟩ :=
          ih a (ss ++ [bs]) (reg ++ [bs.tok]) (nacc ++ [some v]) bc a1 ss1
            reg1 n1 c1 h (fun y hy => hwfx y (hsub y hy)) hndr hwfE hi2E
        have happk : ∀ (k : Nat) (s : Sensor), ss[k]? = some s →
            (ss ++ [bs])[k]? = some s := by
          intro k s hsk
          have hklt : k < ss.length := (List.getElem?_eq_some_iff.mp hsk).1
          rw [List.getElem?_append, if_pos hklt]
          exact hsk
        have hlenE : (ss ++ [bs]).length = ss.length + 1 := by simp
        have hbsk : (ss ++ [bs])[ss.length]? = some bs := by
          rw [List.getElem?_append_right (le_refl _)]
          simp
        refine ⟨by rw [hw]; exact ha1, ?_, ?_, ?_, ?_, ?_⟩
        · rw [hn1, hsids, hsv]
          simp [List.append_assoc]
        · calc ss.length ≤ (ss ++ [bs]).length := by simp
            _ ≤ ss1.length := hlen1
        · intro k s hsk
          obtain ⟨sA, hsA, hidA, hwfA, hdisjA⟩ := hpt1 k s (happk k s hsk)
          refine ⟨sA, hsA, hidA, hwfA, ?_⟩
          rcases hdisjA with ⟨hAe, hAn⟩ | ⟨x', hx'm, hidx', hstabx'⟩
          · refine Or.inl ⟨hAe, ?_⟩
            rw [hsids]
            intro hc
            rcases List.mem_cons.mp hc with hc1 | hc2
            · rcases hi2 s (List.getElem?_mem hsk) with hl | hrr
              · rw [hc1, hsv] at hl
                exact hin hl
              · rw [hsids] at hrr
                exact hrr (List.mem_cons.mpr (Or.inl hc1))
            · exact hAn hc2
          · exact Or.inr ⟨x', hsub x' hx'm, hidx', hstabx'⟩
        · intro k sA hge hk
          rcases Nat.lt_or_ge k (ss.length + 1) with hlt | hge2
          · have hkeq : k = ss.length :=
              Nat.le_antisymm (Nat.lt_succ_iff.mp hlt) hge
            subst hkeq
            obtain ⟨sA', hsA', hidA', hwfA', hdisjA'⟩ := hpt1 ss.length bs hbsk
            rw [hk] at hsA'
            injection hsA' with hsA'
            rw [← hsA'] at hidA' hwfA' hdisjA'
            refine ⟨hwfA', ?_⟩
            rcases hdisjA' with ⟨hAe, _⟩ | ⟨x', hx'm, hidx', hstabx'⟩
            · refine ⟨x, hmem, ?_, hAe ▸ hbstab⟩
              rw [hAe, hbid]
            · exact ⟨x', hsub x' hx'm, hidx', hstabx'⟩
          · obtain ⟨hwfA, x', hx'm, hidx', hstabx'⟩ :=
              hbuilt1 k sA (by rw [hlenE]; exact hge2) hk
            exact ⟨hwfA, x', hsub x' hx'm, hidx', hstabx'⟩
        · intro y hy hynot
          rw [sensorChildren_cons_sensor x cs heq] at hy
          rcases List.mem_cons.mp hy with hye | hym
          · subst hye
            obtain ⟨sA, hsA, hidA, _, _⟩ := hpt1 ss.length bs hbsk
            exact ⟨sA, List.getElem?_mem hsA, by rw [hidA, hbid]⟩
          · exact hpres1 y hym hynot
    · rename_i n hpat heq
      have hxne : xname x ≠ some "sensor" := by
        rw [heq]
        intro hcon
        injection hcon with hcon
        exact hpat hcon
      have hsc := sensorChildren_cons_other x cs hxne
      have hsids2 := sidsOf_cons_other x cs hxne
      obtain ⟨ha1, hn1, hlen1, hpt1, hbuilt1, hpres1⟩ :=
        ih (setA n ((xstring x).getD "") a) ss reg nacc c a1 ss1 reg1 n1 c1 h
          (fun y hy => hwfx y (by rw [hsc]; exact hy))
          (by rw [← hsids2]; exact hnd)
          hwfss
          (fun s hs => hsids2 ▸ hi2 s hs)
      have hne : n ≠ "sensor" := fun hcon => hpat hcon
      have hwcons : writesOfX ["sensor"] (x :: cs) =
          (n, (xstring x).getD "") :: writesOfX ["sensor"] cs := by
        simp [writesOfX, heq, hne]
      refine ⟨?_, ?_, hlen1, ?_, ?_, ?_⟩
      · rw [hwcons, ha1]
        rfl
      · rw [hn1, hsids2]
      · intro k s hsk
        obtain ⟨sA, hsA, hidA, hwfA, hdisjA⟩ := hpt1 k s hsk
        refine ⟨sA, hsA, hidA, hwfA, ?_⟩
        rcases hdisjA with ⟨hAe, hAn⟩ | ⟨x', hx'm, hidx', hstabx'⟩
        · refine Or.inl ⟨hAe, ?_⟩
          rw [hsids2]
          exact hAn
        · refine Or.inr ⟨x', ?_, hidx', hstabx'⟩
          rw [hsc]
          exact hx'm
      · intro k sA hge hk
        obtain ⟨hwfA, x', hx'm, hidx', hstabx'⟩ := hbuilt1 k sA hge hk
        refine ⟨hwfA, x', ?_, hidx', hstabx'⟩
        rw [hsc]
        exact hx'm
      · intro y hy hynot
        rw [hsc] at hy
        exact hpres1 y hy hynot
    · rename_i heq
      have hxne : xname x ≠ some "sensor" := by
        rw [heq]
        intro hcon
        cases hcon
      have hsc := sensorChildren_cons_other x cs hxne
      have hsids2 := sidsOf_cons_other x cs hxne
      obtain ⟨ha1, hn1, hlen1, hpt1, hbuilt1, hpres1⟩ :=
        ih a ss reg nacc c a1 ss1 reg1 n1 c1 h
          (fun y hy => hwfx y (by rw [hsc]; exact hy))
          (by rw [← hsids2]; exact hnd)
          hwfss
          (fun s hs => hsids2 ▸ hi2 s hs)
      have hwcons : writesOfX ["sensor"] (x :: cs) =
          writesOfX ["sensor"] cs := by
        simp [writesOfX, heq]
      refine ⟨?_, ?_, hlen1, ?_, ?_, ?_⟩
      · rw [hwcons, ha1]
      · rw [hn1, hsids2]
      · intro k s hsk
        obtain ⟨sA, hsA, hidA, hwfA, hdisjA⟩ := hpt1 k s hsk
        refine ⟨sA, hsA, hidA, hwfA, ?_⟩
        rcases hdisjA with ⟨hAe, hAn⟩ | ⟨x', hx'm, hidx', hstabx'⟩
        · refine Or.inl ⟨hAe, ?_⟩
          rw [hsids2]
          exact hAn
        · refine Or.inr ⟨x', ?_, hidx', hstabx'⟩
          rw [hsc]
          exact hx'm
      · intro k sA hge hk
        obtain ⟨hwfA, x', hx'm, hidx', hstabx'⟩ := hbuilt1 k sA hge hk
        refine ⟨hwfA, x', ?_, hidx', hstabx'⟩
        rw [hsc]
        exact hx'm
      · intro y hy hynot
        rw [hsc] at hy
        exact hpres1 y hy hynot

/-! ## C2: stale removal -/

theorem foldl_lastMatch {α : Type} (p : α → Bool) :
    ∀ (l : List α) (acc : Option α) (y : α),
      l.foldl (fun a x => if p x then some x else a) acc = some y →
      acc = some y ∨ (y ∈ l ∧ p y = true) := by
  intro l
  induction l with
  | nil => intro acc y h; exact Or.inl h
  | cons x xs ih =>
    intro acc y h
    rcases ih _ y h with hacc | ⟨hm, hp⟩
    · have hacc' : (if p x = true then some x else acc) = some y := hacc
      by_cases hpx : p x = true
      · rw [if_pos hpx] at hacc'
        injection hacc' with hacc'
        exact Or.inr ⟨by rw [← hacc']; simp, by rw [← hacc']; exact hpx⟩
      · rw [if_neg hpx] at hacc'
        exact Or.inl hacc'
    · exact Or.inr ⟨List.mem_cons_of_mem x hm, hp⟩

theorem lastMatch_spec {α : Type} (p : α → Bool) (l : List α) (y : α)
    (h : lastMatch p l = some y) : y ∈ l ∧ p y = true := by
  rcases foldl_lastMatch p l none y h with hacc | hok
  · cases hacc
  · exact hok

theorem removeFirst_split {α : Type} (p : α → Bool) :
    ∀ (l l' : List α), removeFirst p l = some l' →
      ∃ e l₁ l₂, l = l₁ ++ e :: l₂ ∧ l' = l₁ ++ l₂ ∧ p e = true ∧
        ∀ z ∈ l₁, p z = false := by
  intro l
  induction l with
  | nil => intro l' h; cases h
  | cons y ys ih =>
    intro l' h
    rw [removeFirst] at h
    by_cases hpy : p y = true
    · rw [if_pos hpy] at h
      injection h with h
      exact ⟨y, [], ys, by simp, by simp [h], hpy, by simp⟩
    · rw [if_neg hpy] at h
      cases hr : removeFirst p ys with
      | none => rw [hr] at h; cases h
      | some r =>
        rw [hr] at h
        simp only [Option.map_some'] at h
        injection h with h
        obtain ⟨e, l₁, l₂, he1, he2, hpe, hl1⟩ := ih r hr
        refine ⟨e, y :: l₁, l₂, by simp [he1], by simp [← h, he2], hpe, ?_⟩
        intro z hz
        rcases List.mem_cons.mp hz with hz1 | hz2
        · rw [hz1]
          exact Bool.not_eq_true _ ▸ hpy
        · exact hl1 z hz2

theorem removeStaleSensors_id :
    ∀ (idvals newids : List (Option String)) (ss : List Sensor)
      (reg : List Nat),
      (∀ v ∈ idvals, v ∈ newids) →
      removeStaleSensors idvals newids ss reg = .ok (ss, reg) := by
  intro idvals
  induction idvals with
  | nil => intro newids ss reg _; rfl
  | cons v rest ih =>
    intro newids ss reg h
    rw [removeStaleSensors, if_pos (h v (by simp))]
    exact ih newids ss reg (fun u hu => h u (by simp [hu]))

/-- Stale removal: survivors come from the input list, no survivor holds a
stale id, and every sensor whose id was seen in the fragment survives. -/
theorem removeStaleSensors_facts :
    ∀ (idvals newids : List (Option String)) (ss : List Sensor)
      (reg : List Nat) (ss' : List Sensor) (reg' : List Nat),
      removeStaleSensors idvals newids ss reg = .ok (ss', reg') →
      (∀ v, v ∉ newids →
        (ss.countP (fun s => s.idv == v)) ≤ 1) →
      (∀ s' ∈ ss', s' ∈ ss) ∧
      (∀ s' ∈ ss', s'.idv ∉ idvals ∨ s'.idv ∈ newids) ∧
      (∀ s ∈ ss, s.idv ∈ newids → s ∈ ss') := by
  intro idvals
  induction idvals with
  | nil =>
    intro newids ss reg ss' reg' h _
    rw [removeStaleSensors] at h
    injection h with h
    injection h with h1 h2
    subst h1
    exact ⟨fun s' hs' => hs', fun s' _ => Or.inl (List.not_mem_nil _),
      fun s hs _ => hs⟩
  | cons v rest ih =>
    intro newids ss reg ss' reg' h hcnt
    rw [removeStaleSensors] at h
    by_cases hv : v ∈ newids
    · rw [if_pos hv] at h
      obtain ⟨hsub, hcond, hkeep⟩ := ih newids ss reg ss' reg' h hcnt
      refine ⟨hsub, fun s' hs' => ?_, hkeep⟩
      rcases hcond s' hs' with hnr | hnw
      · by_cases hsv : s'.idv = v
        · exact Or.inr (hsv ▸ hv)
        · refine Or.inl (fun hc => ?_)
          rcases List.mem_cons.mp hc with hc1 | hc2
          · exact hsv hc1
          · exact hnr hc2
      · exact Or.inr hnw
    · rw [if_neg hv] at h
      cases hlm : lastMatch (fun s => s.idv == v) ss with
      | none => exact (Except.noConfusion (hlm ▸ h))
      | some t =>
        simp only [hlm] at h
        obtain ⟨htm, htp⟩ := lastMatch_spec _ ss t hlm
        have htv : t.idv = v := by simpa using htp
        cases hrf : removeFirst (fun s' => s' == t) ss with
        | none => exact (Except.noConfusion (hrf ▸ h))
        | some ssr =>
          simp only [hrf] at h
          cases hrg : removeFirst (fun u => u == t.tok) reg with
          | none => exact (Except.noConfusion (hrg ▸ h))
          | some regr =>
            simp only [hrg] at h
            obtain ⟨e, l₁, l₂, hsplit, hrem, hpe, hl1⟩ :=
              removeFirst_split _ ss ssr hrf
            have het : e = t := by simpa using hpe
            subst het
            have hcv : ss.countP (fun s => s.idv == v) ≤ 1 := hcnt v hv
            have hzero : ∀ z ∈ ssr, z.idv ≠ v := by
              intro z hz hzv
              have h1 : ss.countP (fun s => s.idv == v) =
                  l₁.countP (fun s => s.idv == v) +
                  (ssr.countP (fun s => s.idv == v) -
                    l₁.countP (fun s => s.idv == v)) + 1 := by
                rw [hsplit, List.countP_append, List.countP_cons]
                rw [hrem, List.countP_append]
                simp [htv]
                omega
              have h2 : 0 < ssr.countP (fun s => s.idv == v) :=
                List.countP_pos_iff.mpr ⟨z, hz, by simpa using hzv⟩
              omega
            have hcnt' : ∀ u, u ∉ newids →
                (ssr.countP (fun s => s.idv == u)) ≤ 1 := by
              intro u hu
              have : ssr.countP (fun s => s.idv == u) ≤
                  ss.countP (fun s => s.idv == u) := by
                rw [hsplit, hrem, List.countP_append, List.countP_append,
                  List.countP_cons]
                omega
              exact le_trans this (hcnt u hu)
            obtain ⟨hsub, hcond, hkeep⟩ := ih newids ssr regr ss' reg' h hcnt'
            have hsubss : ∀ z ∈ ssr, z ∈ ss := by
              intro z hz
              rw [hsplit]
              rw [hrem] at hz
              rcases List.mem_append.mp hz with hz1 | hz2
              · exact List.mem_append.mpr (Or.inl hz1)
              · exact List.mem_append.mpr (Or.inr (List.mem_cons_of_mem _ hz2))
            refine ⟨fun s' hs' => hsubss s' (hsub s' hs'), ?_, ?_⟩
            · intro s' hs'
              rcases hcond s' hs' with hnr | hnw
              · refine Or.inl (fun hc => ?_)
                rcases List.mem_cons.mp hc with hc1 | hc2
                · exact hzero s' (hsub s' hs') hc1
                · exact hnr hc2
              · exact Or.inr hnw
            · intro s hs hsnew
              have hst : s ≠ e := by
                intro he
                rw [he, htv] at hsnew
                exact hv hsnew
              have hsr : s ∈ ssr := by
                rw [hsplit] at hs
                rw [hrem]
                rcases List.mem_append.mp hs with hs1 | hs2
                · exact List.mem_append.mpr (Or.inl hs1)
                · rcases List.mem_cons.mp hs2 with hs3 | hs4
                  · exact absurd hs3 hst
                  · exact List.mem_append.mpr (Or.inr hs4)
              exact hkeep s hsr hsnew

theorem nodupB_map_inj {α β : Type} [BEq β] [LawfulBEq β] (f : α → β) :
    ∀ l : List α, nodupB (l.map f) = true →
      ∀ a ∈ l, ∀ b ∈ l, f a = f b → a = b := by
  intro l
  induction l with
  | nil => intro _ a ha; cases ha
  | cons x xs ih =>
    intro h a ha b hb hf
    obtain ⟨hnot, hrec⟩ := nodupB_cons (f x) (xs.map f) (by simpa using h)
    rcases List.mem_cons.mp ha with ha1 | ha2 <;>
      rcases List.mem_cons.mp hb with hb1 | hb2
    · rw [ha1, hb1]
    · subst ha1
      have hmm : f a ∈ xs.map f := by
        rw [hf]
        exact List.mem_map.mpr ⟨b, hb2, rfl⟩
      exact absurd hmm hnot
    · subst hb1
      have hmm : f b ∈ xs.map f := by
        rw [← hf]
        exact List.mem_map.mpr ⟨a, ha2, rfl⟩
      exact absurd hmm hnot
    · exact ih hrec a ha2 b hb2 hf

theorem nodup_countP_le_one {β : Type} [BEq β] [LawfulBEq β] (v : β) :
    ∀ l : List β, l.Nodup → l.countP (fun x => x == v) ≤ 1 := by
  intro l
  induction l with
  | nil => intro _; simp
  | cons x xs ih =>
    intro hnd
    rw [List.nodup_cons] at hnd
    rw [List.countP_cons]
    by_cases hx : x = v
    · have hz : xs.countP (fun y => y == v) = 0 := by
        rw [List.countP_eq_zero]
        intro a ha hav
        have hae : a = v := by simpa using hav
        rw [← hx] at hae
        exact hnd.1 (hae ▸ ha)
      simp [hz, hx]
    · have hxf : (x == v) = false := by simpa using hx
      rw [hxf]
      simpa using ih hnd.2

/-- After a pass-1 loop over a fragment, ids not in the fragment occur at
most once among the sensors, provided they did among the tracked ones. -/
theorem pass1_count_bound (cs : List XNode) (ss ss1 : List Sensor)
    (hlen : ss.length ≤ ss1.length)
    (hpt : ∀ (k : Nat) (s : Sensor), ss[k]? = some s →
      ∃ sA, ss1[k]? = some sA ∧ sA.idv = s.idv)
    (hbuilt : ∀ (k : Nat) (sA : Sensor), ss.length ≤ k →
      ss1[k]? = some sA → sA.idv ∈ sidsOf cs)
    (hnd : (ss.map Sensor.idv).Nodup) :
    ∀ v, v ∉ sidsOf cs → ss1.countP (fun s => s.idv == v) ≤ 1 := by
  intro v hv
  have hcnt : ss1.countP (fun s => s.idv == v) =
      (ss1.take ss.length).countP (fun s => s.idv == v) +
      (ss1.drop ss.length).countP (fun s => s.idv == v) := by
    rw [← List.countP_append, List.take_append_drop]
  have hdz : (ss1.drop ss.length).countP (fun s => s.idv == v) = 0 := by
    rw [List.countP_eq_zero]
    intro sA hsA hs
    obtain ⟨j, hj⟩ := List.mem_iff_getElem?.mp hsA
    rw [List.getElem?_drop] at hj
    have hmm := hbuilt (ss.length + j) sA (Nat.le_add_right _ _) hj
    have hveq : sA.idv = v := by simpa using hs
    rw [hveq] at hmm
    exact hv hmm
  have hmap : (ss1.take ss.length).map Sensor.idv = ss.map Sensor.idv := by
    refine List.ext_getElem? (fun k => ?_)
    rw [List.getElem?_map, List.getElem?_map, List.getElem?_take]
    by_cases hk : k < ss.length
    · rw [if_pos hk]
      obtain ⟨s, hs⟩ := getElem?_some_of_lt ss k hk
      obtain ⟨sA, hsA, hid⟩ := hpt k s hs
      rw [hs, hsA]
      simp [hid]
    · rw [if_neg hk]
      rw [List.getElem?_eq_none (Nat.le_of_not_lt hk)]
  have htake : (ss1.take ss.length).countP (fun s => s.idv == v) ≤ 1 := by
    have h1 : (ss1.take ss.length).countP (fun s => s.idv == v) =
        ((ss1.take ss.length).map Sensor.idv).countP (fun x => x == v) :=
      (List.countP_map (fun x => x == v) Sensor.idv (ss1.take ss.length)).symm
    rw [h1, hmap]
    exact nodup_countP_le_one v (ss.map Sensor.idv) hnd
  omega

theorem wfDevFrag_spec (t : String) (xa : List (String × String))
    (cs : List XNode) (h : wfDevFrag (.elem t xa cs) = true) :
    wfDevChildren cs = true ∧ wfChildId ["sensor"] (.elem t xa cs) = true := by
  simp only [wfDevFrag, Bool.and_eq_true] at h
  exact h

/-- `Device.refresh` against a well-formed fragment: the token is kept, the
device id becomes the fragment id, and any further refresh against the
same fragment is the identity. -/
theorem refreshDevice_master (chenv : Option String → XNode)
    (henv : wfChanEnv chenv) (d : Device) (frag : XNode) (c : Nat)
    (d1 : Device) (c1 : Nat) (hwf : wfDevFrag frag = true)
    (hent : entWFDev d)
    (h : refreshDevice chenv d frag c = .ok (d1, c1)) :
    d1.tok = d.tok ∧ d1.idv = sidOf frag ∧ StableDev chenv d1 frag := by
  obtain ⟨hnkd, hwfsens, hndids⟩ := hent
  cases frag with
  | text s => simp [wfDevFrag] at hwf
  | elem t xa cs =>
    obtain ⟨hwfc, hwfid⟩ := wfDevFrag_spec t xa cs hwf
    obtain ⟨hallwf, hndsids, htype⟩ := wfDevChildren_spec cs hwfc
    obtain ⟨v, hfv, hlv, hsv⟩ := wfChildId_spec ["sensor"] _ hwfid
    have hlv' : lastVal (writesOfX ["sensor"] cs) "id" = some v := hlv
    simp only [refreshDevice] at h
    cases hloop : refreshDeviceLoop chenv cs (d.sensors.map Sensor.idv)
        d.attrs d.sensors d.allsensors [] c with
    | error e => exact (Except.noConfusion (hloop ▸ h))
    | ok quint =>
      obtain ⟨a1, ss1, reg1, n1, c1'⟩ := quint
      simp only [hloop] at h
      obtain ⟨ha1, hn1, hlen1, hpt1, hbuilt1, hpres1⟩ :=
        refreshDeviceLoop_pass1 chenv henv (d.sensors.map Sensor.idv) cs
          d.attrs d.sensors d.allsensors [] c a1 ss1 reg1 n1 c1' hloop
          hallwf hndsids hwfsens
          (fun s hs => Or.inl (List.mem_map.mpr ⟨s, hs, rfl⟩))
      have hn1' : n1 = sidsOf cs := by
        rw [hn1]
        exact List.nil_append _
      cases hrem : removeStaleSensors (d.sensors.map Sensor.idv) n1 ss1
          reg1 with
      | error e => exact (Except.noConfusion (hrem ▸ h))
      | ok pr =>
        obtain ⟨ss1', reg1'⟩ := pr
        simp only [hrem] at h
        injection h with h
        injection h with hde hce
        subst hde
        rw [hn1'] at hrem
        have hcount : ∀ u, u ∉ sidsOf cs →
            ss1.countP (fun s => s.idv == u) ≤ 1 := by
          refine pass1_count_bound cs d.sensors ss1 hlen1
            (fun k s hs => ?_) (fun k sA hk hks => ?_) hndids
          · obtain ⟨sA, hsA, hid, _, _⟩ := hpt1 k s hs
            exact ⟨sA, hsA, hid⟩
          · obtain ⟨_, x', hx'm, hidx', _⟩ := hbuilt1 k sA hk hks
            rw [hidx']
            exact List.mem_map.mpr ⟨x', hx'm, rfl⟩
        obtain ⟨hsub, hcond, hkeep⟩ :=
          removeStaleSensors_facts (d.sensors.map Sensor.idv) (sidsOf cs)
            ss1 reg1 ss1' reg1' hrem hcount
        have hsurvids : ∀ s' ∈ ss1', s'.idv ∈ sidsOf cs := by
          intro s' hs'
          rcases hcond s' hs' with hno | hyes
          · obtain ⟨k, hk⟩ := List.mem_iff_getElem?.mp (hsub s' hs')
            by_cases hklt : k < d.sensors.length
            · obtain ⟨s0, hs0⟩ := getElem?_some_of_lt d.sensors k hklt
              obtain ⟨sA, hsA, hid, _, _⟩ := hpt1 k s0 hs0
              rw [hk] at hsA
              injection hsA with hsA
              refine absurd ?_ hno
              rw [hsA, hid]
              exact List.mem_map.mpr ⟨s0, List.getElem?_mem hs0, rfl⟩
            · obtain ⟨_, x', hx'm, hidx', _⟩ :=
                hbuilt1 k s' (Nat.le_of_not_lt hklt) hk
              rw [hidx']
              exact List.mem_map.mpr ⟨x', hx'm, rfl⟩
          · exact hyes
        have hstabsurv : ∀ y ∈ sensorChildren cs, ∀ s' ∈ ss1',
            s'.idv = sidOf y → StableSens chenv y s' := by
          intro y hy s' hs' hsy
          obtain ⟨k, hk⟩ := List.mem_iff_getElem?.mp (hsub s' hs')
          by_cases hklt : k < d.sensors.length
          · obtain ⟨s0, hs0⟩ := getElem?_some_of_lt d.sensors k hklt
            obtain ⟨sA, hsA, hid, _, hdisj⟩ := hpt1 k s0 hs0
            rw [hk] at hsA
            injection hsA with hsA
            rcases hdisj with ⟨_, hnot⟩ | ⟨x', hx'm, hidx', hstabx'⟩
            · refine absurd ?_ hnot
              rw [← hid, ← hsA, hsy]
              exact List.mem_map.mpr ⟨y, hy, rfl⟩
            · have hxy : x' = y := nodupB_map_inj sidOf (sensorChildren cs)
                hndsids x' hx'm y hy (by rw [← hidx', ← hsA, hsy])
              rw [← hxy, hsA]
              exact hstabx'
          · obtain ⟨_, x', hx'm, hidx', hstabx'⟩ :=
              hbuilt1 k s' (Nat.le_of_not_lt hklt) hk
            have hxy : x' = y := nodupB_map_inj sidOf (sensorChildren cs)
              hndsids x' hx'm y hy (by rw [← hidx', hsy])
            rw [← hxy]
            exact hstabx'
        have hpressurv : ∀ y ∈ sensorChildren cs,
            sidOf y ∈ ss1'.map Sensor.idv := by
          intro y hy
          by_cases hyin : sidOf y ∈ d.sensors.map Sensor.idv
          · obtain ⟨s0, hs0m, hs0i⟩ := List.mem_map.mp hyin
            obtain ⟨k, hk⟩ := List.mem_iff_getElem?.mp hs0m
            obtain ⟨sA, hsA, hid, _, _⟩ := hpt1 k s0 hk
            have hsA' : sA ∈ ss1' := by
              refine hkeep sA (List.getElem?_mem hsA) ?_
              rw [hid, hs0i]
              exact List.mem_map.mpr ⟨y, hy, rfl⟩
            refine List.mem_map.mpr ⟨sA, hsA', ?_⟩
            rw [hid, hs0i]
          · obtain ⟨s', hs'm, hs'i⟩ := hpres1 y hy hyin
            have hs'' : s' ∈ ss1' := by
              refine hkeep s' hs'm ?_
              rw [hs'i]
              exact List.mem_map.mpr ⟨y, hy, rfl⟩
            exact List.mem_map.mpr ⟨s', hs'', hs'i⟩
        refine ⟨rfl, ?_, ?_⟩
        · show lookupA "id" a1 = sidOf (XNode.elem t xa cs)
          rw [ha1, lookupA_applyW, hlv', hsv]
        · intro c₂
          have hida : applyW (writesOfX ["sensor"] cs) a1 = a1 := by
            rw [ha1]
            exact applyW_idem _ _ hnkd
          have hloop2 := refreshDeviceLoop_id chenv (ss1'.map Sensor.idv) cs
            a1 ss1' reg1' [] c₂
            (fun y hy => ⟨(by
                obtain ⟨u, hu, _, _⟩ := wfChildId_spec [] y (hallwf y hy)
                exact ⟨u, hu⟩), hpressurv y hy⟩)
            (fun y hy s' hs' hsy => hstabsurv y hy s' hs' hsy)
          rw [hida] at hloop2
          have hrem2 : removeStaleSensors (ss1'.map Sensor.idv)
              ([] ++ sidsOf cs) ss1' reg1' = .ok (ss1', reg1') := by
            refine removeStaleSensors_id _ _ _ _ (fun u hu => ?_)
            obtain ⟨s', hs', hsi⟩ := List.mem_map.mp hu
            show u ∈ sidsOf cs
            rw [← hsi]
            exact hsurvids s' hs'
          simp only [refreshDevice]
          simp only [hloop2]
          simp only [hrem2]

/-- Forward analysis of the child loop of `Device.initialize`. -/
theorem buildDeviceLoop_facts (chenv : Option String → XNode)
    (henv : wfChanEnv chenv) :
    ∀ (cs : List XNode) (a : Attrs) (ss : List Sensor) (reg : List Nat)
      (c : Nat) (a1 : Attrs) (ss1 : List Sensor) (reg1 : List Nat)
      (c1 : Nat),
      buildDeviceLoop cs a ss reg c = (a1, ss1, reg1, c1) →
      (∀ x ∈ sensorChildren cs, wfSensorChild x = true) →
      a1 = applyW (writesOfX ["sensor"] cs) a ∧
      ss.length ≤ ss1.length ∧
      (∀ (k : Nat) (s : Sensor), ss[k]? = some s → ss1[k]? = some s) ∧
      (∀ (k : Nat) (sA : Sensor), ss.length ≤ k → ss1[k]? = some sA →
        wfS sA ∧ ∃ x, x ∈ sensorChildren cs ∧ sA.idv = sidOf x ∧
          StableSens chenv x sA) ∧
      (∀ x ∈ sensorChildren cs, ∃ s' ∈ ss1, s'.idv = sidOf x) := by
  intro cs
  induction cs with
  | nil =>
    intro a ss reg c a1 ss1 reg1 c1 h _
    rw [buildDeviceLoop] at h
    injection h with h1 h
    injection h with h2 h
    injection h with h3 h4
    subst h1; subst h2; subst h3
    refine ⟨rfl, le_refl _, fun k s hk => hk, ?_, ?_⟩
    · intro k sA hge hk
      rw [List.getElem?_eq_none hge] at hk
      cases hk
    · intro x hx
      simp [sensorChildren] at hx
  | cons x cs ih =>
    intro a ss reg c a1 ss1 reg1 c1 h hwfx
    rw [buildDeviceLoop] at h
    split at h
    · rename_i heq
      have hmem : x ∈ sensorChildren (x :: cs) := by
        rw [sensorChildren_cons_sensor x cs heq]
        simp
      have hwfhd := hwfx x hmem
      have hsub : ∀ y, y ∈ sensorChildren cs →
          y ∈ sensorChildren (x :: cs) := by
        intro y hy
        rw [sensorChildren_cons_sensor x cs heq]
        exact List.mem_cons_of_mem x hy
      have hw : writesOfX ["sensor"] (x :: cs) = writesOfX ["sensor"] cs := by
        simp [writesOfX, heq, List.contains]
      rcases hbb : buildSensor x (lookupA "id" a) c with ⟨bs, bc⟩
      simp only [hbb] at h
      have hmx := buildSensor_master chenv henv x (lookupA "id" a) c hwfhd
      rw [hbb] at hmx
      simp only at hmx
      obtain ⟨hbc, hbtok, hbid, hbwf, hbstab⟩ := hmx
      obtain ⟨ha1, hlen1, hpt1, hbuilt1, hpres1⟩ :=
        ih a (ss ++ [bs]) (reg ++ [bs.tok]) bc a1 ss1 reg1 c1 h
          (fun y hy => hwfx y (hsub y hy))
      have hbsk : (ss ++ [bs])[ss.length]? = some bs := by
        rw [List.getElem?_append_right (le_refl _)]
        simp
      refine ⟨by rw [hw]; exact ha1, ?_, ?_, ?_, ?_⟩
      · calc ss.length ≤ (ss ++ [bs]).length := by simp
          _ ≤ ss1.length := hlen1
      · intro k s hsk
        have hklt : k < ss.length := (List.getElem?_eq_some_iff.mp hsk).1
        refine hpt1 k s ?_
        rw [List.getElem?_append, if_pos hklt]
        exact hsk
      · intro k sA hge hk
        rcases Nat.lt_or_ge k (ss.length + 1) with hlt | hge2
        · have hkeq : k = ss.length :=
            Nat.le_antisymm (Nat.lt_succ_iff.mp hlt) hge
          subst hkeq
          have hsA := hpt1 ss.length bs hbsk
          rw [hk] at hsA
          injection hsA with hsA
          rw [hsA]
          exact ⟨hbwf, x, hmem, hbid, hbstab⟩
        · obtain ⟨hwfA, x', hx'm, hidx', hstabx'⟩ :=
            hbuilt1 k sA (by simp; omega) hk
          exact ⟨hwfA, x', hsub x' hx'm, hidx', hstabx'⟩
      · intro y hy
        rw [sensorChildren_cons_sensor x cs heq] at hy
        rcases List.mem_cons.mp hy with hye | hym
        · subst hye
          have hsA := hpt1 ss.length bs hbsk
          exact ⟨bs, List.getElem?_mem hsA, hbid⟩
        · exact hpres1 y hym
    · rename_i n hpat heq
      have hne : n ≠ "sensor" := fun hcon => hpat hcon
      have hxne : xname x ≠ some "sensor" := by
        rw [heq]
        intro hcon
        injection hcon with hcon
        exact hpat hcon
      have hsc := sensorChildren_cons_other x cs hxne
      obtain ⟨ha1, hlen1, hpt1, hbuilt1, hpres1⟩ :=
        ih (setA n ((xstring x).getD "") a) ss reg c a1 ss1 reg1 c1 h
          (fun y hy => hwfx y (by rw [hsc]; exact hy))
      have hwcons : writesOfX ["sensor"] (x :: cs) =
          (n, (xstring x).getD "") :: writesOfX ["sensor"] cs := by
        simp [writesOfX, heq, hne]
      refine ⟨?_, hlen1, hpt1, ?_, ?_⟩
      · rw [hwcons, ha1]
        rfl
      · intro k sA hge hk
        obtain ⟨hwfA, x', hx'm, hidx', hstabx'⟩ := hbuilt1 k sA hge hk
        refine ⟨hwfA, x', ?_, hidx', hstabx'⟩
        rw [hsc]
        exact hx'm
      · intro y hy
        rw [hsc] at hy
        exact hpres1 y hy
    · rename_i heq
      have hxne : xname x ≠ some "sensor" := by
        rw [heq]
        intro hcon
        cases hcon
      have hsc := sensorChildren_cons_other x cs hxne
      obtain ⟨ha1, hlen1, hpt1, hbuilt1, hpres1⟩ :=
        ih a ss reg c a1 ss1 reg1 c1 h
          (fun y hy => hwfx y (by rw [hsc]; exact hy))
      have hwcons : writesOfX ["sensor"] (x :: cs) =
          writesOfX ["sensor"] cs := by
        simp [writesOfX, heq]
      refine ⟨?_, hlen1, hpt1, ?_, ?_⟩
      · rw [hwcons]
        exact ha1
      · intro k sA hge hk
        obtain ⟨hwfA, x', hx'm, hidx', hstabx'⟩ := hbuilt1 k sA hge hk
        refine ⟨hwfA, x', ?_, hidx', hstabx'⟩
        rw [hsc]
        exact hx'm
      · intro y hy
        rw [hsc] at hy
        exact hpres1 y hy

/-- `Device.__init__` from a well-formed fragment: fresh token, the
fragment's id, and a first refresh against the same fragment is already
the identity. -/
theorem buildDevice_master (chenv : Option String → XNode)
    (henv : wfChanEnv chenv) (frag : XNode) (c : Nat)
    (hwf : wfDevFrag frag = true) :
    (buildDevice frag c).1.tok = c ∧
    (buildDevice frag c).1.idv = sidOf frag ∧
    StableDev chenv (buildDevice frag c).1 frag := by
  cases frag with
  | text s => simp [wfDevFrag] at hwf
  | elem t xa cs =>
    obtain ⟨hwfc, hwfid⟩ := wfDevFrag_spec t xa cs hwf
    obtain ⟨hallwf, hndsids, htype⟩ := wfDevChildren_spec cs hwfc
    obtain ⟨v, hfv, hlv, hsv⟩ := wfChildId_spec ["sensor"] _ hwfid
    have hlv' : lastVal (writesOfX ["sensor"] cs) "id" = some v := hlv
    rcases hbl : buildDeviceLoop cs [] [] [] (c + 1) with ⟨a1, ss1, reg1, c1⟩
    obtain ⟨ha1, _, hpt, hbuilt, hpres⟩ :=
      buildDeviceLoop_facts chenv henv cs [] [] [] (c + 1) a1 ss1 reg1 c1
        hbl hallwf
    have hnka1 : NK a1 := by
      rw [ha1]
      refine NK_applyW _ [] ?_
      simp [NK]
    have hbd : buildDevice (XNode.elem t xa cs) c =
        (⟨c, setA "type" "Device" a1, xa, ss1, reg1,
          bucketize ss1 sbysInit⟩, c1) := by
      simp only [buildDevice, xchildren, xattrsOf, hbl]
    have hstab1 : ∀ y ∈ sensorChildren cs, ∀ s ∈ ss1,
        s.idv = sidOf y → StableSens chenv y s := by
      intro y hy s hs hsy
      obtain ⟨k, hk⟩ := List.mem_iff_getElem?.mp hs
      obtain ⟨hwfA, x', hx'm, hidx', hstabx'⟩ :=
        hbuilt k s (Nat.zero_le k) hk
      have hxy : x' = y := nodupB_map_inj sidOf (sensorChildren cs)
        hndsids x' hx'm y hy (by rw [← hidx', hsy])
      rw [← hxy]
      exact hstabx'
    have hAval : applyW (writesOfX ["sensor"] cs)
        (setA "type" "Device" a1) = setA "type" "Device" a1 := by
      refine applyW_stable _ _ (NK_setA _ _ _ hnka1) ?_
      intro k u hlk
      have hkt : k ≠ "type" := by
        intro he
        exact htype (he ▸ lastVal_some_mem k _ u hlk)
      rw [lookupA_setA_other "type" k _ _ hkt, ha1, lookupA_applyW, hlk]
    refine ⟨by rw [hbd], ?_, ?_⟩
    · show (buildDevice (XNode.elem t xa cs) c).1.idv =
        sidOf (XNode.elem t xa cs)
      rw [hbd]
      show lookupA "id" (setA "type" "Device" a1) = sidOf (XNode.elem t xa cs)
      rw [lookupA_setA_other "type" "id" _ _ (by decide), ha1,
        lookupA_applyW, hlv', hsv]
    · intro c₂
      rw [hbd]
      have hloop2 := refreshDeviceLoop_id chenv (ss1.map Sensor.idv) cs
        (setA "type" "Device" a1) ss1 reg1 [] c₂
        (fun y hy => ⟨(by
            obtain ⟨u, hu, _, _⟩ := wfChildId_spec [] y (hallwf y hy)
            exact ⟨u, hu⟩), (by
            obtain ⟨s', hs', hsi⟩ := hpres y hy
            exact List.mem_map.mpr ⟨s', hs', hsi⟩)⟩)
        (fun y hy s hs hsy => hstab1 y hy s hs hsy)
      rw [hAval] at hloop2
      have hrem2 : removeStaleSensors (ss1.map Sensor.idv)
          ([] ++ sidsOf cs) ss1 reg1 = .ok (ss1, reg1) := by
        refine removeStaleSensors_id _ _ _ _ (fun u hu => ?_)
        obtain ⟨s', hs', hsi⟩ := List.mem_map.mp hu
        obtain ⟨k, hk⟩ := List.mem_iff_getElem?.mp hs'
        obtain ⟨_, x', hx'm, hidx', _⟩ := hbuilt k s' (Nat.zero_le k) hk
        show u ∈ sidsOf cs
        rw [← hsi, hidx']
        exact List.mem_map.mpr ⟨x', hx'm, rfl⟩
      simp only [refreshDevice]
      simp only [hloop2]
      simp only [hrem2]

/-! ## C2: group-level well-formedness -/

/-- Executable key-distinctness of an attribute state. -/
def NKb (a : Attrs) : Bool := nodupB (a.map Prod.fst)

/-- Executable well-formedness of a sensor. -/
def wfSb (s : Sensor) : Bool :=
  NKb s.attrs && s.channels.all (fun ch => NKb ch.attrs)

/-- Executable well-formedness of a device. -/
def entWFDevB (d : Device) : Bool :=
  NKb d.attrs && d.sensors.all wfSb && nodupB (d.sensors.map Sensor.idv)

theorem nodup_of_nodupB {α : Type} [BEq α] [LawfulBEq α] :
    ∀ l : List α, nodupB l = true → l.Nodup := by
  intro l
  induction l with
  | nil => intro _; exact List.nodup_nil
  | cons x xs ih =>
    intro h
    obtain ⟨hn, hr⟩ := nodupB_cons x xs h
    exact List.nodup_cons.mpr ⟨hn, ih hr⟩

theorem NK_of_NKb (a : Attrs) (h : NKb a = true) : NK a :=
  nodup_of_nodupB _ h

theorem wfS_of_wfSb (s : Sensor) (h : wfSb s = true) : wfS s := by
  unfold wfSb at h
  rw [Bool.and_eq_true] at h
  refine ⟨NK_of_NKb _ h.1, fun ch hch => ?_⟩
  have h2 := h.2
  rw [List.all_eq_true] at h2
  exact NK_of_NKb _ (h2 ch hch)

theorem entWFDev_of_B (d : Device) (h : entWFDevB d = true) : entWFDev d := by
  unfold entWFDevB at h
  rw [Bool.and_eq_true, Bool.and_eq_true] at h
  refine ⟨NK_of_NKb _ h.1.1, fun s hs => ?_, nodup_of_nodupB _ h.2⟩
  have h2 := h.1.2
  rw [List.all_eq_true] at h2
  exact wfS_of_wfSb _ (h2 s hs)

/-- The `<device>` children of a group fragment. -/
def deviceChildren (cs : List XNode) : List XNode :=
  cs.filter (fun x => xname x == some "device")

/-- The `<group>` children of a group fragment. -/
def groupChildren (cs : List XNode) : List XNode :=
  cs.filter (fun x => xname x == some "group")

/-- The reconciliation keys of the `<device>` children, in order. -/
def didsOf (cs : List XNode) : List (Option String) :=
  (deviceChildren cs).map sidOf

/-- The reconciliation keys of the `<group>` children, in order. -/
def gidsOf (cs : List XNode) : List (Option String) :=
  (groupChildren cs).map sidOf

mutual

/-- A well-formed `<group>` fragment: well-formed device and subgroup
children with pairwise-distinct ids per kind, no scalar `type` write, and
a consistent own id. -/
def wfGrpFrag : XNode → Bool
  | .text _ => false
  | .elem t a cs =>
      wfGrpChildrenList cs && nodupB (didsOf cs) && nodupB (gidsOf cs) &&
      !((writesOfX ["device", "group"] cs).map Prod.fst).contains "type" &&
      wfChildId ["device", "group"] (.elem t a cs)

/-- Every `<device>` child is a well-formed device fragment and every
`<group>` child a well-formed group fragment. -/
def wfGrpChildrenList : List XNode → Bool
  | [] => true
  | x :: xs =>
      (match xname x with
       | some "device" => wfDevFrag x
       | some "group" => wfGrpFrag x
       | _ => true) && wfGrpChildrenList xs

end

mutual

/-- Executable well-formedness of a group's entity state. -/
def entWFG : Group → Bool
  | .mk _ a _ gs ds _ _ =>
      NKb a && ds.all entWFDevB && nodupB (ds.map Device.idv) &&
      entWFGList gs && nodupB (gs.map Group.idv)

/-- All groups of a list are well formed. -/
def entWFGList : List Group → Bool
  | [] => true
  | g :: gs => entWFG g && entWFGList gs

end

/-- A group on which a further refresh against the same fragment is the
identity. -/
def StableGrp (chenv : Option String → XNode) (g : Group) (frag : XNode) :
    Prop := ∀ c, refreshGroup chenv g frag c = .ok (g, c)

theorem wfGrpChildrenList_spec : ∀ cs : List XNode,
    wfGrpChildrenList cs = true →
    (∀ x ∈ deviceChildren cs, wfDevFrag x = true) ∧
    (∀ x ∈ groupChildren cs, wfGrpFrag x = true) := by
  intro cs
  induction cs with
  | nil =>
    intro _
    constructor <;> intro x hx <;> simp [deviceChildren, groupChildren] at hx
  | cons x xs ih =>
    intro h
    rw [wfGrpChildrenList, Bool.and_eq_true] at h
    obtain ⟨hx, hxs⟩ := h
    obtain ⟨ihd, ihg⟩ := ih hxs
    constructor
    · intro y hy
      by_cases hxd : xname x = some "device"
      · have : deviceChildren (x :: xs) = x :: deviceChildren xs := by
          simp [deviceChildren, List.filter, hxd]
        rw [this] at hy
        rcases List.mem_cons.mp hy with hye | hym
        · subst hye
          rw [hxd] at hx
          exact hx
        · exact ihd y hym
      · have hne : (xname x == some "device") = false := by
          rw [beq_eq_false_iff_ne]
          exact hxd
        have : deviceChildren (x :: xs) = deviceChildren xs := by
          simp [deviceChildren, List.filter, hne]
        rw [this] at hy
        exact ihd y hy
    · intro y hy
      by_cases hxg : xname x = some "group"
      · have : groupChildren (x :: xs) = x :: groupChildren xs := by
          simp [groupChildren, List.filter, hxg]
        rw [this] at hy
        rcases List.mem_cons.mp hy with hye | hym
        · subst hye
          rw [hxg] at hx
          exact hx
        · exact ihg y hym
      · have hne : (xname x == some "group") = false := by
          rw [beq_eq_false_iff_ne]
          exact hxg
        have : groupChildren (x :: xs) = groupChildren xs := by
          simp [groupChildren, List.filter, hne]
        rw [this] at hy
        exact ihg y hy

theorem entWFG_spec (tk : Nat) (a : Attrs) (b : List (String × String))
    (gs : List Group) (ds : List Device) (ag ad : List Nat)
    (h : entWFG (.mk tk a b gs ds ag ad) = true) :
    NK a ∧ (∀ d ∈ ds, entWFDev d) ∧ (ds.map Device.idv).Nodup ∧
    (∀ g ∈ gs, entWFG g = true) ∧ (gs.map Group.idv).Nodup := by
  rw [entWFG, Bool.and_eq_true, Bool.and_eq_true, Bool.and_eq_true,
    Bool.and_eq_true] at h
  obtain ⟨⟨⟨⟨h1, h2⟩, h3⟩, h4⟩, h5⟩ := h
  refine ⟨NK_of_NKb _ h1, fun d hd => ?_, nodup_of_nodupB _ h3, ?_, nodup_of_nodupB _ h5⟩
  · rw [List.all_eq_true] at h2
    exact entWFDev_of_B d (h2 d hd)
  · intro g hg
    clear h1 h2 h3 h5
    induction gs with
    | nil => cases hg
    | cons g0 gs0 ihg =>
      rw [entWFGList, Bool.and_eq_true] at h4
      rcases List.mem_cons.mp hg with he | hm
      · rw [he]; exact h4.1
      · exact ihg h4.2 hm

theorem wfGrpFrag_spec (t : String) (xa : List (String × String))
    (cs : List XNode) (h : wfGrpFrag (.elem t xa cs) = true) :
    (∀ x ∈ deviceChildren cs, wfDevFrag x = true) ∧
    (∀ x ∈ groupChildren cs, wfGrpFrag x = true) ∧
    nodupB (didsOf cs) = true ∧ nodupB (gidsOf cs) = true ∧
    "type" ∉ (writesOfX ["device", "group"] cs).map Prod.fst ∧
    wfChildId ["device", "group"] (.elem t xa cs) = true := by
  rw [wfGrpFrag, Bool.and_eq_true, Bool.and_eq_true, Bool.and_eq_true,
    Bool.and_eq_true] at h
  obtain ⟨⟨⟨⟨h1, h2⟩, h3⟩, h4⟩, h5⟩ := h
  obtain ⟨hd, hg⟩ := wfGrpChildrenList_spec cs h1
  rw [Bool.not_eq_true'] at h4
  exact ⟨hd, hg, h2, h3, by simpa using h4, h5⟩

/-! ## C2: matching-refresh combinator and group-level removal -/

theorem exceptMapCount_id {α : Type} (p : α → Bool)
    (f : α → Nat → Except Err (α × Nat)) :
    ∀ (l : List α) (c : Nat),
      (∀ g ∈ l, p g = true → ∀ c', f g c' = .ok (g, c')) →
      exceptMapCount p f l c = .ok (l, c) := by
  intro l
  induction l with
  | nil => intro c _; rfl
  | cons g gs ih =>
    intro c h
    rw [exceptMapCount]
    by_cases hp : p g = true
    · rw [if_pos hp]
      simp only [h g (by simp) hp c]
      simp only [ih c (fun t ht htp => h t (by simp [ht]) htp)]
    · rw [if_neg hp]
      simp only [ih c (fun t ht htp => h t (by simp [ht]) htp)]

theorem exceptMapCount_pointwise {α : Type} (p : α → Bool)
    (f : α → Nat → Except Err (α × Nat)) :
    ∀ (l : List α) (c : Nat) (l' : List α) (c' : Nat),
      exceptMapCount p f l c = .ok (l', c') →
      l'.length = l.length ∧
      ∀ (k : Nat) (g : α), l[k]? = some g → ∃ g', l'[k]? = some g' ∧
        ((p g = false ∧ g' = g) ∨
         (p g = true ∧ ∃ c₀ c₁, f g c₀ = .ok (g', c₁))) := by
  intro l
  induction l with
  | nil =>
    intro c l' c' h
    rw [exceptMapCount] at h
    injection h with h
    injection h with h1 h2
    subst h1
    exact ⟨rfl, fun k g hk => by simp at hk⟩
  | cons g gs ih =>
    intro c l' c' h
    rw [exceptMapCount] at h
    by_cases hp : p g = true
    · rw [if_pos hp] at h
      cases hr : f g c with
      | error e => exact (Except.noConfusion (hr ▸ h))
      | ok q =>
        obtain ⟨g1, c1⟩ := q
        simp only [hr] at h
        cases hrr : exceptMapCount p f gs c1 with
        | error e => exact (Except.noConfusion (hrr ▸ h))
        | ok q2 =>
          obtain ⟨gs1, c2⟩ := q2
          simp only [hrr] at h
          injection h with h
          injection h with h1 h2
          subst h1
          obtain ⟨hlen, hpt⟩ := ih c1 gs1 c2 hrr
          refine ⟨by simp [hlen], ?_⟩
          intro k t hk
          cases k with
          | zero =>
            simp only [List.getElem?_cons_zero] at hk ⊢
            injection hk with hk
            subst hk
            exact ⟨g1, rfl, Or.inr ⟨hp, c, c1, hr⟩⟩
          | succ k =>
            simp only [List.getElem?_cons_succ] at hk ⊢
            exact hpt k t hk
    · rw [if_neg hp] at h
      cases hrr : exceptMapCount p f gs c with
      | error e => exact (Except.noConfusion (hrr ▸ h))
      | ok q2 =>
        obtain ⟨gs1, c2⟩ := q2
        simp only [hrr] at h
        injection h with h
        injection h with h1 h2
        subst h1
        obtain ⟨hlen, hpt⟩ := ih c gs1 c2 hrr
        refine ⟨by simp [hlen], ?_⟩
        intro k t hk
        cases k with
        | zero =>
          simp only [List.getElem?_cons_zero] at hk ⊢
          injection hk with hk
          subst hk
          exact ⟨g, rfl, Or.inl ⟨Bool.not_eq_true _ ▸ hp, rfl⟩⟩
        | succ k =>
          simp only [List.getElem?_cons_succ] at hk ⊢
          exact hpt k t hk

/-- `groupBEq` implies equality of the scalar states. -/
theorem groupBEq_attrs (g g' : Group) (h : groupBEq g g' = true) :
    g.attrs = g'.attrs := by
  cases g with
  | mk t a b gs ds ag ad =>
    cases g' with
    | mk t' a' b' gs' ds' ag' ad' =>
      rw [groupBEq] at h
      rw [Bool.and_eq_true, Bool.and_eq_true, Bool.and_eq_true,
        Bool.and_eq_true, Bool.and_eq_true, Bool.and_eq_true] at h
      have := h.1.1.1.1.1.2
      show a = a'
      simpa using this

theorem removeStaleDevices_id :
    ∀ (idvals newids : List (Option String)) (ds : List Device)
      (reg : List Nat),
      (∀ v ∈ idvals, v ∈ newids) →
      removeStaleDevices idvals newids ds reg = .ok (ds, reg) := by
  intro idvals
  induction idvals with
  | nil => intro newids ds reg _; rfl
  | cons v rest ih =>
    intro newids ds reg h
    rw [removeStaleDevices, if_pos (h v (by simp))]
    exact ih newids ds reg (fun u hu => h u (by simp [hu]))

theorem removeStaleGroups_id :
    ∀ (idvals newids : List (Option String)) (gs : List Group)
      (reg : List Nat),
      (∀ v ∈ idvals, v ∈ newids) →
      removeStaleGroups idvals newids gs reg = .ok (gs, reg) := by
  intro idvals
  induction idvals with
  | nil => intro newids gs reg _; rfl
  | cons v rest ih =>
    intro newids gs reg h
    rw [removeStaleGroups, if_pos (h v (by simp))]
    exact ih newids gs reg (fun u hu => h u (by simp [hu]))

theorem removeStaleDevices_facts :
    ∀ (idvals newids : List (Option String)) (ds : List Device)
      (reg : List Nat) (ds' : List Device) (reg' : List Nat),
      removeStaleDevices idvals newids ds reg = .ok (ds', reg') →
      (∀ v, v ∉ newids →
        (ds.countP (fun d => d.idv == v)) ≤ 1) →
      (∀ d' ∈ ds', d' ∈ ds) ∧
      (∀ d' ∈ ds', d'.idv ∉ idvals ∨ d'.idv ∈ newids) ∧
      (∀ d ∈ ds, d.idv ∈ newids → d ∈ ds') := by
  intro idvals
  induction idvals with
  | nil =>
    intro newids ds reg ds' reg' h _
    rw [removeStaleDevices] at h
    injection h with h
    injection h with h1 h2
    subst h1
    exact ⟨fun d' hd' => hd', fun d' _ => Or.inl (List.not_mem_nil _),
      fun d hd _ => hd⟩
  | cons v rest ih =>
    intro newids ds reg ds' reg' h hcnt
    rw [removeStaleDevices] at h
    by_cases hv : v ∈ newids
    · rw [if_pos hv] at h
      obtain ⟨hsub, hcond, hkeep⟩ := ih newids ds reg ds' reg' h hcnt
      refine ⟨hsub, fun d' hd' => ?_, hkeep⟩
      rcases hcond d' hd' with hnr | hnw
      · by_cases hdv : d'.idv = v
        · exact Or.inr (hdv ▸ hv)
        · refine Or.inl (fun hc => ?_)
          rcases List.mem_cons.mp hc with hc1 | hc2
          · exact hdv hc1
          · exact hnr hc2
      · exact Or.inr hnw
    · rw [if_neg hv] at h
      cases hlm : lastMatch (fun d => d.idv == v) ds with
      | none => exact (Except.noConfusion (hlm ▸ h))
      | some t =>
        simp only [hlm] at h
        obtain ⟨htm, htp⟩ := lastMatch_spec _ ds t hlm
        have htv : t.idv = v := by simpa using htp
        cases hrf : removeFirst (fun d' => d' == t) ds with
        | none => exact (Except.noConfusion (hrf ▸ h))
        | some dsr =>
          simp only [hrf] at h
          cases hrg : removeFirst (fun u => u == t.tok) reg with
          | none => exact (Except.noConfusion (hrg ▸ h))
          | some regr =>
            simp only [hrg] at h
            obtain ⟨e, l₁, l₂, hsplit, hrem, hpe, hl1⟩ :=
              removeFirst_split _ ds dsr hrf
            have het : e = t := by simpa using hpe
            subst het
            have hcv : ds.countP (fun d => d.idv == v) ≤ 1 := hcnt v hv
            have hzero : ∀ z ∈ dsr, z.idv ≠ v := by
              intro z hz hzv
              have h1 : ds.countP (fun d => d.idv == v) =
                  l₁.countP (fun d => d.idv == v) +
                  (dsr.countP (fun d => d.idv == v) -
                    l₁.countP (fun d => d.idv == v)) + 1 := by
                rw [hsplit, List.countP_append, List.countP_cons]
                rw [hrem, List.countP_append]
                simp [htv]
                omega
              have h2 : 0 < dsr.countP (fun d => d.idv == v) :=
                List.countP_pos_iff.mpr ⟨z, hz, by simpa using hzv⟩
              omega
            have hcnt' : ∀ u, u ∉ newids →
                (dsr.countP (fun d => d.idv == u)) ≤ 1 := by
              intro u hu
              have hle : dsr.countP (fun d => d.idv == u) ≤
                  ds.countP (fun d => d.idv == u) := by
                rw [hsplit, hrem, List.countP_append, List.countP_append,
                  List.countP_cons]
                omega
              exact le_trans hle (hcnt u hu)
            obtain ⟨hsub, hcond, hkeep⟩ := ih newids dsr regr ds' reg' h hcnt'
            have hsubds : ∀ z ∈ dsr, z ∈ ds := by
              intro z hz
              rw [hsplit]
              rw [hrem] at hz
              rcases List.mem_append.mp hz with hz1 | hz2
              · exact List.mem_append.mpr (Or.inl hz1)
              · exact List.mem_append.mpr (Or.inr (List.mem_cons_of_mem _ hz2))
            refine ⟨fun d' hd' => hsubds d' (hsub d' hd'), ?_, ?_⟩
            · intro d' hd'
              rcases hcond d' hd' with hnr | hnw
              · refine Or.inl (fun hc => ?_)
                rcases List.mem_cons.mp hc with hc1 | hc2
                · exact hzero d' (hsub d' hd') hc1
                · exact hnr hc2
              · exact Or.inr hnw
            · intro d hd hdnew
              have hst : d ≠ e := by
                intro he
                rw [he, htv] at hdnew
                exact hv hdnew
              have hdr : d ∈ dsr := by
                rw [hsplit] at hd
                rw [hrem]
                rcases List.mem_append.mp hd with hd1 | hd2
                · exact List.mem_append.mpr (Or.inl hd1)
                · rcases List.mem_cons.mp hd2 with hd3 | hd4
                  · exact absurd hd3 hst
                  · exact List.mem_append.mpr (Or.inr hd4)
              exact hkeep d hdr hdnew

theorem removeStaleGroups_facts :
    ∀ (idvals newids : List (Option String)) (gs : List Group)
      (reg : List Nat) (gs' : List Group) (reg' : List Nat),
      removeStaleGroups idvals newids gs reg = .ok (gs', reg') →
      (∀ v, v ∉ newids →
        (gs.countP (fun g => g.idv == v)) ≤ 1) →
      (∀ g' ∈ gs', g' ∈ gs) ∧
      (∀ g' ∈ gs', g'.idv ∉ idvals ∨ g'.idv ∈ newids) ∧
      (∀ g ∈ gs, g.idv ∈ newids → g ∈ gs') := by
  intro idvals
  induction idvals with
  | nil =>
    intro newids gs reg gs' reg' h _
    rw [removeStaleGroups] at h
    injection h with h
    injection h with h1 h2
    subst h1
    exact ⟨fun g' hg' => hg', fun g' _ => Or.inl (List.not_mem_nil _),
      fun g hg _ => hg⟩
  | cons v rest ih =>
    intro newids gs reg gs' reg' h hcnt
    rw [removeStaleGroups] at h
    by_cases hv : v ∈ newids
    · rw [if_pos hv] at h
      obtain ⟨hsub, hcond, hkeep⟩ := ih newids gs reg gs' reg' h hcnt
      refine ⟨hsub, fun g' hg' => ?_, hkeep⟩
      rcases hcond g' hg' with hnr | hnw
      · by_cases hgv : g'.idv = v
        · exact Or.inr (hgv ▸ hv)
        · refine Or.inl (fun hc => ?_)
          rcases List.mem_cons.mp hc with hc1 | hc2
          · exact hgv hc1
          · exact hnr hc2
      · exact Or.inr hnw
    · rw [if_neg hv] at h
      cases hlm : lastMatch (fun g => g.idv == v) gs with
      | none => exact (Except.noConfusion (hlm ▸ h))
      | some t =>
        simp only [hlm] at h
        obtain ⟨htm, htp⟩ := lastMatch_spec _ gs t hlm
        have htv : t.idv = v := by simpa using htp
        cases hrf : removeFirst (fun g' => groupBEq g' t) gs with
        | none => exact (Except.noConfusion (hrf ▸ h))
        | some gsr =>
          simp only [hrf] at h
          cases hrg : removeFirst (fun u => u == t.tok) reg with
          | none => exact (Except.noConfusion (hrg ▸ h))
          | some regr =>
            simp only [hrg] at h
            obtain ⟨e, l₁, l₂, hsplit, hrem, hpe, hl1⟩ :=
              removeFirst_split _ gs gsr hrf
            have heidv : e.idv = v := by
              have := groupBEq_attrs e t hpe
              rw [Group.idv, this, ← Group.idv, htv]
            have hcv : gs.countP (fun g => g.idv == v) ≤ 1 := hcnt v hv
            have hzero : ∀ z ∈ gsr, z.idv ≠ v := by
              intro z hz hzv
              have h1 : gs.countP (fun g => g.idv == v) =
                  l₁.countP (fun g => g.idv == v) +
                  (gsr.countP (fun g => g.idv == v) -
                    l₁.countP (fun g => g.idv == v)) + 1 := by
                rw [hsplit, List.countP_append, List.countP_cons]
                rw [hrem, List.countP_append]
                simp [heidv]
                omega
              have h2 : 0 < gsr.countP (fun g => g.idv == v) :=
                List.countP_pos_iff.mpr ⟨z, hz, by simpa using hzv⟩
              omega
            have hcnt' : ∀ u, u ∉ newids →
                (gsr.countP (fun g => g.idv == u)) ≤ 1 := by
              intro u hu
              have hle : gsr.countP (fun g => g.idv == u) ≤
                  gs.countP (fun g => g.idv == u) := by
                rw [hsplit, hrem, List.countP_append, List.countP_append,
                  List.countP_cons]
                omega
              exact le_trans hle (hcnt u hu)
            obtain ⟨hsub, hcond, hkeep⟩ := ih newids gsr regr gs' reg' h hcnt'
            have hsubgs : ∀ z ∈ gsr, z ∈ gs := by
              intro z hz
              rw [hsplit]
              rw [hrem] at hz
              rcases List.mem_append.mp hz with hz1 | hz2
              · exact List.mem_append.mpr (Or.inl hz1)
              · exact List.mem_append.mpr (Or.inr (List.mem_cons_of_mem _ hz2))
            refine ⟨fun g' hg' => hsubgs g' (hsub g' hg'), ?_, ?_⟩
            · intro g' hg'
              rcases hcond g' hg' with hnr | hnw
              · refine Or.inl (fun hc => ?_)
                rcases List.mem_cons.mp hc with hc1 | hc2
                · exact hzero g' (hsub g' hg') hc1
                · exact hnr hc2
              · exact Or.inr hnw
            · intro g hg hgnew
              have hst : g ≠ e := by
                intro he
                rw [he, heidv] at hgnew
                exact hv hgnew
              have hgr : g ∈ gsr := by
                rw [hsplit] at hg
                rw [hrem]
                rcases List.mem_append.mp hg with hg1 | hg2
                · exact List.mem_append.mpr (Or.inl hg1)
                · rcases List.mem_cons.mp hg2 with hg3 | hg4
                  · exact absurd hg3 hst
                  · exact List.mem_append.mpr (Or.inr hg4)
              exact hkeep g hgr hgnew

/-- Generic pass-1 count bound over an id projection. -/
theorem pass1_count_bound_gen {α : Type} (f : α → Option String)
    (sids : List (Option String)) (ss ss1 : List α)
    (hpt : ∀ (k : Nat) (s : α), ss[k]? = some s →
      ∃ sA, ss1[k]? = some sA ∧ f sA = f s)
    (hbuilt : ∀ (k : Nat) (sA : α), ss.length ≤ k →
      ss1[k]? = some sA → f sA ∈ sids)
    (hnd : (ss.map f).Nodup) :
    ∀ v, v ∉ sids → ss1.countP (fun s => f s == v) ≤ 1 := by
  intro v hv
  have hcnt : ss1.countP (fun s => f s == v) =
      (ss1.take ss.length).countP (fun s => f s == v) +
      (ss1.drop ss.length).countP (fun s => f s == v) := by
    rw [← List.countP_append, List.take_append_drop]
  have hdz : (ss1.drop ss.length).countP (fun s => f s == v) = 0 := by
    rw [List.countP_eq_zero]
    intro sA hsA hs
    obtain ⟨j, hj⟩ := List.mem_iff_getElem?.mp hsA
    rw [List.getElem?_drop] at hj
    have hmm := hbuilt (ss.length + j) sA (Nat.le_add_right _ _) hj
    have hveq : f sA = v := by simpa using hs
    rw [hveq] at hmm
    exact hv hmm
  have hmap : (ss1.take ss.length).map f = ss.map f := by
    refine List.ext_getElem? (fun k => ?_)
    rw [List.getElem?_map, List.getElem?_map, List.getElem?_take]
    by_cases hk : k < ss.length
    · rw [if_pos hk]
      obtain ⟨s, hs⟩ := getElem?_some_of_lt ss k hk
      obtain ⟨sA, hsA, hid⟩ := hpt k s hs
      rw [hs, hsA]
      simp [hid]
    · rw [if_neg hk]
      rw [List.getElem?_eq_none (Nat.le_of_not_lt hk)]
  have htake : (ss1.take ss.length).countP (fun s => f s == v) ≤ 1 := by
    have h1 : (ss1.take ss.length).countP (fun s => f s == v) =
        ((ss1.take ss.length).map f).countP (fun x => x == v) :=
      (List.countP_map (fun x => x == v) f (ss1.take ss.length)).symm
    rw [h1, hmap]
    exact nodup_countP_le_one v (ss.map f) hnd
  omega

theorem deviceChildren_cons_device (x : XNode) (cs : List XNode)
    (hx : xname x = some "device") :
    deviceChildren (x :: cs) = x :: deviceChildren cs := by
  simp [deviceChildren, List.filter, hx]

theorem deviceChildren_cons_other (x : XNode) (cs : List XNode)
    (hx : xname x ≠ some "device") :
    deviceChildren (x :: cs) = deviceChildren cs := by
  have hb : (xname x == some "device") = false := by
    rw [beq_eq_false_iff_ne]
    exact hx
  simp [deviceChildren, List.filter, hb]

theorem groupChildren_cons_group (x : XNode) (cs : List XNode)
    (hx : xname x = some "group") :
    groupChildren (x :: cs) = x :: groupChildren cs := by
  simp [groupChildren, List.filter, hx]

theorem groupChildren_cons_other (x : XNode) (cs : List XNode)
    (hx : xname x ≠ some "group") :
    groupChildren (x :: cs) = groupChildren cs := by
  have hb : (xname x == some "group") = false := by
    rw [beq_eq_false_iff_ne]
    exact hx
  simp [groupChildren, List.filter, hb]

theorem didsOf_cons_device (x : XNode) (cs : List XNode)
    (hx : xname x = some "device") :
    didsOf (x :: cs) = sidOf x :: didsOf cs := by
  rw [didsOf, deviceChildren_cons_device x cs hx, List.map_cons, didsOf]

theorem didsOf_cons_other (x : XNode) (cs : List XNode)
    (hx : xname x ≠ some "device") : didsOf (x :: cs) = didsOf cs := by
  rw [didsOf, deviceChildren_cons_other x cs hx, didsOf]

theorem gidsOf_cons_group (x : XNode) (cs : List XNode)
    (hx : xname x = some "group") :
    gidsOf (x :: cs) = sidOf x :: gidsOf cs := by
  rw [gidsOf, groupChildren_cons_group x cs hx, List.map_cons, gidsOf]

theorem gidsOf_cons_other (x : XNode) (cs : List XNode)
    (hx : xname x ≠ some "group") : gidsOf (x :: cs) = gidsOf cs := by
  rw [gidsOf, groupChildren_cons_other x cs hx, gidsOf]

/-- The reconciliation loop of `Group.refresh` is the identity on both
child collections when every fragment id is already tracked and every
matching child is stable. -/
theorem refreshGroupLoop_id (chenv : Option String → XNode)
    (groupids deviceids : List (Option String)) :
    ∀ (cs : List XNode) (a : Attrs) (gs : List Group) (ds : List Device)
      (ag ad : List Nat) (ng nd : List (Option String)) (c : Nat),
      (∀ y ∈ deviceChildren cs, (∃ v, findTagString "id" y = .ok (some v)) ∧
        sidOf y ∈ deviceids) →
      (∀ y ∈ groupChildren cs, (∃ v, findTagString "id" y = .ok (some v)) ∧
        sidOf y ∈ groupids) →
      (∀ y ∈ deviceChildren cs, ∀ d ∈ ds, d.idv = sidOf y →
        StableDev chenv d y) →
      (∀ y ∈ groupChildren cs, ∀ g ∈ gs, g.idv = sidOf y →
        StableGrp chenv g y) →
      refreshGroupLoop chenv cs groupids deviceids
        ⟨a, gs, ds, ag, ad, ng, nd, c⟩ =
        .ok ⟨applyW (writesOfX ["device", "group"] cs) a, gs, ds, ag, ad,
          ng ++ gidsOf cs, nd ++ didsOf cs, c⟩ := by
  intro cs
  induction cs with
  | nil =>
    intro a gs ds ag ad ng nd c _ _ _ _
    show Except.ok (⟨a, gs, ds, ag, ad, ng, nd, c⟩ : GRefSt) = _
    simp [writesOfX, applyW, didsOf, gidsOf, deviceChildren, groupChildren]
  | cons x cs ih =>
    intro a gs ds ag ad ng nd c hdid hgid hdstab hgstab
    rw [refreshGroupLoop]
    split
    · -- device child
      rename_i heq
      have hmem : x ∈ deviceChildren (x :: cs) := by
        rw [deviceChildren_cons_device x cs heq]
        simp
      obtain ⟨⟨v, hfv⟩, hin⟩ := hdid x hmem
      have hsid : sidOf x = some v := by simp [sidOf, hfv]
      rw [hfv]
      show (if (some v : Option String) ∈ deviceids then _ else _) = _
      rw [if_pos (hsid ▸ hin)]
      have hxng : xname x ≠ some "group" := by
        rw [heq]
        intro hc
        injection hc with hc
        exact absurd hc (by decide)
      have hsubd : ∀ y, y ∈ deviceChildren cs →
          y ∈ deviceChildren (x :: cs) := by
        intro y hy
        rw [deviceChildren_cons_device x cs heq]
        exact List.mem_cons_of_mem x hy
      have hemc : exceptMapCount (fun d => d.idv == some v)
          (fun d c0 => refreshDevice chenv d x c0) ds c = .ok (ds, c) := by
        refine exceptMapCount_id _ _ ds c (fun d hd hdp c' => ?_)
        have hdi : d.idv = some v := by simpa using hdp
        exact hdstab x hmem d hd (by rw [hdi, hsid]) c'
      simp only [hemc]
      rw [ih a gs ds ag ad ng (nd ++ [some v]) c
        (fun y hy => hdid y (hsubd y hy))
        (fun y hy => hgid y (by rw [groupChildren_cons_other x cs hxng]; exact hy))
        (fun y hy => hdstab y (hsubd y hy))
        (fun y hy => hgstab y (by rw [groupChildren_cons_other x cs hxng]; exact hy))]
      have hw : writesOfX ["device", "group"] (x :: cs) =
          writesOfX ["device", "group"] cs := by
        simp [writesOfX, heq, List.contains]
      rw [hw, didsOf_cons_device x cs heq, hsid,
        gidsOf_cons_other x cs hxng]
      simp [List.append_assoc]
    · -- group child
      rename_i heq
      have hmem : x ∈ groupChildren (x :: cs) := by
        rw [groupChildren_cons_group x cs heq]
        simp
      obtain ⟨⟨v, hfv⟩, hin⟩ := hgid x hmem
      have hsid : sidOf x = some v := by simp [sidOf, hfv]
      rw [hfv]
      show (if (some v : Option String) ∈ groupids then _ else _) = _
      rw [if_pos (hsid ▸ hin)]
      have hxnd : xname x ≠ some "device" := by
        rw [heq]
        intro hc
        injection hc with hc
        exact absurd hc (by decide)
      have hsubg : ∀ y, y ∈ groupChildren cs →
          y ∈ groupChildren (x :: cs) := by
        intro y hy
        rw [groupChildren_cons_group x cs heq]
        exact List.mem_cons_of_mem x hy
      have hemc : exceptMapCount (fun g => g.idv == some v)
          (fun g c0 => refreshGroup chenv g x c0) gs c = .ok (gs, c) := by
        refine exceptMapCount_id _ _ gs c (fun g hg hgp c' => ?_)
        have hgi : g.idv = some v := by simpa using hgp
        exact hgstab x hmem g hg (by rw [hgi, hsid]) c'
      simp only [hemc]
      rw [ih a gs ds ag ad (ng ++ [some v]) nd c
        (fun y hy => hdid y (by rw [deviceChildren_cons_other x cs hxnd]; exact hy))
        (fun y hy => hgid y (hsubg y hy))
        (fun y hy => hdstab y (by rw [deviceChildren_cons_other x cs hxnd]; exact hy))
        (fun y hy => hgstab y (hsubg y hy))]
      have hw : writesOfX ["device", "group"] (x :: cs) =
          writesOfX ["device", "group"] cs := by
        simp [writesOfX, heq, List.contains]
      rw [hw, gidsOf_cons_group x cs heq, hsid,
        didsOf_cons_other x cs hxnd]
      simp [List.append_assoc]
    · -- scalar child
      rename_i n hpat1 hpat2 heq
      have hnd2 : n ≠ "device" := fun hc => hpat1 hc
      have hng2 : n ≠ "group" := fun hc => hpat2 hc
      have hxnd : xname x ≠ some "device" := by
        rw [heq]
        intro hc
        injection hc with hc
        exact hnd2 hc
      have hxng : xname x ≠ some "group" := by
        rw [heq]
        intro hc
        injection hc with hc
        exact hng2 hc
      rw [ih (setA n ((xstring x).getD "") a) gs ds ag ad ng nd c
        (fun y hy => hdid y (by rw [deviceChildren_cons_other x cs hxnd]; exact hy))
        (fun y hy => hgid y (by rw [groupChildren_cons_other x cs hxng]; exact hy))
        (fun y hy => hdstab y (by rw [deviceChildren_cons_other x cs hxnd]; exact hy))
        (fun y hy => hgstab y (by rw [groupChildren_cons_other x cs hxng]; exact hy))]
      have hw : writesOfX ["device", "group"] (x :: cs) =
          (n, (xstring x).getD "") :: writesOfX ["device", "group"] cs := by
        simp [writesOfX, heq, hnd2, hng2]
      rw [hw, didsOf_cons_other x cs hxnd, gidsOf_cons_other x cs hxng]
      rfl
    · -- text child
      rename_i heq
      have hxnd : xname x ≠ some "device" := by
        rw [heq]
        intro hc
        cases hc
      have hxng : xname x ≠ some "group" := by
        rw [heq]
        intro hc
        cases hc
      rw [ih a gs ds ag ad ng nd c
        (fun y hy => hdid y (by rw [deviceChildren_cons_other x cs hxnd]; exact hy))
        (fun y hy => hgid y (by rw [groupChildren_cons_other x cs hxng]; exact hy))
        (fun y hy => hdstab y (by rw [deviceChildren_cons_other x cs hxnd]; exact hy))
        (fun y hy => hgstab y (by rw [groupChildren_cons_other x cs hxng]; exact hy))]
      have hw : writesOfX ["device", "group"] (x :: cs) =
          writesOfX ["device", "group"] cs := by
        simp [writesOfX, heq]
      rw [hw, didsOf_cons_other x cs hxnd, gidsOf_cons_other x cs hxng]

theorem wfDevFrag_id (x : XNode) (h : wfDevFrag x = true) :
    ∃ v, findTagString "id" x = .ok (some v) ∧ sidOf x = some v := by
  cases x with
  | text s => simp [wfDevFrag] at h
  | elem t xa cs =>
    obtain ⟨_, hwfid⟩ := wfDevFrag_spec t xa cs h
    obtain ⟨v, hfv, _, hsv⟩ := wfChildId_spec _ _ hwfid
    exact ⟨v, hfv, hsv⟩

theorem wfGrpFrag_id (x : XNode) (h : wfGrpFrag x = true) :
    ∃ v, findTagString "id" x = .ok (some v) ∧ sidOf x = some v := by
  cases x with
  | text s => simp [wfGrpFrag] at h
  | elem t xa cs =>
    obtain ⟨_, _, _, _, _, hwfid⟩ := wfGrpFrag_spec t xa cs h
    obtain ⟨v, hfv, _, hsv⟩ := wfChildId_spec _ _ hwfid
    exact ⟨v, hfv, hsv⟩

/-- Forward analysis of the reconciliation loop of `Group.refresh`: scalar
writes applied, all fragment ids recorded, tracked children keep position
and id (untouched when absent from the fragment, otherwise brought to a
stable state), appended children are freshly built stable ones, and every
fragment id not previously tracked gains a child. The behaviour of
refreshing/building subgroup fragments is a hypothesis, supplied by the
outer induction on fragment size. -/
theorem refreshGroupLoop_pass1 (chenv : Option String → XNode)
    (henv : wfChanEnv chenv)
    (groupids deviceids : List (Option String)) :
    ∀ (cs : List XNode) (a : Attrs) (gs : List Group) (ds : List Device)
      (ag ad : List Nat) (ng nd : List (Option String)) (c : Nat)
      (st1 : GRefSt),
      refreshGroupLoop chenv cs groupids deviceids
        ⟨a, gs, ds, ag, ad, ng, nd, c⟩ = .ok st1 →
      (∀ x ∈ deviceChildren cs, wfDevFrag x = true) →
      nodupB (didsOf cs) = true →
      nodupB (gidsOf cs) = true →
      (∀ y ∈ groupChildren cs,
        wfGrpFrag y = true ∧
        (∀ (g : Group) (c0 : Nat) (g1 : Group) (c1 : Nat),
          entWFG g = true → refreshGroup chenv g y c0 = .ok (g1, c1) →
          g1.idv = sidOf y ∧ StableGrp chenv g1 y) ∧
        (∀ c0 : Nat, (buildGroup y c0).1.idv = sidOf y ∧
          StableGrp chenv (buildGroup y c0).1 y)) →
      (∀ d ∈ ds, ∀ y ∈ deviceChildren cs, d.idv = sidOf y →
        (entWFDev d ∨ StableDev chenv d y)) →
      (∀ g ∈ gs, ∀ y ∈ groupChildren cs, g.idv = sidOf y →
        (entWFG g = true ∨ StableGrp chenv g y)) →
      (∀ d ∈ ds, d.idv ∈ deviceids ∨ d.idv ∉ didsOf cs) →
      (∀ g ∈ gs, g.idv ∈ groupids ∨ g.idv ∉ gidsOf cs) →
      st1.attrs = applyW (writesOfX ["device", "group"] cs) a ∧
      st1.newdids = nd ++ didsOf cs ∧
      st1.newgids = ng ++ gidsOf cs ∧
      ds.length ≤ st1.devices.length ∧
      gs.length ≤ st1.groups.length ∧
      (∀ (k : Nat) (d : Device), ds[k]? = some d → ∃ dA,
        st1.devices[k]? = some dA ∧ dA.idv = d.idv ∧
        ((dA = d ∧ d.idv ∉ didsOf cs) ∨
         (∃ y, y ∈ deviceChildren cs ∧ dA.idv = sidOf y ∧
           StableDev chenv dA y))) ∧
      (∀ (k : Nat) (dA : Device), ds.length ≤ k →
        st1.devices[k]? = some dA →
        ∃ y, y ∈ deviceChildren cs ∧ dA.idv = sidOf y ∧
          StableDev chenv dA y) ∧
      (∀ y ∈ deviceChildren cs, sidOf y ∉ deviceids →
        ∃ d' ∈ st1.devices, d'.idv = sidOf y) ∧
      (∀ (k : Nat) (g : Group), gs[k]? = some g → ∃ gA,
        st1.groups[k]? = some gA ∧ gA.idv = g.idv ∧
        ((gA = g ∧ g.idv ∉ gidsOf cs) ∨
         (∃ y, y ∈ groupChildren cs ∧ gA.idv = sidOf y ∧
           StableGrp chenv gA y))) ∧
      (∀ (k : Nat) (gA : Group), gs.length ≤ k →
        st1.groups[k]? = some gA →
        ∃ y, y ∈ groupChildren cs ∧ gA.idv = sidOf y ∧
          StableGrp chenv gA y) ∧
      (∀ y ∈ groupChildren cs, sidOf y ∉ groupids →
        ∃ g' ∈ st1.groups, g'.idv = sidOf y) := by
  intro cs
  induction cs with
  | nil =>
    intro a gs ds ag ad ng nd c st1 h _ _ _ _ _ _ _ _
    rw [refreshGroupLoop] at h
    injection h with h
    subst h
    refine ⟨rfl, by simp [didsOf, deviceChildren],
      by simp [gidsOf, groupChildren], le_refl _, le_refl _,
      ?_, ?_, ?_, ?_, ?_, ?_⟩
    · intro k d hk
      refine ⟨d, hk, rfl, Or.inl ⟨rfl, by simp [didsOf, deviceChildren]⟩⟩
    · intro k dA hge hk
      rw [List.getElem?_eq_none hge] at hk
      cases hk
    · intro y hy
      simp [deviceChildren] at hy
    · intro k g hk
      refine ⟨g, hk, rfl, Or.inl ⟨rfl, by simp [gidsOf, groupChildren]⟩⟩
    · intro k gA hge hk
      rw [List.getElem?_eq_none hge] at hk
      cases hk
    · intro y hy
      simp [groupChildren] at hy
  | cons x cs ih =>
    intro a gs ds ag ad ng nd c st1 h hwfdev hndd hndg hgm hi1d hi1g hi2d hi2g
    rw [refreshGroupLoop] at h
    split at h
    · -- `<device>` child
      rename_i heq
      have hxng : xname x ≠ some "group" := by
        rw [heq]
        intro hc
        injection hc with hc
        exact absurd hc (by decide)
      have hmem : x ∈ deviceChildren (x :: cs) := by
        rw [deviceChildren_cons_device x cs heq]
        simp
      have hsubd : ∀ y, y ∈ deviceChildren cs →
          y ∈ deviceChildren (x :: cs) := by
        intro y hy
        rw [deviceChildren_cons_device x cs heq]
        exact List.mem_cons_of_mem x hy
      have hgch : groupChildren (x :: cs) = groupChildren cs :=
        groupChildren_cons_other x cs hxng
      have hgids : gidsOf (x :: cs) = gidsOf cs := gidsOf_cons_other x cs hxng
      have hwfx := hwfdev x hmem
      obtain ⟨v, hfv, hsv⟩ := wfDevFrag_id x hwfx
      simp only [hfv] at h
      obtain ⟨hxnotin, hnddr⟩ := nodupB_cons (sidOf x) (didsOf cs)
        (by rw [← didsOf_cons_device x cs heq]; exact hndd)
      have hdids := didsOf_cons_device x cs heq
      have hw : writesOfX ["device", "group"] (x :: cs) =
          writesOfX ["device", "group"] cs := by
        simp [writesOfX, heq, List.contains]
      have hi2dw : ∀ d ∈ ds, d.idv ∈ deviceids ∨ d.idv ∉ didsOf cs := by
        intro d hd
        rcases hi2d d hd with hl | hr
        · exact Or.inl hl
        · refine Or.inr (fun hc => hr ?_)
          rw [hdids]
          exact List.mem_cons_of_mem _ hc
      by_cases hin : (some v : Option String) ∈ deviceids
      · rw [if_pos hin] at h
        cases hr : exceptMapCount (fun d => d.idv == some v)
            (fun d c0 => refreshDevice chenv d x c0) ds c with
        | error e => exact (Except.noConfusion (hr ▸ h))
        | ok q =>
          obtain ⟨ds', c'⟩ := q
          simp only [hr] at h
          obtain ⟨hlen', hpt'⟩ := exceptMapCount_pointwise _ _ ds c ds' c' hr
          have hdfact : ∀ (k : Nat) (d : Device), ds[k]? = some d →
              ∃ d', ds'[k]? = some d' ∧ d'.idv = d.idv ∧
                ((d' = d ∧ d.idv ≠ some v) ∨
                 (d.idv = some v ∧ StableDev chenv d' x)) := by
            intro k d hdk
            obtain ⟨d', hd'k, hdisj⟩ := hpt' k d hdk
            rcases hdisj with ⟨hpf, he⟩ | ⟨hpt2, c₀, c₁, href⟩
            · refine ⟨d', hd'k, by rw [he], Or.inl ⟨he, ?_⟩⟩
              intro hdv
              rw [hdv] at hpf
              simp at hpf
            · have hdi : d.idv = some v := by simpa using hpt2
              rcases hi1d d (List.getElem?_mem hdk) x hmem
                  (by rw [hdi, hsv]) with hwfd | hstabd
              · obtain ⟨_, hid', hstab'⟩ := refreshDevice_master chenv henv
                  d x c₀ d' c₁ hwfx hwfd href
                refine ⟨d', hd'k, by rw [hid', hsv, hdi], Or.inr ⟨hdi, hstab'⟩⟩
              · have hq := hstabd c₀
                rw [href] at hq
                injection hq with hq
                injection hq with hq1 hq2
                exact ⟨d', hd'k, by rw [hq1],
                  Or.inr ⟨hdi, hq1.symm ▸ hstabd⟩⟩
          have hdmem : ∀ d' ∈ ds', ∃ (k : Nat) (d : Device),
              ds[k]? = some d ∧ ds'[k]? = some d' := by
            intro d' hd'
            obtain ⟨k, hk⟩ := List.mem_iff_getElem?.mp hd'
            have hklt : k < ds'.length := (List.getElem?_eq_some_iff.mp hk).1
            have hklt2 : k < ds.length := by rw [← hlen']; exact hklt
            obtain ⟨d, hd⟩ := getElem?_some_of_lt ds k hklt2
            exact ⟨k, d, hd, hk⟩
          have hi1d' : ∀ d' ∈ ds', ∀ y ∈ deviceChildren cs,
              d'.idv = sidOf y → (entWFDev d' ∨ StableDev chenv d' y) := by
            intro d' hd' y hy hdy
            obtain ⟨k, d, hd, hk⟩ := hdmem d' hd'
            obtain ⟨d'', hd'', hid'', hdisj''⟩ := hdfact k d hd
            rw [hk] at hd''
            injection hd'' with hd''
            rcases hdisj'' with ⟨he, _⟩ | ⟨hdi, hstab''⟩
            · rw [hd'', he] at hdy ⊢
              exact hi1d d (List.getElem?_mem hd) y (hsubd y hy) hdy
            · refine absurd ?_ hxnotin
              rw [hsv, ← hdi, ← hid'', ← hd'', hdy]
              exact List.mem_map.mpr ⟨y, hy, rfl⟩
          have hi2d' : ∀ d' ∈ ds', d'.idv ∈ deviceids ∨
              d'.idv ∉ didsOf cs := by
            intro d' hd'
            obtain ⟨k, d, hd, hk⟩ := hdmem d' hd'
            obtain ⟨d'', hd'', hid'', _⟩ := hdfact k d hd
            rw [hk] at hd''
            injection hd'' with hd''
            rw [hd'', hid'']
            exact hi2dw d (List.getElem?_mem hd)
          obtain ⟨ha1, hnd1, hng1, hdlen, hglen, hdpt, hdbuilt, hdpres,
              hgpt, hgbuilt, hgpres⟩ :=
            ih a gs ds' ag (ad) ng (nd ++ [some v]) c' st1 h
              (fun y hy => hwfdev y (hsubd y hy)) hnddr
              (by rw [← hgids]; exact hndg)
              (fun y hy => hgm y (by rw [hgch]; exact hy))
              hi1d'
              (fun g hg y hy hgy => hi1g g hg y (by rw [hgch]; exact hy) hgy)
              hi2d'
              (fun g hg => hgids ▸ hi2g g hg)
          refine ⟨by rw [hw]; exact ha1, ?_, by rw [hgids]; exact hng1,
            ?_, hglen, ?_, ?_, ?_, ?_, ?_, ?_⟩
          · rw [hnd1, hdids, hsv]
            simp [List.append_assoc]
          · rw [hlen'] at hdlen
            exact hdlen
          · intro k d hdk
            obtain ⟨d', hd'k, hid', hdisj'⟩ := hdfact k d hdk
            obtain ⟨dA, hdA, hidA, hdisjA⟩ := hdpt k d' hd'k
            refine ⟨dA, hdA, hidA.trans hid', ?_⟩
            rcases hdisjA with ⟨hAe, hAn⟩ | ⟨y', hy'm, hidy', hstaby'⟩
            · rcases hdisj' with ⟨he, hne⟩ | ⟨hdi, hstab'⟩
              · refine Or.inl ⟨hAe.trans he, ?_⟩
                rw [hdids]
                intro hc
                rcases List.mem_cons.mp hc with hc1 | hc2
                · rw [hsv] at hc1
                  exact hne hc1
                · rw [he] at hAn
                  exact hAn hc2
              · refine Or.inr ⟨x, hmem, ?_, hAe ▸ hstab'⟩
                rw [hAe, hid', hdi, hsv]
            · exact Or.inr ⟨y', hsubd y' hy'm, hidy', hstaby'⟩
          · intro k dA hge hk
            rw [← hlen'] at hge
            obtain ⟨y', hy'm, hidy', hstaby'⟩ := hdbuilt k dA hge hk
            exact ⟨y', hsubd y' hy'm, hidy', hstaby'⟩
          · intro y hy hynot
            rw [deviceChildren_cons_device x cs heq] at hy
            rcases List.mem_cons.mp hy with hye | hym
            · subst hye
              rw [hsv] at hynot
              exact absurd hin hynot
            · exact hdpres y hym hynot
          · intro k g hgk
            obtain ⟨gA, hgA, hidA, hdisjA⟩ := hgpt k g hgk
            refine ⟨gA, hgA, hidA, ?_⟩
            rcases hdisjA with ⟨hAe, hAn⟩ | ⟨y', hy'm, hidy', hstaby'⟩
            · exact Or.inl ⟨hAe, by rw [hgids]; exact hAn⟩
            · refine Or.inr ⟨y', ?_, hidy', hstaby'⟩
              rw [hgch]
              exact hy'm
          · intro k gA hge hk
            obtain ⟨y', hy'm, hidy', hstaby'⟩ := hgbuilt k gA hge hk
            refine ⟨y', ?_, hidy', hstaby'⟩
            rw [hgch]
            exact hy'm
          · intro y hy hynot
            rw [hgch] at hy
            exact hgpres y hy hynot
      · rw [if_neg hin] at h
        rcases hbb : buildDevice x c with ⟨bd, bc⟩
        simp only [hbb] at h
        have hmx := buildDevice_master chenv henv x c hwfx
        rw [hbb] at hmx
        simp only at hmx
        obtain ⟨hbtok, hbid, hbstab⟩ := hmx
        have hi1dE : ∀ d ∈ ds ++ [bd], ∀ y ∈ deviceChildren cs,
            d.idv = sidOf y → (entWFDev d ∨ StableDev chenv d y) := by
          intro d hd y hy hdy
          rcases List.mem_append.mp hd with hl | hrr
          · exact hi1d d hl y (hsubd y hy) hdy
          · rw [List.mem_singleton] at hrr
            refine absurd ?_ hxnotin
            rw [← hbid, ← hrr, hdy]
            exact List.mem_map.mpr ⟨y, hy, rfl⟩
        have hi2dE : ∀ d ∈ ds ++ [bd], d.idv ∈ deviceids ∨
            d.idv ∉ didsOf cs := by
          intro d hd
          rcases List.mem_append.mp hd with hl | hrr
          · exact hi2dw d hl
          · rw [List.mem_singleton] at hrr
            rw [hrr, hbid]
            exact Or.inr hxnotin
        obtain ⟨ha1, hnd1, hng1, hdlen, hglen, hdpt, hdbuilt, hdpres,
            hgpt, hgbuilt, hgpres⟩ :=
          ih a gs (ds ++ [bd]) ag (ad ++ [bd.tok]) ng (nd ++ [some v]) bc
            st1 h
            (fun y hy => hwfdev y (hsubd y hy)) hnddr
            (by rw [← hgids]; exact hndg)
            (fun y hy => hgm y (by rw [hgch]; exact hy))
            hi1dE
            (fun g hg y hy hgy => hi1g g hg y (by rw [hgch]; exact hy) hgy)
            hi2dE
            (fun g hg => hgids ▸ hi2g g hg)
        have happk : ∀ (k : Nat) (d : Device), ds[k]? = some d →
            (ds ++ [bd])[k]? = some d := by
          intro k d hdk
          have hklt : k < ds.length := (List.getElem?_eq_some_iff.mp hdk).1
          rw [List.getElem?_append, if_pos hklt]
          exact hdk
        have hlenE : (ds ++ [bd]).length = ds.length + 1 := by simp
        have hbdk : (ds ++ [bd])[ds.length]? = some bd := by
          rw [List.getElem?_append_right (le_refl _)]
          simp
        refine ⟨by rw [hw]; exact ha1, ?_, by rw [hgids]; exact hng1,
          ?_, hglen, ?_, ?_, ?_, ?_, ?_, ?_⟩
        · rw [hnd1, hdids, hsv]
          simp [List.append_assoc]
        · calc ds.length ≤ (ds ++ [bd]).length := by simp
            _ ≤ st1.devices.length := hdlen
        · intro k d hdk
          obtain ⟨dA, hdA, hidA, hdisjA⟩ := hdpt k d (happk k d hdk)
          refine ⟨dA, hdA, hidA, ?_⟩
          rcases hdisjA with ⟨hAe, hAn⟩ | ⟨y', hy'm, hidy', hstaby'⟩
          · refine Or.inl ⟨hAe, ?_⟩
            rw [hdids]
            intro hc
            rcases List.mem_cons.mp hc with hc1 | hc2
            · rcases hi2d d (List.getElem?_mem hdk) with hl | hrr
              · rw [hc1, hsv] at hl
                exact hin hl
              · rw [hdids] at hrr
                exact hrr (List.mem_cons.mpr (Or.inl hc1))
            · exact hAn hc2
          · exact Or.inr ⟨y', hsubd y' hy'm, hidy', hstaby'⟩
        · intro k dA hge hk
          rcases Nat.lt_or_ge k (ds.length + 1) with hlt | hge2
          · have hkeq : k = ds.length :=
              Nat.le_antisymm (Nat.lt_succ_iff.mp hlt) hge
            subst hkeq
            obtain ⟨dA', hdA', hidA', hdisjA'⟩ := hdpt ds.length bd hbdk
            rw [hk] at hdA'
            injection hdA' with hdA'
            rw [← hdA'] at hidA' hdisjA'
            rcases hdisjA' with ⟨hAe, _⟩ | ⟨y', hy'm, hidy', hstaby'⟩
            · refine ⟨x, hmem, ?_, hAe ▸ hbstab⟩
              rw [hAe, hbid]
            · exact ⟨y', hsubd y' hy'm, hidy', hstaby'⟩
          · obtain ⟨y', hy'm, hidy', hstaby'⟩ :=
              hdbuilt k dA (by rw [hlenE]; exact hge2) hk
            exact ⟨y', hsubd y' hy'm, hidy', hstaby'⟩
        · intro y hy hynot
          rw [deviceChildren_cons_device x cs heq] at hy
          rcases List.mem_cons.mp hy with hye | hym
          · subst hye
            obtain ⟨dA, hdA, hidA, _⟩ := hdpt ds.length bd hbdk
            exact ⟨dA, List.getElem?_mem hdA, by rw [hidA, hbid]⟩
          · exact hdpres y hym hynot
        · intro k g hgk
          obtain ⟨gA, hgA, hidA, hdisjA⟩ := hgpt k g hgk
          refine ⟨gA, hgA, hidA, ?_⟩
          rcases hdisjA with ⟨hAe, hAn⟩ | ⟨y', hy'm, hidy', hstaby'⟩
          · exact Or.inl ⟨hAe, by rw [hgids]; exact hAn⟩
          · refine Or.inr ⟨y', ?_, hidy', hstaby'⟩
            rw [hgch]
            exact hy'm
        · intro k gA hge hk
          obtain ⟨y', hy'm, hidy', hstaby'⟩ := hgbuilt k gA hge hk
          refine ⟨y', ?_, hidy', hstaby'⟩
          rw [hgch]
          exact hy'm
        · intro y hy hynot
          rw [hgch] at hy
          exact hgpres y hy hynot
    · -- `<group>` child
      rename_i heq
      have hxnd : xname x ≠ some "device" := by
        rw [heq]
        intro hc
        injection hc with hc
        exact absurd hc (by decide)
      have hmem : x ∈ groupChildren (x :: cs) := by
        rw [groupChildren_cons_group x cs heq]
        simp
      have hsubg : ∀ y, y ∈ groupChildren cs →
          y ∈ groupChildren (x :: cs) := by
        intro y hy
        rw [groupChildren_cons_group x cs heq]
        exact List.mem_cons_of_mem x hy
      have hdch : deviceChildren (x :: cs) = deviceChildren cs :=
        deviceChildren_cons_other x cs hxnd
      have hdids : didsOf (x :: cs) = didsOf cs := didsOf_cons_other x cs hxnd
      obtain ⟨hwfx, hgrm, hgbm⟩ := hgm x hmem
      obtain ⟨v, hfv, hsv⟩ := wfGrpFrag_id x hwfx
      simp only [hfv] at h
      obtain ⟨hxnotin, hndgr⟩ := nodupB_cons (sidOf x) (gidsOf cs)
        (by rw [← gidsOf_cons_group x cs heq]; exact hndg)
      have hgids := gidsOf_cons_group x cs heq
      have hw : writesOfX ["device", "group"] (x :: cs) =
          writesOfX ["device", "group"] cs := by
        simp [writesOfX, heq, List.contains]
      have hi2gw : ∀ g ∈ gs, g.idv ∈ groupids ∨ g.idv ∉ gidsOf cs := by
        intro g hg
        rcases hi2g g hg with hl | hr
        · exact Or.inl hl
        · refine Or.inr (fun hc => hr ?_)
          rw [hgids]
          exact List.mem_cons_of_mem _ hc
      by_cases hin : (some v : Option String) ∈ groupids
      · rw [if_pos hin] at h
        cases hr : exceptMapCount (fun g => g.idv == some v)
            (fun g c0 => refreshGroup chenv g x c0) gs c with
        | error e => exact (Except.noConfusion (hr ▸ h))
        | ok q =>
          obtain ⟨gs', c'⟩ := q
          simp only [hr] at h
          obtain ⟨hlen', hpt'⟩ := exceptMapCount_pointwise _ _ gs c gs' c' hr
          have hgfact : ∀ (k : Nat) (g : Group), gs[k]? = some g →
              ∃ g', gs'[k]? = some g' ∧ g'.idv = g.idv ∧
                ((g' = g ∧ g.idv ≠ some v) ∨
                 (g.idv = some v ∧ StableGrp chenv g' x)) := by
            intro k g hgk
            obtain ⟨g', hg'k, hdisj⟩ := hpt' k g hgk
            rcases hdisj with ⟨hpf, he⟩ | ⟨hpt2, c₀, c₁, href⟩
            · refine ⟨g', hg'k, by rw [he], Or.inl ⟨he, ?_⟩⟩
              intro hgv
              rw [hgv] at hpf
              simp at hpf
            · have hgi : g.idv = some v := by simpa using hpt2
              rcases hi1g g (List.getElem?_mem hgk) x hmem
                  (by rw [hgi, hsv]) with hwfg | hstabg
              · obtain ⟨hid', hstab'⟩ := hgrm g c₀ g' c₁ hwfg href
                refine ⟨g', hg'k, by rw [hid', hsv, hgi], Or.inr ⟨hgi, hstab'⟩⟩
              · have hq := hstabg c₀
                rw [href] at hq
                injection hq with hq
                injection hq with hq1 hq2
                exact ⟨g', hg'k, by rw [hq1],
                  Or.inr ⟨hgi, hq1.symm ▸ hstabg⟩⟩
          have hgmem : ∀ g' ∈ gs', ∃ (k : Nat) (g : Group),
              gs[k]? = some g ∧ gs'[k]? = some g' := by
            intro g' hg'
            obtain ⟨k, hk⟩ := List.mem_iff_getElem?.mp hg'
            have hklt : k < gs'.length := (List.getElem?_eq_some_iff.mp hk).1
            have hklt2 : k < gs.length := by rw [← hlen']; exact hklt
            obtain ⟨g, hg⟩ := getElem?_some_of_lt gs k hklt2
            exact ⟨k, g, hg, hk⟩
          have hi1g' : ∀ g' ∈ gs', ∀ y ∈ groupChildren cs,
              g'.idv = sidOf y → (entWFG g' = true ∨ StableGrp chenv g' y) := by
            intro g' hg' y hy hgy
            obtain ⟨k, g, hg, hk⟩ := hgmem g' hg'
            obtain ⟨g'', hg'', hid'', hdisj''⟩ := hgfact k g hg
            rw [hk] at hg''
            injection hg'' with hg''
            rcases hdisj'' with ⟨he, _⟩ | ⟨hgi, hstab''⟩
            · rw [hg'', he] at hgy ⊢
              exact hi1g g (List.getElem?_mem hg) y (hsubg y hy) hgy
            · refine absurd ?_ hxnotin
              rw [hsv, ← hgi, ← hid'', ← hg'', hgy]
              exact List.mem_map.mpr ⟨y, hy, rfl⟩
          have hi2g' : ∀ g' ∈ gs', g'.idv ∈ groupids ∨
              g'.idv ∉ gidsOf cs := by
            intro g' hg'
            obtain ⟨k, g, hg, hk⟩ := hgmem g' hg'
            obtain ⟨g'', hg'', hid'', _⟩ := hgfact k g hg
            rw [hk] at hg''
            injection hg'' with hg''
            rw [hg'', hid'']
            exact hi2gw g (List.getElem?_mem hg)
          obtain ⟨ha1, hnd1, hng1, hdlen, hglen, hdpt, hdbuilt, hdpres,
              hgpt, hgbuilt, hgpres⟩ :=
            ih a gs' ds ag ad (ng ++ [some v]) nd c' st1 h
              (fun y hy => hwfdev y (by rw [hdch]; exact hy))
              (by rw [← hdids]; exact hndd) hndgr
              (fun y hy => hgm y (hsubg y hy))
              (fun d hd y hy hdy => hi1d d hd y (by rw [hdch]; exact hy) hdy)
              hi1g'
              (fun d hd => hdids ▸ hi2d d hd)
              hi2g'
          refine ⟨by rw [hw]; exact ha1, by rw [hdids]; exact hnd1, ?_,
            hdlen, ?_, ?_, ?_, ?_, ?_, ?_, ?_⟩
          · rw [hng1, hgids, hsv]
            simp [List.append_assoc]
          · rw [hlen'] at hglen
            exact hglen
          · intro k d hdk
            obtain ⟨dA, hdA, hidA, hdisjA⟩ := hdpt k d hdk
            refine ⟨dA, hdA, hidA, ?_⟩
            rcases hdisjA with ⟨hAe, hAn⟩ | ⟨y', hy'm, hidy', hstaby'⟩
            · exact Or.inl ⟨hAe, by rw [hdids]; exact hAn⟩
            · refine Or.inr ⟨y', ?_, hidy', hstaby'⟩
              rw [hdch]
              exact hy'm
          · intro k dA hge hk
            obtain ⟨y', hy'm, hidy', hstaby'⟩ := hdbuilt k dA hge hk
            refine ⟨y', ?_, hidy', hstaby'⟩
            rw [hdch]
            exact hy'm
          · intro y hy hynot
            rw [hdch] at hy
            exact hdpres y hy hynot
          · intro k g hgk
            obtain ⟨g', hg'k, hid', hdisj'⟩ := hgfact k g hgk
            obtain ⟨gA, hgA, hidA, hdisjA⟩ := hgpt k g' hg'k
            refine ⟨gA, hgA, hidA.trans hid', ?_⟩
            rcases hdisjA with ⟨hAe, hAn⟩ | ⟨y', hy'm, hidy', hstaby'⟩
            · rcases hdisj' with ⟨he, hne⟩ | ⟨hgi, hstab'⟩
              · refine Or.inl ⟨hAe.trans he, ?_⟩
                rw [hgids]
                intro hc
                rcases List.mem_cons.mp hc with hc1 | hc2
                · rw [hsv] at hc1
                  exact hne hc1
                · rw [he] at hAn
                  exact hAn hc2
              · refine Or.inr ⟨x, hmem, ?_, hAe ▸ hstab'⟩
                rw [hAe, hid', hgi, hsv]
            · exact Or.inr ⟨y', hsubg y' hy'm, hidy', hstaby'⟩
          · intro k gA hge hk
            rw [← hlen'] at hge
            obtain ⟨y', hy'm, hidy', hstaby'⟩ := hgbuilt k gA hge hk
            exact ⟨y', hsubg y' hy'm, hidy', hstaby'⟩
          · intro y hy hynot
            rw [groupChildren_cons_group x cs heq] at hy
            rcases List.mem_cons.mp hy with hye | hym
            · subst hye
              rw [hsv] at hynot
              exact absurd hin hynot
            · exact hgpres y hym hynot
      · rw [if_neg hin] at h
        rcases hbb : buildGroup x c with ⟨bg, bc⟩
        simp only [hbb] at h
        have hmx := hgbm c
        rw [hbb] at hmx
        simp only at hmx
        obtain ⟨hbid, hbstab⟩ := hmx
        have hi1gE : ∀ g ∈ gs ++ [bg], ∀ y ∈ groupChildren cs,
            g.idv = sidOf y → (entWFG g = true ∨ StableGrp chenv g y) := by
          intro g hg y hy hgy
          rcases List.mem_append.mp hg with hl | hrr
          · exact hi1g g hl y (hsubg y hy) hgy
          · rw [List.mem_singleton] at hrr
            refine absurd ?_ hxnotin
            rw [← hbid, ← hrr, hgy]
            exact List.mem_map.mpr ⟨y, hy, rfl⟩
        have hi2gE : ∀ g ∈ gs ++ [bg], g.idv ∈ groupids ∨
            g.idv ∉ gidsOf cs := by
          intro g hg
          rcases List.mem_append.mp hg with hl | hrr
          · exact hi2gw g hl
          · rw [List.mem_singleton] at hrr
            rw [hrr, hbid]
            exact Or.inr hxnotin
        obtain ⟨ha1, hnd1, hng1, hdlen, hglen, hdpt, hdbuilt, hdpres,
            hgpt, hgbuilt, hgpres⟩ :=
          ih a (gs ++ [bg]) ds (ag ++ [bg.tok]) ad (ng ++ [some v]) nd bc
            st1 h
            (fun y hy => hwfdev y (by rw [hdch]; exact hy))
            (by rw [← hdids]; exact hndd) hndgr
            (fun y hy => hgm y (hsubg y hy))
            (fun d hd y hy hdy => hi1d d hd y (by rw [hdch]; exact hy) hdy)
            hi1gE
            (fun d hd => hdids ▸ hi2d d hd)
            hi2gE
        have happk : ∀ (k : Nat) (g : Group), gs[k]? = some g →
            (gs ++ [bg])[k]? = some g := by
          intro k g hgk
          have hklt : k < gs.length := (List.getElem?_eq_some_iff.mp hgk).1
          rw [List.getElem?_append, if_pos hklt]
          exact hgk
        have hlenE : (gs ++ [bg]).length = gs.length + 1 := by simp
        have hbgk : (gs ++ [bg])[gs.length]? = some bg := by
          rw [List.getElem?_append_right (le_refl _)]
          simp
        refine ⟨by rw [hw]; exact ha1, by rw [hdids]; exact hnd1, ?_,
          hdlen, ?_, ?_, ?_, ?_, ?_, ?_, ?_⟩
        · rw [hng1, hgids, hsv]
          simp [List.append_assoc]
        · calc gs.length ≤ (gs ++ [bg]).length := by simp
            _ ≤ st1.groups.length := hglen
        · intro k d hdk
          obtain ⟨dA, hdA, hidA, hdisjA⟩ := hdpt k d hdk
          refine ⟨dA, hdA, hidA, ?_⟩
          rcases hdisjA with ⟨hAe, hAn⟩ | ⟨y', hy'm, hidy', hstaby'⟩
          · exact Or.inl ⟨hAe, by rw [hdids]; exact hAn⟩
          · refine Or.inr ⟨y', ?_, hidy', hstaby'⟩
            rw [hdch]
            exact hy'm
        · intro k dA hge hk
          obtain ⟨y', hy'm, hidy', hstaby'⟩ := hdbuilt k dA hge hk
          refine ⟨y', ?_, hidy', hstaby'⟩
          rw [hdch]
          exact hy'm
        · intro y hy hynot
          rw [hdch] at hy
          exact hdpres y hy hynot
        · intro k g hgk
          obtain ⟨gA, hgA, hidA, hdisjA⟩ := hgpt k g (happk k g hgk)
          refine ⟨gA, hgA, hidA, ?_⟩
          rcases hdisjA with ⟨hAe, hAn⟩ | ⟨y', hy'm, hidy', hstaby'⟩
          · refine Or.inl ⟨hAe, ?_⟩
            rw [hgids]
            intro hc
            rcases List.mem_cons.mp hc with hc1 | hc2
            · rcases hi2g g (List.getElem?_mem hgk) with hl | hrr
              · rw [hc1, hsv] at hl
                exact hin hl
              · rw [hgids] at hrr
                exact hrr (List.mem_cons.mpr (Or.inl hc1))
            · exact hAn hc2
          · exact Or.inr ⟨y', hsubg y' hy'm, hidy', hstaby'⟩
        · intro k gA hge hk
          rcases Nat.lt_or_ge k (gs.length + 1) with hlt | hge2
          · have hkeq : k = gs.length :=
              Nat.le_antisymm (Nat.lt_succ_iff.mp hlt) hge
            subst hkeq
            obtain ⟨gA', hgA', hidA', hdisjA'⟩ := hgpt gs.length bg hbgk
            rw [hk] at hgA'
            injection hgA' with hgA'
            rw [← hgA'] at hidA' hdisjA'
            rcases hdisjA' with ⟨hAe, _⟩ | ⟨y', hy'm, hidy', hstaby'⟩
            · refine ⟨x, hmem, ?_, hAe ▸ hbstab⟩
              rw [hAe, hbid]
            · exact ⟨y', hsubg y' hy'm, hidy', hstaby'⟩
          · obtain ⟨y', hy'm, hidy', hstaby'⟩ :=
              hgbuilt k gA (by rw [hlenE]; exact hge2) hk
            exact ⟨y', hsubg y' hy'm, hidy', hstaby'⟩
        · intro y hy hynot
          rw [groupChildren_cons_group x cs heq] at hy
          rcases List.mem_cons.mp hy with hye | hym
          · subst hye
            obtain ⟨gA, hgA, hidA, _⟩ := hgpt gs.length bg hbgk
            exact ⟨gA, List.getElem?_mem hgA, by rw [hidA, hbid]⟩
          · exact hgpres y hym hynot
    · -- scalar child
      rename_i n hpat1 hpat2 heq
      have hxnd : xname x ≠ some "device" := by
        rw [heq]
        intro hc
        injection hc with hc
        exact hpat1 hc
      have hxng : xname x ≠ some "group" := by
        rw [heq]
        intro hc
        injection hc with hc
        exact hpat2 hc
      have hdch := deviceChildren_cons_other x cs hxnd
      have hgch := groupChildren_cons_other x cs hxng
      have hdids := didsOf_cons_other x cs hxnd
      have hgids := gidsOf_cons_other x cs hxng
      obtain ⟨ha1, hnd1, hng1, hdlen, hglen, hdpt, hdbuilt, hdpres,
          hgpt, hgbuilt, hgpres⟩ :=
        ih (setA n ((xstring x).getD "") a) gs ds ag ad ng nd c st1 h
          (fun y hy => hwfdev y (by rw [hdch]; exact hy))
          (by rw [← hdids]; exact hndd)
          (by rw [← hgids]; exact hndg)
          (fun y hy => hgm y (by rw [hgch]; exact hy))
          (fun d hd y hy hdy => hi1d d hd y (by rw [hdch]; exact hy) hdy)
          (fun g hg y hy hgy => hi1g g hg y (by rw [hgch]; exact hy) hgy)
          (fun d hd => hdids ▸ hi2d d hd)
          (fun g hg => hgids ▸ hi2g g hg)
      have hne1 : n ≠ "device" := fun hc => hpat1 hc
      have hne2 : n ≠ "group" := fun hc => hpat2 hc
      have hwcons : writesOfX ["device", "group"] (x :: cs) =
          (n, (xstring x).getD "") :: writesOfX ["device", "group"] cs := by
        simp [writesOfX, heq, hne1, hne2]
      refine ⟨?_, by rw [hdids]; exact hnd1, by rw [hgids]; exact hng1,
        hdlen, hglen, ?_, ?_, ?_, ?_, ?_, ?_⟩
      · rw [hwcons, ha1]
        rfl
      · intro k d hdk
        obtain ⟨dA, hdA, hidA, hdisjA⟩ := hdpt k d hdk
        refine ⟨dA, hdA, hidA, ?_⟩
        rcases hdisjA with ⟨hAe, hAn⟩ | ⟨y', hy'm, hidy', hstaby'⟩
        · exact Or.inl ⟨hAe, by rw [hdids]; exact hAn⟩
        · refine Or.inr ⟨y', ?_, hidy', hstaby'⟩
          rw [hdch]
          exact hy'm
      · intro k dA hge hk
        obtain ⟨y', hy'm, hidy', hstaby'⟩ := hdbuilt k dA hge hk
        refine ⟨y', ?_, hidy', hstaby'⟩
        rw [hdch]
        exact hy'm
      · intro y hy hynot
        rw [hdch] at hy
        exact hdpres y hy hynot
      · intro k g hgk
        obtain ⟨gA, hgA, hidA, hdisjA⟩ := hgpt k g hgk
        refine ⟨gA, hgA, hidA, ?_⟩
        rcases hdisjA with ⟨hAe, hAn⟩ | ⟨y', hy'm, hidy', hstaby'⟩
        · exact Or.inl ⟨hAe, by rw [hgids]; exact hAn⟩
        · refine Or.inr ⟨y', ?_, hidy', hstaby'⟩
          rw [hgch]
          exact hy'm
      · intro k gA hge hk
        obtain ⟨y', hy'm, hidy', hstaby'⟩ := hgbuilt k gA hge hk
        refine ⟨y', ?_, hidy', hstaby'⟩
        rw [hgch]
        exact hy'm
      · intro y hy hynot
        rw [hgch] at hy
        exact hgpres y hy hynot
    · -- text child
      rename_i heq
      have hxnd : xname x ≠ some "device" := by
        rw [heq]
        intro hc
        cases hc
      have hxng : xname x ≠ some "group" := by
        rw [heq]
        intro hc
        cases hc
      have hdch := deviceChildren_cons_other x cs hxnd
      have hgch := groupChildren_cons_other x cs hxng
      have hdids := didsOf_cons_other x cs hxnd
      have hgids := gidsOf_cons_other x cs hxng
      obtain ⟨ha1, hnd1, hng1, hdlen, hglen, hdpt, hdbuilt, hdpres,
          hgpt, hgbuilt, hgpres⟩ :=
        ih a gs ds ag ad ng nd c st1 h
          (fun y hy => hwfdev y (by rw [hdch]; exact hy))
          (by rw [← hdids]; exact hndd)
          (by rw [← hgids]; exact hndg)
          (fun y hy => hgm y (by rw [hgch]; exact hy))
          (fun d hd y hy hdy => hi1d d hd y (by rw [hdch]; exact hy) hdy)
          (fun g hg y hy hgy => hi1g g hg y (by rw [hgch]; exact hy) hgy)
          (fun d hd => hdids ▸ hi2d d hd)
          (fun g hg => hgids ▸ hi2g g hg)
      have hwcons : writesOfX ["device", "group"] (x :: cs) =
          writesOfX ["device", "group"] cs := by
        simp [writesOfX, heq]
      refine ⟨?_, by rw [hdids]; exact hnd1, by rw [hgids]; exact hng1,
        hdlen, hglen, ?_, ?_, ?_, ?_, ?_, ?_⟩
      · rw [hwcons]
        exact ha1
      · intro k d hdk
        obtain ⟨dA, hdA, hidA, hdisjA⟩ := hdpt k d hdk
        refine ⟨dA, hdA, hidA, ?_⟩
        rcases hdisjA with ⟨hAe, hAn⟩ | ⟨y', hy'm, hidy', hstaby'⟩
        · exact Or.inl ⟨hAe, by rw [hdids]; exact hAn⟩
        · refine Or.inr ⟨y', ?_, hidy', hstaby'⟩
          rw [hdch]
          exact hy'm
      · intro k dA hge hk
        obtain ⟨y', hy'm, hidy', hstaby'⟩ := hdbuilt k dA hge hk
        refine ⟨y', ?_, hidy', hstaby'⟩
        rw [hdch]
        exact hy'm
      · intro y hy hynot
        rw [hdch] at hy
        exact hdpres y hy hynot
      · intro k g hgk
        obtain ⟨gA, hgA, hidA, hdisjA⟩ := hgpt k g hgk
        refine ⟨gA, hgA, hidA, ?_⟩
        rcases hdisjA with ⟨hAe, hAn⟩ | ⟨y', hy'm, hidy', hstaby'⟩
        · exact Or.inl ⟨hAe, by rw [hgids]; exact hAn⟩
        · refine Or.inr ⟨y', ?_, hidy', hstaby'⟩
          rw [hgch]
          exact hy'm
      · intro k gA hge hk
        obtain ⟨y', hy'm, hidy', hstaby'⟩ := hgbuilt k gA hge hk
        refine ⟨y', ?_, hidy', hstaby'⟩
        rw [hgch]
        exact hy'm
      · intro y hy hynot
        rw [hgch] at hy
        exact hgpres y hy hynot

/-- Forward analysis of the child loop of `Group.initialize`: scalar
writes accumulate, previously built children keep their positions, every
appended child is freshly built from a fragment child (with its id and a
stable state), and every `<device>`/`<group>` fragment child yields a
child object. Subgroup construction behaviour is again a hypothesis for
the outer induction on fragment size. -/
theorem buildGroupLoop_facts (chenv : Option String → XNode)
    (henv : wfChanEnv chenv) :
    ∀ (cs : List XNode) (a : Attrs) (gs : List Group) (ds : List Device)
      (ag ad : List Nat) (c : Nat) (st1 : GBuildSt),
      buildGroupLoop cs ⟨a, gs, ds, ag, ad, c⟩ = st1 →
      (∀ x ∈ deviceChildren cs, wfDevFrag x = true) →
      (∀ y ∈ groupChildren cs,
        wfGrpFrag y = true ∧
        (∀ (g : Group) (c0 : Nat) (g1 : Group) (c1 : Nat),
          entWFG g = true → refreshGroup chenv g y c0 = .ok (g1, c1) →
          g1.idv = sidOf y ∧ StableGrp chenv g1 y) ∧
        (∀ c0 : Nat, (buildGroup y c0).1.idv = sidOf y ∧
          StableGrp chenv (buildGroup y c0).1 y)) →
      st1.attrs = applyW (writesOfX ["device", "group"] cs) a ∧
      (∀ (k : Nat) (d : Device), ds[k]? = some d →
        st1.devices[k]? = some d) ∧
      (∀ (k : Nat) (dA : Device), ds.length ≤ k →
        st1.devices[k]? = some dA →
        ∃ x, x ∈ deviceChildren cs ∧ dA.idv = sidOf x ∧
          StableDev chenv dA x) ∧
      (∀ x ∈ deviceChildren cs, ∃ d' ∈ st1.devices, d'.idv = sidOf x) ∧
      (∀ (k : Nat) (g : Group), gs[k]? = some g →
        st1.groups[k]? = some g) ∧
      (∀ (k : Nat) (gA : Group), gs.length ≤ k →
        st1.groups[k]? = some gA →
        ∃ y, y ∈ groupChildren cs ∧ gA.idv = sidOf y ∧
          StableGrp chenv gA y) ∧
      (∀ y ∈ groupChildren cs, ∃ g' ∈ st1.groups, g'.idv = sidOf y) := by
  intro cs
  induction cs with
  | nil =>
    intro a gs ds ag ad c st1 h _ _
    rw [buildGroupLoop] at h
    subst h
    refine ⟨rfl, fun k d hk => hk, ?_, ?_, fun k g hk => hk, ?_, ?_⟩
    · intro k dA hge hk
      rw [List.getElem?_eq_none hge] at hk
      cases hk
    · intro y hy
      simp [deviceChildren] at hy
    · intro k gA hge hk
      rw [List.getElem?_eq_none hge] at hk
      cases hk
    · intro y hy
      simp [groupChildren] at hy
  | cons x cs ih =>
    intro a gs ds ag ad c st1 h hwfdev hgm
    rw [buildGroupLoop] at h
    split at h
    · -- `<device>` child
      rename_i heq
      have hxng : xname x ≠ some "group" := by
        rw [heq]
        intro hc
        injection hc with hc
        exact absurd hc (by decide)
      have hmem : x ∈ deviceChildren (x :: cs) := by
        rw [deviceChildren_cons_device x cs heq]
        simp
      have hsubd : ∀ y, y ∈ deviceChildren cs →
          y ∈ deviceChildren (x :: cs) := by
        intro y hy
        rw [deviceChildren_cons_device x cs heq]
        exact List.mem_cons_of_mem x hy
      have hgch : groupChildren (x :: cs) = groupChildren cs :=
        groupChildren_cons_other x cs hxng
      have hwfx := hwfdev x hmem
      have hw : writesOfX ["device", "group"] (x :: cs) =
          writesOfX ["device", "group"] cs := by
        simp [writesOfX, heq, List.contains]
      rcases hbb : buildDevice x c with ⟨bd, bc⟩
      simp only [hbb] at h
      have hmx := buildDevice_master chenv henv x c hwfx
      rw [hbb] at hmx
      simp only at hmx
      obtain ⟨hbtok, hbid, hbstab⟩ := hmx
      obtain ⟨ha1, hdpt, hdbuilt, hdpres, hgpt, hgbuilt, hgpres⟩ :=
        ih a gs (ds ++ [bd]) ag (ad ++ [bd.tok]) bc st1 h
          (fun y hy => hwfdev y (hsubd y hy))
          (fun y hy => hgm y (by rw [hgch]; exact hy))
      have hbdk : (ds ++ [bd])[ds.length]? = some bd := by
        rw [List.getElem?_append_right (le_refl _)]
        simp
      refine ⟨by rw [hw]; exact ha1, ?_, ?_, ?_, hgpt, ?_, ?_⟩
      · intro k d hk
        refine hdpt k d ?_
        have hklt : k < ds.length := (List.getElem?_eq_some_iff.mp hk).1
        rw [List.getElem?_append, if_pos hklt]
        exact hk
      · intro k dA hge hk
        rcases Nat.lt_or_ge k (ds.length + 1) with hlt | hge2
        · have hkeq : k = ds.length :=
            Nat.le_antisymm (Nat.lt_succ_iff.mp hlt) hge
          subst hkeq
          have hst := hdpt ds.length bd hbdk
          rw [hk] at hst
          injection hst with hst
          rw [hst]
          exact ⟨x, hmem, hbid, hbstab⟩
        · obtain ⟨x', hx'm, hidx', hstabx'⟩ :=
            hdbuilt k dA (by rw [List.length_append]; exact hge2) hk
          exact ⟨x', hsubd x' hx'm, hidx', hstabx'⟩
      · intro y hy
        rw [deviceChildren_cons_device x cs heq] at hy
        rcases List.mem_cons.mp hy with hye | hym
        · subst hye
          have hst := hdpt ds.length bd hbdk
          exact ⟨bd, List.getElem?_mem hst, hbid⟩
        · exact hdpres y hym
      · intro k gA hge hk
        obtain ⟨y', hy'm, hidy', hstaby'⟩ := hgbuilt k gA hge hk
        refine ⟨y', ?_, hidy', hstaby'⟩
        rw [hgch]
        exact hy'm
      · intro y hy
        rw [hgch] at hy
        exact hgpres y hy
    · -- `<group>` child
      rename_i heq
      have hxnd : xname x ≠ some "device" := by
        rw [heq]
        intro hc
        injection hc with hc
        exact absurd hc (by decide)
      have hmem : x ∈ groupChildren (x :: cs) := by
        rw [groupChildren_cons_group x cs heq]
        simp
      have hsubg : ∀ y, y ∈ groupChildren cs →
          y ∈ groupChildren (x :: cs) := by
        intro y hy
        rw [groupChildren_cons_group x cs heq]
        exact List.mem_cons_of_mem x hy
      have hdch : deviceChildren (x :: cs) = deviceChildren cs :=
        deviceChildren_cons_other x cs hxnd
      have hw : writesOfX ["device", "group"] (x :: cs) =
          writesOfX ["device", "group"] cs := by
        simp [writesOfX, heq, List.contains]
      rcases hbb : buildGroup x c with ⟨bg, bc⟩
      simp only [hbb] at h
      have hmx := (hgm x hmem).2.2 c
      rw [hbb] at hmx
      simp only at hmx
      obtain ⟨hbid, hbstab⟩ := hmx
      obtain ⟨ha1, hdpt, hdbuilt, hdpres, hgpt, hgbuilt, hgpres⟩ :=
        ih a (gs ++ [bg]) ds (ag ++ [bg.tok]) ad bc st1 h
          (fun y hy => hwfdev y (by rw [hdch]; exact hy))
          (fun y hy => hgm y (hsubg y hy))
      have hbgk : (gs ++ [bg])[gs.length]? = some bg := by
        rw [List.getElem?_append_right (le_refl _)]
        simp
      refine ⟨by rw [hw]; exact ha1, hdpt, ?_, ?_, ?_, ?_, ?_⟩
      · intro k dA hge hk
        obtain ⟨x', hx'm, hidx', hstabx'⟩ := hdbuilt k dA hge hk
        refine ⟨x', ?_, hidx', hstabx'⟩
        rw [hdch]
        exact hx'm
      · intro y hy
        rw [hdch] at hy
        exact hdpres y hy
      · intro k g hk
        refine hgpt k g ?_
        have hklt : k < gs.length := (List.getElem?_eq_some_iff.mp hk).1
        rw [List.getElem?_append, if_pos hklt]
        exact hk
      · intro k gA hge hk
        rcases Nat.lt_or_ge k (gs.length + 1) with hlt | hge2
        · have hkeq : k = gs.length :=
            Nat.le_antisymm (Nat.lt_succ_iff.mp hlt) hge
          subst hkeq
          have hst := hgpt gs.length bg hbgk
          rw [hk] at hst
          injection hst with hst
          rw [hst]
          exact ⟨x, hmem, hbid, hbstab⟩
        · obtain ⟨y', hy'm, hidy', hstaby'⟩ :=
            hgbuilt k gA (by rw [List.length_append]; exact hge2) hk
          exact ⟨y', hsubg y' hy'm, hidy', hstaby'⟩
      · intro y hy
        rw [groupChildren_cons_group x cs heq] at hy
        rcases List.mem_cons.mp hy with hye | hym
        · subst hye
          have hst := hgpt gs.length bg hbgk
          exact ⟨bg, List.getElem?_mem hst, hbid⟩
        · exact hgpres y hym
    · -- scalar child
      rename_i n hpat1 hpat2 heq
      have hxnd : xname x ≠ some "device" := by
        rw [heq]
        intro hc
        injection hc with hc
        exact hpat1 hc
      have hxng : xname x ≠ some "group" := by
        rw [heq]
        intro hc
        injection hc with hc
        exact hpat2 hc
      have hdch := deviceChildren_cons_other x cs hxnd
      have hgch := groupChildren_cons_other x cs hxng
      have hne1 : n ≠ "device" := fun hc => hpat1 hc
      have hne2 : n ≠ "group" := fun hc => hpat2 hc
      have hwcons : writesOfX ["device", "group"] (x :: cs) =
          (n, (xstring x).getD "") :: writesOfX ["device", "group"] cs := by
        simp [writesOfX, heq, hne1, hne2]
      obtain ⟨ha1, hdpt, hdbuilt, hdpres, hgpt, hgbuilt, hgpres⟩ :=
        ih (setA n ((xstring x).getD "") a) gs ds ag ad c st1 h
          (fun y hy => hwfdev y (by rw [hdch]; exact hy))
          (fun y hy => hgm y (by rw [hgch]; exact hy))
      refine ⟨?_, hdpt, ?_, ?_, hgpt, ?_, ?_⟩
      · rw [hwcons, ha1]
        rfl
      · intro k dA hge hk
        obtain ⟨x', hx'm, hidx', hstabx'⟩ := hdbuilt k dA hge hk
        refine ⟨x', ?_, hidx', hstabx'⟩
        rw [hdch]
        exact hx'm
      · intro y hy
        rw [hdch] at hy
        exact hdpres y hy
      · intro k gA hge hk
        obtain ⟨y', hy'm, hidy', hstaby'⟩ := hgbuilt k gA hge hk
        refine ⟨y', ?_, hidy', hstaby'⟩
        rw [hgch]
        exact hy'm
      · intro y hy
        rw [hgch] at hy
        exact hgpres y hy
    · -- text child
      rename_i heq
      have hxnd : xname x ≠ some "device" := by
        rw [heq]
        intro hc
        cases hc
      have hxng : xname x ≠ some "group" := by
        rw [heq]
        intro hc
        cases hc
      have hdch := deviceChildren_cons_other x cs hxnd
      have hgch := groupChildren_cons_other x cs hxng
      have hw : writesOfX ["device", "group"] (x :: cs) =
          writesOfX ["device", "group"] cs := by
        simp [writesOfX, heq]
      obtain ⟨ha1, hdpt, hdbuilt, hdpres, hgpt, hgbuilt, hgpres⟩ :=
        ih a gs ds ag ad c st1 h
          (fun y hy => hwfdev y (by rw [hdch]; exact hy))
          (fun y hy => hgm y (by rw [hgch]; exact hy))
      refine ⟨by rw [hw]; exact ha1, hdpt, ?_, ?_, hgpt, ?_, ?_⟩
      · intro k dA hge hk
        obtain ⟨x', hx'm, hidx', hstabx'⟩ := hdbuilt k dA hge hk
        refine ⟨x', ?_, hidx', hstabx'⟩
        rw [hdch]
        exact hx'm
      · intro y hy
        rw [hdch] at hy
        exact hdpres y hy
      · intro k gA hge hk
        obtain ⟨y', hy'm, hidy', hstaby'⟩ := hgbuilt k gA hge hk
        refine ⟨y', ?_, hidy', hstaby'⟩
        rw [hgch]
        exact hy'm
      · intro y hy
        rw [hgch] at hy
        exact hgpres y hy

/-- Master lemma for `Group.refresh` and `Group.initialize`, by strong
induction on fragment size: refreshing any well-formed group state against
a well-formed fragment produces a state keyed by the fragment id on which
refreshing the same fragment again is the identity, and a freshly built
group is likewise keyed and stable. -/
theorem refreshGroup_master_aux (chenv : Option String → XNode)
    (henv : wfChanEnv chenv) :
    ∀ (n : Nat) (frag : XNode), sizeOf frag ≤ n → wfGrpFrag frag = true →
      (∀ (g : Group) (c0 : Nat) (g1 : Group) (c1 : Nat),
        entWFG g = true → refreshGroup chenv g frag c0 = .ok (g1, c1) →
        g1.idv = sidOf frag ∧ StableGrp chenv g1 frag) ∧
      (∀ c0 : Nat, (buildGroup frag c0).1.idv = sidOf frag ∧
        StableGrp chenv (buildGroup frag c0).1 frag) := by
  intro n
  induction n using Nat.strong_induction_on with
  | _ n ih =>
  intro frag hsz hwf
  cases frag with
  | text s => simp [wfGrpFrag] at hwf
  | elem t xa cs =>
    obtain ⟨hwfdevs, hwfgrps, hnddids, hndgids, htype, hwfid⟩ :=
      wfGrpFrag_spec t xa cs hwf
    obtain ⟨v, hfv, hlv, hsv⟩ := wfChildId_spec ["device", "group"] _ hwfid
    have hlv' : lastVal (writesOfX ["device", "group"] cs) "id" = some v :=
      hlv
    have hgm : ∀ y ∈ groupChildren cs,
        wfGrpFrag y = true ∧
        (∀ (g : Group) (c0 : Nat) (g1 : Group) (c1 : Nat),
          entWFG g = true → refreshGroup chenv g y c0 = .ok (g1, c1) →
          g1.idv = sidOf y ∧ StableGrp chenv g1 y) ∧
        (∀ c0 : Nat, (buildGroup y c0).1.idv = sidOf y ∧
          StableGrp chenv (buildGroup y c0).1 y) := by
      intro y hy
      have hywf := hwfgrps y hy
      have hy' : y ∈ cs.filter (fun x => xname x == some "group") := hy
      have h1 : sizeOf y < sizeOf cs :=
        List.sizeOf_lt_of_mem (List.mem_of_mem_filter hy')
      have h2 : sizeOf (XNode.elem t xa cs) =
          1 + sizeOf t + sizeOf xa + sizeOf cs := by
        simp [XNode.elem.sizeOf_spec]
      have hylt : sizeOf y < n := by omega
      obtain ⟨hr, hb⟩ := ih (sizeOf y) hylt y (le_refl _) hywf
      exact ⟨hywf, hr, hb⟩
    constructor
    · -- refresh master
      intro g c0 g1 c1 hent h
      cases g with
      | mk gtk ga gb ggs gds gag gad =>
        obtain ⟨hnka, hdev, hnddevids, hgrp, hndgrpids⟩ :=
          entWFG_spec gtk ga gb ggs gds gag gad hent
        simp only [refreshGroup, Group.devices, Group.groups, Group.attrs,
          Group.allgroups, Group.alldevices, Group.tok] at h
        cases hloop : refreshGroupLoop chenv cs (ggs.map Group.idv)
            (gds.map Device.idv) ⟨ga, ggs, gds, gag, gad, [], [], c0⟩ with
        | error e => exact (Except.noConfusion (hloop ▸ h))
        | ok st =>
          obtain ⟨a1, gs1, ds1, ag1, ad1, ng1, nd1, c1'⟩ := st
          simp only [hloop] at h
          obtain ⟨ha1, hnd1, hng1, hdlen, hglen, hdpt, hdbuilt, hdpres,
              hgpt, hgbuilt, hgpres⟩ :=
            refreshGroupLoop_pass1 chenv henv (ggs.map Group.idv)
              (gds.map Device.idv) cs ga ggs gds gag gad [] [] c0
              ⟨a1, gs1, ds1, ag1, ad1, ng1, nd1, c1'⟩ hloop
              hwfdevs hnddids hndgids hgm
              (fun d hd y hy hdy => Or.inl (hdev d hd))
              (fun g0 hg0 y hy hgy => Or.inl (hgrp g0 hg0))
              (fun d hd => Or.inl (List.mem_map.mpr ⟨d, hd, rfl⟩))
              (fun g0 hg0 => Or.inl (List.mem_map.mpr ⟨g0, hg0, rfl⟩))
          have ha1' : a1 = applyW (writesOfX ["device", "group"] cs) ga :=
            ha1
          have hnd1' : nd1 = didsOf cs := hnd1
          have hng1' : ng1 = gidsOf cs := hng1
          have hdpt' : ∀ (k : Nat) (d : Device), gds[k]? = some d → ∃ dA,
              ds1[k]? = some dA ∧ dA.idv = d.idv ∧
              ((dA = d ∧ d.idv ∉ didsOf cs) ∨
               (∃ y, y ∈ deviceChildren cs ∧ dA.idv = sidOf y ∧
                 StableDev chenv dA y)) := hdpt
          have hdbuilt' : ∀ (k : Nat) (dA : Device), gds.length ≤ k →
              ds1[k]? = some dA →
              ∃ y, y ∈ deviceChildren cs ∧ dA.idv = sidOf y ∧
                StableDev chenv dA y := hdbuilt
          have hdpres' : ∀ y ∈ deviceChildren cs,
              sidOf y ∉ gds.map Device.idv →
              ∃ d' ∈ ds1, d'.idv = sidOf y := hdpres
          have hgpt' : ∀ (k : Nat) (g0 : Group), ggs[k]? = some g0 → ∃ gA,
              gs1[k]? = some gA ∧ gA.idv = g0.idv ∧
              ((gA = g0 ∧ g0.idv ∉ gidsOf cs) ∨
               (∃ y, y ∈ groupChildren cs ∧ gA.idv = sidOf y ∧
                 StableGrp chenv gA y)) := hgpt
          have hgbuilt' : ∀ (k : Nat) (gA : Group), ggs.length ≤ k →
              gs1[k]? = some gA →
              ∃ y, y ∈ groupChildren cs ∧ gA.idv = sidOf y ∧
                StableGrp chenv gA y := hgbuilt
          have hgpres' : ∀ y ∈ groupChildren cs,
              sidOf y ∉ ggs.map Group.idv →
              ∃ g' ∈ gs1, g'.idv = sidOf y := hgpres
          cases hremD : removeStaleDevices (gds.map Device.idv) nd1 ds1
              ad1 with
          | error e => exact (Except.noConfusion (hremD ▸ h))
          | ok prD =>
            obtain ⟨ds', ads'⟩ := prD
            simp only [hremD] at h
            cases hremG : removeStaleGroups (ggs.map Group.idv) ng1 gs1
                ag1 with
            | error e => exact (Except.noConfusion (hremG ▸ h))
            | ok prG =>
              obtain ⟨gs', ags'⟩ := prG
              simp only [hremG] at h
              injection h with h
              injection h with hge hce
              subst hge
              rw [hnd1'] at hremD
              rw [hng1'] at hremG
              have hcountD : ∀ u, u ∉ didsOf cs →
                  ds1.countP (fun d => d.idv == u) ≤ 1 :=
                pass1_count_bound_gen Device.idv (didsOf cs) gds ds1
                  (fun k d hk => by
                    obtain ⟨dA, hdA, hid, _⟩ := hdpt' k d hk
                    exact ⟨dA, hdA, hid⟩)
                  (fun k dA hk hks => by
                    obtain ⟨y', hy'm, hidy', _⟩ := hdbuilt' k dA hk hks
                    rw [hidy']
                    exact List.mem_map.mpr ⟨y', hy'm, rfl⟩)
                  hnddevids
              have hcountG : ∀ u, u ∉ gidsOf cs →
                  gs1.countP (fun g0 => g0.idv == u) ≤ 1 :=
                pass1_count_bound_gen Group.idv (gidsOf cs) ggs gs1
                  (fun k g0 hk => by
                    obtain ⟨gA, hgA, hid, _⟩ := hgpt' k g0 hk
                    exact ⟨gA, hgA, hid⟩)
                  (fun k gA hk hks => by
                    obtain ⟨y', hy'm, hidy', _⟩ := hgbuilt' k gA hk hks
                    rw [hidy']
                    exact List.mem_map.mpr ⟨y', hy'm, rfl⟩)
                  hndgrpids
              obtain ⟨hsubD, hcondD, hkeepD⟩ :=
                removeStaleDevices_facts (gds.map Device.idv) (didsOf cs)
                  ds1 ad1 ds' ads' hremD hcountD
              obtain ⟨hsubG, hcondG, hkeepG⟩ :=
                removeStaleGroups_facts (ggs.map Group.idv) (gidsOf cs)
                  gs1 ag1 gs' ags' hremG hcountG
              have hsurvD : ∀ d' ∈ ds', d'.idv ∈ didsOf cs := by
                intro d' hd'
                rcases hcondD d' hd' with hno | hyes
                · obtain ⟨k, hk⟩ :=
                    List.mem_iff_getElem?.mp (hsubD d' hd')
                  by_cases hklt : k < gds.length
                  · obtain ⟨d0, hd0⟩ := getElem?_some_of_lt gds k hklt
                    obtain ⟨dA, hdA, hid, _⟩ := hdpt' k d0 hd0
                    rw [hk] at hdA
                    injection hdA with hdA
                    refine absurd ?_ hno
                    rw [hdA, hid]
                    exact List.mem_map.mpr ⟨d0, List.getElem?_mem hd0, rfl⟩
                  · obtain ⟨y', hy'm, hidy', _⟩ :=
                      hdbuilt' k d' (Nat.le_of_not_lt hklt) hk
                    rw [hidy']
                    exact List.mem_map.mpr ⟨y', hy'm, rfl⟩
                · exact hyes
              have hsurvG : ∀ g' ∈ gs', g'.idv ∈ gidsOf cs := by
                intro g' hg'
                rcases hcondG g' hg' with hno | hyes
                · obtain ⟨k, hk⟩ :=
                    List.mem_iff_getElem?.mp (hsubG g' hg')
                  by_cases hklt : k < ggs.length
                  · obtain ⟨g0, hg0⟩ := getElem?_some_of_lt ggs k hklt
                    obtain ⟨gA, hgA, hid, _⟩ := hgpt' k g0 hg0
                    rw [hk] at hgA
                    injection hgA with hgA
                    refine absurd ?_ hno
                    rw [hgA, hid]
                    exact List.mem_map.mpr ⟨g0, List.getElem?_mem hg0, rfl⟩
                  · obtain ⟨y', hy'm, hidy', _⟩ :=
                      hgbuilt' k g' (Nat.le_of_not_lt hklt) hk
                    rw [hidy']
                    exact List.mem_map.mpr ⟨y', hy'm, rfl⟩
                · exact hyes
              have hstabD : ∀ y ∈ deviceChildren cs, ∀ d' ∈ ds',
                  d'.idv = sidOf y → StableDev chenv d' y := by
                intro y hy d' hd' hdy
                obtain ⟨k, hk⟩ := List.mem_iff_getElem?.mp (hsubD d' hd')
                by_cases hklt : k < gds.length
                · obtain ⟨d0, hd0⟩ := getElem?_some_of_lt gds k hklt
                  obtain ⟨dA, hdA, hid, hdisj⟩ := hdpt' k d0 hd0
                  rw [hk] at hdA
                  injection hdA with hdA
                  rcases hdisj with ⟨hAe, hnot⟩ |
                      ⟨y', hy'm, hidy', hstaby'⟩
                  · refine absurd ?_ hnot
                    rw [← hid, ← hdA, hdy]
                    exact List.mem_map.mpr ⟨y, hy, rfl⟩
                  · have hxy : y' = y := nodupB_map_inj sidOf
                      (deviceChildren cs) hnddids y' hy'm y hy
                      (by rw [← hidy', ← hdA, hdy])
                    rw [← hxy, hdA]
                    exact hstaby'
                · obtain ⟨y', hy'm, hidy', hstaby'⟩ :=
                    hdbuilt' k d' (Nat.le_of_not_lt hklt) hk
                  have hxy : y' = y := nodupB_map_inj sidOf
                    (deviceChildren cs) hnddids y' hy'm y hy
                    (by rw [← hidy', hdy])
                  rw [← hxy]
                  exact hstaby'
              have hstabG : ∀ y ∈ groupChildren cs, ∀ g' ∈ gs',
                  g'.idv = sidOf y → StableGrp chenv g' y := by
                intro y hy g' hg' hgy
                obtain ⟨k, hk⟩ := List.mem_iff_getElem?.mp (hsubG g' hg')
                by_cases hklt : k < ggs.length
                · obtain ⟨g0, hg0⟩ := getElem?_some_of_lt ggs k hklt
                  obtain ⟨gA, hgA, hid, hdisj⟩ := hgpt' k g0 hg0
                  rw [hk] at hgA
                  injection hgA with hgA
                  rcases hdisj with ⟨hAe, hnot⟩ |
                      ⟨y', hy'm, hidy', hstaby'⟩
                  · refine absurd ?_ hnot
                    rw [← hid, ← hgA, hgy]
                    exact List.mem_map.mpr ⟨y, hy, rfl⟩
                  · have hxy : y' = y := nodupB_map_inj sidOf
                      (groupChildren cs) hndgids y' hy'm y hy
                      (by rw [← hidy', ← hgA, hgy])
                    rw [← hxy, hgA]
                    exact hstaby'
                · obtain ⟨y', hy'm, hidy', hstaby'⟩ :=
                    hgbuilt' k g' (Nat.le_of_not_lt hklt) hk
                  have hxy : y' = y := nodupB_map_inj sidOf
                    (groupChildren cs) hndgids y' hy'm y hy
                    (by rw [← hidy', hgy])
                  rw [← hxy]
                  exact hstaby'
              have hpresD : ∀ y ∈ deviceChildren cs,
                  sidOf y ∈ ds'.map Device.idv := by
                intro y hy
                by_cases hyin : sidOf y ∈ gds.map Device.idv
                · obtain ⟨d0, hd0m, hd0i⟩ := List.mem_map.mp hyin
                  obtain ⟨k, hk⟩ := List.mem_iff_getElem?.mp hd0m
                  obtain ⟨dA, hdA, hid, _⟩ := hdpt' k d0 hk
                  have hdA' : dA ∈ ds' := by
                    refine hkeepD dA (List.getElem?_mem hdA) ?_
                    rw [hid, hd0i]
                    exact List.mem_map.mpr ⟨y, hy, rfl⟩
                  refine List.mem_map.mpr ⟨dA, hdA', ?_⟩
                  rw [hid, hd0i]
                · obtain ⟨d', hd'm, hd'i⟩ := hdpres' y hy hyin
                  have hd'' : d' ∈ ds' := by
                    refine hkeepD d' hd'm ?_
                    rw [hd'i]
                    exact List.mem_map.mpr ⟨y, hy, rfl⟩
                  exact List.mem_map.mpr ⟨d', hd'', hd'i⟩
              have hpresG : ∀ y ∈ groupChildren cs,
                  sidOf y ∈ gs'.map Group.idv := by
                intro y hy
                by_cases hyin : sidOf y ∈ ggs.map Group.idv
                · obtain ⟨g0, hg0m, hg0i⟩ := List.mem_map.mp hyin
                  obtain ⟨k, hk⟩ := List.mem_iff_getElem?.mp hg0m
                  obtain ⟨gA, hgA, hid, _⟩ := hgpt' k g0 hk
                  have hgA' : gA ∈ gs' := by
                    refine hkeepG gA (List.getElem?_mem hgA) ?_
                    rw [hid, hg0i]
                    exact List.mem_map.mpr ⟨y, hy, rfl⟩
                  refine List.mem_map.mpr ⟨gA, hgA', ?_⟩
                  rw [hid, hg0i]
                · obtain ⟨g', hg'm, hg'i⟩ := hgpres' y hy hyin
                  have hg'' : g' ∈ gs' := by
                    refine hkeepG g' hg'm ?_
                    rw [hg'i]
                    exact List.mem_map.mpr ⟨y, hy, rfl⟩
                  exact List.mem_map.mpr ⟨g', hg'', hg'i⟩
              constructor
              · show lookupA "id" a1 = sidOf (XNode.elem t xa cs)
                rw [ha1', lookupA_applyW, hlv', hsv]
              · intro c₂
                have hida : applyW (writesOfX ["device", "group"] cs) a1
                    = a1 := by
                  rw [ha1']
                  exact applyW_idem _ _ hnka
                have hdid2 : ∀ y ∈ deviceChildren cs,
                    (∃ u, findTagString "id" y = .ok (some u)) ∧
                    sidOf y ∈ ds'.map Device.idv := by
                  intro y hy
                  obtain ⟨u, hu, _⟩ := wfDevFrag_id y (hwfdevs y hy)
                  exact ⟨⟨u, hu⟩, hpresD y hy⟩
                have hgid2 : ∀ y ∈ groupChildren cs,
                    (∃ u, findTagString "id" y = .ok (some u)) ∧
                    sidOf y ∈ gs'.map Group.idv := by
                  intro y hy
                  obtain ⟨u, hu, _⟩ := wfGrpFrag_id y (hwfgrps y hy)
                  exact ⟨⟨u, hu⟩, hpresG y hy⟩
                have hloop2 := refreshGroupLoop_id chenv
                  (gs'.map Group.idv) (ds'.map Device.idv) cs a1 gs' ds'
                  ags' ads' [] [] c₂ hdid2 hgid2
                  (fun y hy d hd hdy => hstabD y hy d hd hdy)
                  (fun y hy g0 hg0 hgy => hstabG y hy g0 hg0 hgy)
                rw [hida] at hloop2
                have hrem2D : removeStaleDevices (ds'.map Device.idv)
                    ([] ++ didsOf cs) ds' ads' = .ok (ds', ads') := by
                  refine removeStaleDevices_id _ _ _ _ (fun u hu => ?_)
                  obtain ⟨d', hd', hdi⟩ := List.mem_map.mp hu
                  show u ∈ didsOf cs
                  rw [← hdi]
                  exact hsurvD d' hd'
                have hrem2G : removeStaleGroups (gs'.map Group.idv)
                    ([] ++ gidsOf cs) gs' ags' = .ok (gs', ags') := by
                  refine removeStaleGroups_id _ _ _ _ (fun u hu => ?_)
                  obtain ⟨g', hg', hgi⟩ := List.mem_map.mp hu
                  show u ∈ gidsOf cs
                  rw [← hgi]
                  exact hsurvG g' hg'
                simp only [refreshGroup, Group.devices, Group.groups,
                  Group.attrs, Group.allgroups, Group.alldevices,
                  Group.tok]
                simp only [hloop2]
                simp only [hrem2D]
                simp only [hrem2G]
    · -- build master
      intro c0
      rcases hbl : buildGroupLoop cs ⟨[], [], [], [], [], c0 + 1⟩ with
        ⟨a1, gs1, ds1, ag1, ad1, c1⟩
      obtain ⟨ha1, hdpt, hdbuilt, hdpres, hgpt, hgbuilt, hgpres⟩ :=
        buildGroupLoop_facts chenv henv cs [] [] [] [] [] (c0 + 1)
          ⟨a1, gs1, ds1, ag1, ad1, c1⟩ hbl hwfdevs hgm
      have ha1' : a1 = applyW (writesOfX ["device", "group"] cs) [] := ha1
      have hdbuilt' : ∀ (k : Nat) (dA : Device), ds1[k]? = some dA →
          ∃ y, y ∈ deviceChildren cs ∧ dA.idv = sidOf y ∧
            StableDev chenv dA y := fun k dA hk =>
        hdbuilt k dA (Nat.zero_le k) hk
      have hgbuilt' : ∀ (k : Nat) (gA : Group), gs1[k]? = some gA →
          ∃ y, y ∈ groupChildren cs ∧ gA.idv = sidOf y ∧
            StableGrp chenv gA y := fun k gA hk =>
        hgbuilt k gA (Nat.zero_le k) hk
      have hdpres' : ∀ y ∈ deviceChildren cs,
          ∃ d' ∈ ds1, d'.idv = sidOf y := hdpres
      have hgpres' : ∀ y ∈ groupChildren cs,
          ∃ g' ∈ gs1, g'.idv = sidOf y := hgpres
      have hnka1 : NK a1 := by
        rw [ha1']
        refine NK_applyW _ [] ?_
        simp [NK]
      have hbd : buildGroup (XNode.elem t xa cs) c0 =
          (.mk c0 (setA "type" "Group" a1) xa gs1 ds1 ag1 ad1, c1) := by
        rw [buildGroup, hbl]
      have hAval : applyW (writesOfX ["device", "group"] cs)
          (setA "type" "Group" a1) = setA "type" "Group" a1 := by
        refine applyW_stable _ _ (NK_setA _ _ _ hnka1) ?_
        intro k u hlk
        have hkt : k ≠ "type" := by
          intro he
          exact htype (he ▸ lastVal_some_mem k _ u hlk)
        rw [lookupA_setA_other "type" k _ _ hkt, ha1', lookupA_applyW, hlk]
      constructor
      · show (buildGroup (XNode.elem t xa cs) c0).1.idv =
          sidOf (XNode.elem t xa cs)
        rw [hbd]
        show lookupA "id" (setA "type" "Group" a1) =
          sidOf (XNode.elem t xa cs)
        rw [lookupA_setA_other "type" "id" _ _ (by decide), ha1',
          lookupA_applyW, hlv', hsv]
      · intro c₂
        rw [hbd]
        have hstabD2 : ∀ y ∈ deviceChildren cs, ∀ d ∈ ds1,
            d.idv = sidOf y → StableDev chenv d y := by
          intro y hy d hd hdy
          obtain ⟨k, hk⟩ := List.mem_iff_getElem?.mp hd
          obtain ⟨y', hy'm, hidy', hstaby'⟩ := hdbuilt' k d hk
          have hxy : y' = y := nodupB_map_inj sidOf (deviceChildren cs)
            hnddids y' hy'm y hy (by rw [← hidy', hdy])
          rw [← hxy]
          exact hstaby'
        have hstabG2 : ∀ y ∈ groupChildren cs, ∀ g0 ∈ gs1,
            g0.idv = sidOf y → StableGrp chenv g0 y := by
          intro y hy g0 hg0 hgy
          obtain ⟨k, hk⟩ := List.mem_iff_getElem?.mp hg0
          obtain ⟨y', hy'm, hidy', hstaby'⟩ := hgbuilt' k g0 hk
          have hxy : y' = y := nodupB_map_inj sidOf (groupChildren cs)
            hndgids y' hy'm y hy (by rw [← hidy', hgy])
          rw [← hxy]
          exact hstaby'
        have hdid2 : ∀ y ∈ deviceChildren cs,
            (∃ u, findTagString "id" y = .ok (some u)) ∧
            sidOf y ∈ ds1.map Device.idv := by
          intro y hy
          obtain ⟨u, hu, _⟩ := wfDevFrag_id y (hwfdevs y hy)
          obtain ⟨d', hd', hdi⟩ := hdpres' y hy
          exact ⟨⟨u, hu⟩, List.mem_map.mpr ⟨d', hd', hdi⟩⟩
        have hgid2 : ∀ y ∈ groupChildren cs,
            (∃ u, findTagString "id" y = .ok (some u)) ∧
            sidOf y ∈ gs1.map Group.idv := by
          intro y hy
          obtain ⟨u, hu, _⟩ := wfGrpFrag_id y (hwfgrps y hy)
          obtain ⟨g', hg', hgi⟩ := hgpres' y hy
          exact ⟨⟨u, hu⟩, List.mem_map.mpr ⟨g', hg', hgi⟩⟩
        have hloop2 := refreshGroupLoop_id chenv (gs1.map Group.idv)
          (ds1.map Device.idv) cs (setA "type" "Group" a1) gs1 ds1 ag1 ad1
          [] [] c₂ hdid2 hgid2 hstabD2 hstabG2
        rw [hAval] at hloop2
        have hrem2D : removeStaleDevices (ds1.map Device.idv)
            ([] ++ didsOf cs) ds1 ad1 = .ok (ds1, ad1) := by
          refine removeStaleDevices_id _ _ _ _ (fun u hu => ?_)
          obtain ⟨d', hd', hdi⟩ := List.mem_map.mp hu
          obtain ⟨k, hk⟩ := List.mem_iff_getElem?.mp hd'
          obtain ⟨y', hy'm, hidy', _⟩ := hdbuilt' k d' hk
          show u ∈ didsOf cs
          rw [← hdi, hidy']
          exact List.mem_map.mpr ⟨y', hy'm, rfl⟩
        have hrem2G : removeStaleGroups (gs1.map Group.idv)
            ([] ++ gidsOf cs) gs1 ag1 = .ok (gs1, ag1) := by
          refine removeStaleGroups_id _ _ _ _ (fun u hu => ?_)
          obtain ⟨g', hg', hgi⟩ := List.mem_map.mp hu
          obtain ⟨k, hk⟩ := List.mem_iff_getElem?.mp hg'
          obtain ⟨y', hy'm, hidy', _⟩ := hgbuilt' k g' hk
          show u ∈ gidsOf cs
          rw [← hgi, hidy']
          exact List.mem_map.mpr ⟨y', hy'm, rfl⟩
        simp only [refreshGroup, Group.devices, Group.groups, Group.attrs,
          Group.allgroups, Group.alldevices, Group.tok]
        simp only [hloop2]
        simp only [hrem2D]
        simp only [hrem2G]

/-- C2: Reconciling the same parent twice against fragments with identical
content is idempotent: under the well-formedness invariants (distinct
attribute keys in the tracked state, children of the fragment carrying
consistent distinct ids, well-formed channel tables), a second
`Device.refresh` or `Group.refresh` with the same fragment returns the very
state produced by the first pass unchanged — every child present by id in
both passes is reused in place (no new entity is constructed, the
allocation counter does not advance, no collection entry is replaced), and
all scalar fields keep their first-pass values. -/
theorem refresh_reconcile_idempotent (chenv : Option String → XNode)
    (henv : wfChanEnv chenv) :
    (∀ (d : Device) (frag : XNode) (c : Nat) (d1 : Device) (c1 : Nat),
      wfDevFrag frag = true → entWFDev d →
      refreshDevice chenv d frag c = .ok (d1, c1) →
      refreshDevice chenv d1 frag c1 = .ok (d1, c1)) ∧
    (∀ (g : Group) (frag : XNode) (c : Nat) (g1 : Group) (c1 : Nat),
      wfGrpFrag frag = true → entWFG g = true →
      refreshGroup chenv g frag c = .ok (g1, c1) →
      refreshGroup chenv g1 frag c1 = .ok (g1, c1)) := by
  constructor
  · intro d frag c d1 c1 hwf hent h
    obtain ⟨_, _, hstab⟩ :=
      refreshDevice_master chenv henv d frag c d1 c1 hwf hent h
    exact hstab c1
  · intro g frag c g1 c1 hwf hent h
    obtain ⟨hr, _⟩ := refreshGroup_master_aux chenv henv (sizeOf frag)
      frag (le_refl _) hwf
    obtain ⟨_, hstab⟩ := hr g c g1 c1 hent h
    exact hstab c1

/-- An (empty, trivially well-formed) channel table for the witness. -/
def chDocW2 : XNode := .elem "channels" [] []

/-- Channel environment used by the idempotence witness. -/
def chenvW2 : Option String → XNode := fun _ => chDocW2

/-- `<device><id>2</id><name>D</name></device>`. -/
def fragDevW : XNode :=
  .elem "device" [] [.elem "id" [] [.text "2"],
    .elem "name" [] [.text "D"]]

/-- `<group><id>1</id><name>G</name>` + the device fragment. -/
def fragGrpW : XNode :=
  .elem "group" [] [.elem "id" [] [.text "1"],
    .elem "name" [] [.text "G"], fragDevW]

/-- A tracked device with a stale `name`. -/
def devW0 : Device :=
  ⟨1, [("type", "Device"), ("id", "2"), ("name", "Old")], [], [], [], []⟩

/-- The same device after the first refresh. -/
def devW1 : Device :=
  ⟨1, [("type", "Device"), ("id", "2"), ("name", "D")], [], [], [], []⟩

/-- A tracked group with a stale `name`, containing `devW0`. -/
def grpW0 : Group :=
  .mk 0 [("type", "Group"), ("id", "1"), ("name", "Old")] [] [] [devW0]
    [] [1]

/-- The same group after the first refresh. -/
def grpW1 : Group :=
  .mk 0 [("type", "Group"), ("id", "1"), ("name", "G")] [] [] [devW1]
    [] [1]

theorem refresh_reconcile_idempotent_witness :
    refreshDevice chenvW2 devW1 fragDevW 5 = .ok (devW1, 5) ∧
    refreshGroup chenvW2 grpW1 fragGrpW 5 = .ok (grpW1, 5) :=
  ⟨(refresh_reconcile_idempotent chenvW2
      (fun i => (by decide : wfChanDoc chDocW2 = true))).1 devW0
      fragDevW 5 devW1 5 (by decide)
      (entWFDev_of_B devW0 (by decide)) rfl,
   (refresh_reconcile_idempotent chenvW2
      (fun i => (by decide : wfChanDoc chDocW2 = true))).2 grpW0
      fragGrpW 5 grpW1 5 (by decide) (by decide) rfl⟩

end Prtg
